import Mathlib

/-!
Shallow embedding of the matchbook limit order book (src/types.rs, src/order.rs,
src/trade.rs, src/error.rs, src/orderbook.rs) and verification of the frozen
claims about it.

Modelling conventions:
* `Price` and `Quantity` are `u32` in the source; we model them as `Nat`.
  The only subtraction performed on quantities is `saturating_sub`, which is
  exactly `Nat` subtraction, and the `fill` guard prevents underflow anyway.
  `can_fully_fill` sums into a `u64` accumulator; the sum of the (u32)
  remaining quantities of the finitely many resting orders never exceeds
  `u64`, so a `Nat` sum is faithful.
* `OrderId` is an opaque equality-comparable value; we model it as `Nat`.
* The two `BTreeMap` sides are modelled as association lists sorted by key
  (bids descending, asks ascending), sorted-by-construction through the
  operations from the empty book; `keys().next()` / `first_key_value()` is
  the list head.  `VecDeque` is a `List` with head = front.
* Mutating Rust methods returning `Result<(), OrderError>` become functions
  returning `Except OrderError Unit × State` (state-passing).
* The `while` loop of `match_orders` is modelled with fuel; one more unit of
  fuel than the number of resting orders is always sufficient, because every
  iteration of the source loop removes at least one fully filled order
  (proved below as `levelOrdersCount_match_step_lt`).
-/

namespace Matchbook

open scoped List

/-- Side of an order, from src/types.rs. -/
inductive Side where
  | Buy
  | Sell
deriving DecidableEq, Repr

/-- Order lifetime policy, from src/types.rs. -/
inductive OrderType where
  | GoodTillCancelled
  | FillAndKill
  | FillOrKill
  | GoodForDay
  | Market
deriving DecidableEq, Repr

/-- Error taxonomy, from src/error.rs. -/
inductive OrderError where
  | FillOverflow
  | IdExists
  | CantMatch
  | OrderNotFound
  | CantFullyFill
  | NoLiquidity
deriving DecidableEq, Repr

/-- Price::min() is 0 (src/types.rs). -/
def Price.min : Nat := 0

/-- Price::max() is u32::MAX (src/types.rs). -/
def Price.max : Nat := 2 ^ 32 - 1

/-- A single order, from src/order.rs. -/
structure Order where
  order_id : Nat
  order_type : OrderType
  side : Side
  price : Nat
  initial_quantity : Nat
  remaining_quantity : Nat
deriving DecidableEq, Repr

/-- Order::new (src/order.rs): market orders get a sentinel price substituted
for the caller-supplied price; remaining starts equal to initial. -/
def Order.new (order_id : Nat) (order_type : OrderType) (side : Side)
    (price : Nat) (initial_quantity : Nat) : Order :=
  let effective_price :=
    if order_type = OrderType.Market then
      match side with
      | Side.Buy => Price.max
      | Side.Sell => Price.min
    else price
  { order_id := order_id, order_type := order_type, side := side,
    price := effective_price, initial_quantity := initial_quantity,
    remaining_quantity := initial_quantity }

/-- Order::filled_quantity (src/order.rs). -/
def Order.filled_quantity (o : Order) : Nat :=
  o.initial_quantity - o.remaining_quantity

/-- Order::fill (src/order.rs), state-passing: `&mut self` plus the returned
`Result<(), OrderError>`.  On the error branch the order is unchanged. -/
def Order.fill (o : Order) (quantity : Nat) : Except OrderError Unit × Order :=
  if o.remaining_quantity < quantity then (Except.error OrderError.FillOverflow, o)
  else (Except.ok (), { o with remaining_quantity := o.remaining_quantity - quantity })

/-- Order::is_filled (src/order.rs). -/
def Order.is_filled (o : Order) : Bool :=
  o.remaining_quantity == 0

/-- Orders is a VecDeque of Order (src/order.rs); front = list head. -/
abbrev Orders := List Order

/-- Orders::get (src/order.rs): first order with the given id. -/
def Orders.get (l : Orders) (id : Nat) : Option Order :=
  l.find? (fun o => o.order_id == id)

/-- Orders::contains (src/order.rs). -/
def Orders.contains (l : Orders) (id : Nat) : Bool :=
  (Orders.get l id).isSome

/-- Orders::push_back (src/order.rs). -/
def Orders.push_back (l : Orders) (o : Order) : Orders :=
  l ++ [o]

/-- Orders::delete (src/order.rs): removes the first order with the id,
no-op if absent. -/
def Orders.delete (l : Orders) (id : Nat) : Orders :=
  match l with
  | [] => []
  | o :: rest => if o.order_id == id then rest else o :: Orders.delete rest id

/-- Models `get_mut(id)` followed by `o.remaining_quantity = q` on the first
matching order (src/orderbook.rs modify_order); no-op when absent. -/
def Orders.set_quantity (l : Orders) (id : Nat) (q : Nat) : Orders :=
  match l with
  | [] => []
  | o :: rest =>
    if o.order_id == id then { o with remaining_quantity := q } :: rest
    else o :: Orders.set_quantity rest id q

/-- One executed side of a trade, from src/trade.rs. -/
structure TradeInfo where
  order_id : Nat
  price : Nat
  quantity : Nat
deriving DecidableEq, Repr

/-- A trade records both sides, from src/trade.rs. -/
structure Trade where
  bid_trade : TradeInfo
  ask_trade : TradeInfo
deriving DecidableEq, Repr

/-- One price level: the key and its FIFO queue. -/
abbrev Level := Nat × List Order

/-- A side of the book: association list sorted by key (a BTreeMap in the
source); the head is the best price level. -/
abbrev SideMap := List Level

/-- BTreeMap::get for a side. -/
def lookupLevel (m : SideMap) (p : Nat) : Option (List Order) :=
  (m.find? (fun e => e.1 == p)).map Prod.snd

/-- Apply `f` to the queue stored at key `p` (models `get_mut` followed by a
mutation of the queue); identity when the key is absent. -/
def updateLevel (m : SideMap) (p : Nat) (f : List Order → List Order) : SideMap :=
  m.map (fun e => if e.1 == p then (e.1, f e.2) else e)

/-- BTreeMap::insert of a fresh key, keeping the keys sorted by `lt`. -/
def insertLevelBy (lt : Nat → Nat → Bool) (p : Nat) (q : List Order) :
    SideMap → SideMap
  | [] => [(p, q)]
  | e :: rest =>
    if lt p e.1 then (p, q) :: e :: rest else e :: insertLevelBy lt p q rest

/-- BTreeMap::remove. -/
def removeLevel (p : Nat) : SideMap → SideMap
  | [] => []
  | e :: rest => if e.1 == p then rest else e :: removeLevel p rest

/-- Bid keys are ordered best-first = highest-first (Reverse<Price> in the
source). -/
def bidLt (a b : Nat) : Bool := b < a

/-- Ask keys are ordered best-first = lowest-first. -/
def askLt (a b : Nat) : Bool := a < b

/-- The Orderbook (src/orderbook.rs): two price-ordered sides, the global
order index, and the trade ledger.  The shutdown/threading fields take no
part in any book-state computation and are omitted. -/
structure Orderbook where
  bids : SideMap
  asks : SideMap
  orders : Orders
  trades : List Trade
deriving DecidableEq, Repr

/-- Orderbook::new (src/orderbook.rs). -/
def Orderbook.new : Orderbook :=
  { bids := [], asks := [], orders := [], trades := [] }

/-- Orderbook::can_match (src/orderbook.rs). -/
def Orderbook.can_match (bk : Orderbook) (side : Side) (price : Nat) : Bool :=
  match side with
  | Side.Buy =>
    match bk.asks.head? with
    | some e => decide (e.1 ≤ price)
    | none => false
  | Side.Sell =>
    match bk.bids.head? with
    | some e => decide (price ≤ e.1)
    | none => false

/-- Sum of remaining quantities of a queue. -/
def levelQty (q : List Order) : Nat :=
  (q.map (fun o => o.remaining_quantity)).sum

/-- Orderbook::can_fully_fill (src/orderbook.rs): aggregate remaining
quantity over every opposing level whose price crosses. -/
def Orderbook.can_fully_fill (bk : Orderbook) (side : Side) (price : Nat)
    (remaining_quantity : Nat) : Bool :=
  let available :=
    match side with
    | Side.Buy => ((bk.asks.filter (fun e => decide (e.1 ≤ price))).map
        (fun e => levelQty e.2)).sum
    | Side.Sell => ((bk.bids.filter (fun e => decide (price ≤ e.1))).map
        (fun e => levelQty e.2)).sum
  decide (remaining_quantity ≤ available)

/-- Orderbook::has_liquidity (src/orderbook.rs). -/
def Orderbook.has_liquidity (bk : Orderbook) (side : Side) : Bool :=
  match side with
  | Side.Buy => !bk.asks.isEmpty
  | Side.Sell => !bk.bids.isEmpty

/-- The insertion phase of add_order: append to the price level's queue
(creating the level if absent) and to the global index. -/
def Orderbook.insert_order (bk : Orderbook) (o : Order) : Orderbook :=
  match o.side with
  | Side.Buy =>
    match lookupLevel bk.bids o.price with
    | some _ =>
      { bk with bids := updateLevel bk.bids o.price (fun q => Orders.push_back q o),
                orders := Orders.push_back bk.orders o }
    | none =>
      { bk with bids := insertLevelBy bidLt o.price [o] bk.bids,
                orders := Orders.push_back bk.orders o }
  | Side.Sell =>
    match lookupLevel bk.asks o.price with
    | some _ =>
      { bk with asks := updateLevel bk.asks o.price (fun q => Orders.push_back q o),
                orders := Orders.push_back bk.orders o }
    | none =>
      { bk with asks := insertLevelBy askLt o.price [o] bk.asks,
                orders := Orders.push_back bk.orders o }

/-- Orderbook::add_order (src/orderbook.rs): id-uniqueness check, then the
per-order-type admission predicate, then insertion.  No matching happens. -/
def Orderbook.add_order (bk : Orderbook) (o : Order) :
    Except OrderError Unit × Orderbook :=
  if Orders.contains bk.orders o.order_id then (Except.error OrderError.IdExists, bk)
  else
    match o.order_type with
    | OrderType.FillAndKill =>
      if !bk.can_match o.side o.price then (Except.error OrderError.CantMatch, bk)
      else (Except.ok (), bk.insert_order o)
    | OrderType.FillOrKill =>
      if !bk.can_fully_fill o.side o.price o.remaining_quantity then
        (Except.error OrderError.CantFullyFill, bk)
      else (Except.ok (), bk.insert_order o)
    | OrderType.Market =>
      if !bk.has_liquidity o.side then (Except.error OrderError.NoLiquidity, bk)
      else (Except.ok (), bk.insert_order o)
    | OrderType.GoodTillCancelled => (Except.ok (), bk.insert_order o)
    | OrderType.GoodForDay => (Except.ok (), bk.insert_order o)

/-- Orderbook::modify_order (src/orderbook.rs): overwrite remaining_quantity
in the global index's copy and in the price-level queue's copy, preserving
queue position. -/
def Orderbook.modify_order (bk : Orderbook) (order_id : Nat) (new_quantity : Nat) :
    Except OrderError Unit × Orderbook :=
  match Orders.get bk.orders order_id with
  | none => (Except.error OrderError.OrderNotFound, bk)
  | some o =>
    let orders1 := Orders.set_quantity bk.orders order_id new_quantity
    match o.side with
    | Side.Buy =>
      (Except.ok (), { bk with orders := orders1,
                               bids := updateLevel bk.bids o.price
                                 (fun q => Orders.set_quantity q order_id new_quantity) })
    | Side.Sell =>
      (Except.ok (), { bk with orders := orders1,
                               asks := updateLevel bk.asks o.price
                                 (fun q => Orders.set_quantity q order_id new_quantity) })

/-- Orderbook::cancel_order (src/orderbook.rs): remove from the global index
and from the side's price level, removing the level if it becomes empty. -/
def Orderbook.cancel_order (bk : Orderbook) (order_id : Nat) :
    Except OrderError Unit × Orderbook :=
  match Orders.get bk.orders order_id with
  | none => (Except.error OrderError.OrderNotFound, bk)
  | some o =>
    let orders1 := Orders.delete bk.orders order_id
    match o.side with
    | Side.Buy =>
      match lookupLevel bk.bids o.price with
      | some q =>
        let q1 := Orders.delete q order_id
        let bids1 := if q1.isEmpty then removeLevel o.price bk.bids
                     else updateLevel bk.bids o.price (fun _ => q1)
        (Except.ok (), { bk with orders := orders1, bids := bids1 })
      | none => (Except.ok (), { bk with orders := orders1 })
    | Side.Sell =>
      match lookupLevel bk.asks o.price with
      | some q =>
        let q1 := Orders.delete q order_id
        let asks1 := if q1.isEmpty then removeLevel o.price bk.asks
                     else updateLevel bk.asks o.price (fun _ => q1)
        (Except.ok (), { bk with orders := orders1, asks := asks1 })
      | none => (Except.ok (), { bk with orders := orders1 })

/-- Guard of the matching loop of Orderbook::match_orders: both sides
non-empty and best bid price not below best ask price. -/
def Orderbook.match_cond (bk : Orderbook) : Bool :=
  match bk.bids.head?, bk.asks.head? with
  | some b, some a => decide (a.1 ≤ b.1)
  | _, _ => false

/-- One iteration of the matching loop of Orderbook::match_orders: fill the
two head orders of the best levels by the minimum of their remaining
quantities, record the trade, pop fully filled heads (deleting them from the
global index), and drop emptied levels.  The source `.unwrap()`s the heads of
the level queues; a well-formed book never stores an empty level, and for an
ill-formed one we return the book unchanged where the source would panic. -/
def Orderbook.match_step (bk : Orderbook) : Orderbook :=
  match bk.bids, bk.asks with
  | (bp, bq) :: brest, (ap, aq) :: arest =>
    match bq.head?, aq.head? with
    | some bid_order, some ask_order =>
      let to_fill := min bid_order.remaining_quantity ask_order.remaining_quantity
      let bid_order2 := (Order.fill bid_order to_fill).2
      let ask_order2 := (Order.fill ask_order to_fill).2
      let trade_price := if ap == Price.min then bp else ap
      let trades1 := bk.trades ++
        [{ bid_trade := ⟨bid_order.order_id, trade_price, to_fill⟩,
           ask_trade := ⟨ask_order.order_id, trade_price, to_fill⟩ }]
      let bids2 :=
        if bid_order2.is_filled then
          (if bq.tail.isEmpty then brest else (bp, bq.tail) :: brest)
        else (bp, bid_order2 :: bq.tail) :: brest
      let orders2 :=
        if bid_order2.is_filled then Orders.delete bk.orders bid_order.order_id
        else bk.orders
      let asks2 :=
        if ask_order2.is_filled then
          (if aq.tail.isEmpty then arest else (ap, aq.tail) :: arest)
        else (ap, ask_order2 :: aq.tail) :: arest
      let orders3 :=
        if ask_order2.is_filled then Orders.delete orders2 ask_order.order_id
        else orders2
      { bids := bids2, asks := asks2, orders := orders3, trades := trades1 }
    | _, _ => bk
  | _, _ => bk

/-- The matching loop, with fuel (see the file comment). -/
def Orderbook.match_loop : Nat → Orderbook → Orderbook
  | 0, bk => bk
  | fuel + 1, bk =>
    if bk.match_cond then Orderbook.match_loop fuel bk.match_step else bk

/-- Total number of orders resting in the price levels of both sides. -/
def levelOrdersCount (bk : Orderbook) : Nat :=
  ((bk.bids.map (fun e => e.2.length)).sum) +
    ((bk.asks.map (fun e => e.2.length)).sum)

/-- The ids collected by the post-loop sweep of Orderbook::match_orders: the
FillAndKill and Market orders of the best remaining bid level and the best
remaining ask level.  Both lists are collected before any cancellation. -/
def Orderbook.sweep_ids (bk : Orderbook) : List Nat :=
  let bid_fak_ids :=
    match bk.bids.head? with
    | some e => ((e.2.filter (fun o =>
        (o.order_type == OrderType.FillAndKill) || (o.order_type == OrderType.Market))).map
        (fun o => o.order_id))
    | none => []
  let ask_fak_ids :=
    match bk.asks.head? with
    | some e => ((e.2.filter (fun o =>
        (o.order_type == OrderType.FillAndKill) || (o.order_type == OrderType.Market))).map
        (fun o => o.order_id))
    | none => []
  bid_fak_ids ++ ask_fak_ids

/-- The post-loop sweep: cancel each collected id, ignoring errors. -/
def Orderbook.sweep (bk : Orderbook) : Orderbook :=
  bk.sweep_ids.foldl (fun b id => (Orderbook.cancel_order b id).2) bk

/-- Orderbook::match_orders (src/orderbook.rs): the matching loop followed by
the FillAndKill/Market sweep. -/
def Orderbook.match_orders (bk : Orderbook) : Orderbook :=
  Orderbook.sweep (Orderbook.match_loop (levelOrdersCount bk + 1) bk)

/-- Orderbook::prune_good_for_day_orders (src/orderbook.rs): collect the ids
of all GoodForDay orders in the global index, then cancel each, ignoring
errors. -/
def Orderbook.prune_good_for_day_orders (bk : Orderbook) : Orderbook :=
  ((bk.orders.filter (fun o => o.order_type == OrderType.GoodForDay)).map
    (fun o => o.order_id)).foldl (fun b id => (Orderbook.cancel_order b id).2) bk

/-- Orderbook::clear_trades (src/orderbook.rs). -/
def Orderbook.clear_trades (bk : Orderbook) : Orderbook :=
  { bk with trades := [] }

/-- Book states reachable from the empty book by the public operations; the
lifecycle of the spec constructs submitted orders through Order::new. -/
inductive Reachable : Orderbook → Prop where
  | empty : Reachable Orderbook.new
  | add (bk : Orderbook) (id : Nat) (t : OrderType) (s : Side) (p q : Nat) :
      Reachable bk → Reachable (bk.add_order (Order.new id t s p q)).2
  | cancel (bk : Orderbook) (id : Nat) :
      Reachable bk → Reachable (bk.cancel_order id).2
  | modify (bk : Orderbook) (id q : Nat) :
      Reachable bk → Reachable (bk.modify_order id q).2
  | matched (bk : Orderbook) : Reachable bk → Reachable bk.match_orders
  | pruned (bk : Orderbook) : Reachable bk → Reachable bk.prune_good_for_day_orders
  | cleared (bk : Orderbook) : Reachable bk → Reachable bk.clear_trades

/-! Derived views of a book used to state the claims. -/

/-- All orders resting in the price levels of one side, best level first,
FIFO order within a level. -/
def sideOrders (m : SideMap) : List Order :=
  (m.map Prod.snd).flatten

/-- All orders resting in the price levels of the book. -/
def allLevelOrders (bk : Orderbook) : List Order :=
  sideOrders bk.bids ++ sideOrders bk.asks

/-- Ids of all orders resting in price levels. -/
def levelIds (bk : Orderbook) : List Nat :=
  (allLevelOrders bk).map Order.order_id

/-- Ids of all orders in the global index. -/
def indexIds (bk : Orderbook) : List Nat :=
  bk.orders.map Order.order_id

/-- Keys of the bid side, best (highest) first. -/
def bidKeys (bk : Orderbook) : List Nat :=
  bk.bids.map Prod.fst

/-- Keys of the ask side, best (lowest) first. -/
def askKeys (bk : Orderbook) : List Nat :=
  bk.asks.map Prod.fst

/-- The book is not crossed: both sides present implies best bid price is
strictly below best ask price. -/
def uncrossed (bk : Orderbook) : Bool :=
  match bk.bids.head?, bk.asks.head? with
  | some b, some a => decide (b.1 < a.1)
  | _, _ => true

/-! Basic lemmas about the list primitives. -/

theorem Orders.delete_sublist (l : Orders) (id : Nat) :
    List.Sublist (Orders.delete l id) l := by
  induction l with
  | nil => simp [Orders.delete]
  | cons o rest ih =>
    simp only [Orders.delete]
    split
    · exact List.sublist_cons_self o rest
    · exact List.Sublist.cons₂ o ih

theorem Orders.mem_of_mem_delete {l : Orders} {id : Nat} {o : Order}
    (h : o ∈ Orders.delete l id) : o ∈ l :=
  (Orders.delete_sublist l id).subset h

theorem Orders.mem_delete_of_ne {l : Orders} {id : Nat} {o : Order}
    (h : o ∈ l) (hne : o.order_id ≠ id) : o ∈ Orders.delete l id := by
  induction l with
  | nil => simp at h
  | cons a rest ih =>
    simp only [Orders.delete]
    rcases List.mem_cons.1 h with rfl | hmem
    · have : (o.order_id == id) = false := by simpa using hne
      simp [this]
    · split
      · exact hmem
      · exact List.mem_cons_of_mem _ (ih hmem)

theorem Orders.ids_delete (l : Orders) (id : Nat) :
    (Orders.delete l id).map Order.order_id = (l.map Order.order_id).erase id := by
  induction l with
  | nil => simp [Orders.delete]
  | cons o rest ih =>
    simp only [Orders.delete, List.map_cons]
    by_cases h : o.order_id = id
    · simp [h, List.erase_cons_head]
    · have hb : (o.order_id == id) = false := by simpa using h
      rw [List.erase_cons_tail]
      · simp [hb, ih]
      · simpa using h

theorem Orders.ids_set_quantity (l : Orders) (id q : Nat) :
    (Orders.set_quantity l id q).map Order.order_id = l.map Order.order_id := by
  induction l with
  | nil => simp [Orders.set_quantity]
  | cons o rest ih =>
    simp only [Orders.set_quantity]
    split
    · simp
    · simpa using ih

theorem Orders.mem_set_quantity {l : Orders} {id q : Nat} {o' : Order}
    (h : o' ∈ Orders.set_quantity l id q) :
    o' ∈ l ∨ ∃ o ∈ l, o.order_id = id ∧ o' = { o with remaining_quantity := q } := by
  induction l with
  | nil => simp [Orders.set_quantity] at h
  | cons a rest ih =>
    simp only [Orders.set_quantity] at h
    split at h
    · next hbeq =>
      rcases List.mem_cons.1 h with heq | hmem
      · exact Or.inr ⟨a, List.mem_cons_self a rest, by simpa using hbeq, heq⟩
      · exact Or.inl (List.mem_cons_of_mem _ hmem)
    · rcases List.mem_cons.1 h with heq | hmem
      · exact Or.inl (by rw [heq]; exact List.mem_cons_self _ _)
      · rcases ih hmem with h1 | ⟨o, ho, hid, ho'⟩
        · exact Or.inl (List.mem_cons_of_mem _ h1)
        · exact Or.inr ⟨o, List.mem_cons_of_mem _ ho, hid, ho'⟩

theorem removeLevel_sublist (p : Nat) (m : SideMap) :
    List.Sublist (removeLevel p m) m := by
  induction m with
  | nil => simp [removeLevel]
  | cons e rest ih =>
    simp only [removeLevel]
    split
    · exact List.sublist_cons_self e rest
    · exact List.Sublist.cons₂ e ih

theorem keys_removeLevel (p : Nat) (m : SideMap) :
    (removeLevel p m).map Prod.fst = (m.map Prod.fst).erase p := by
  induction m with
  | nil => simp [removeLevel]
  | cons e rest ih =>
    simp only [removeLevel, List.map_cons]
    by_cases h : e.1 = p
    · simp [h, List.erase_cons_head]
    · have hb : (e.1 == p) = false := by simpa using h
      rw [List.erase_cons_tail]
      · simp [hb, ih]
      · simpa using h

theorem keys_updateLevel (m : SideMap) (p : Nat) (f : List Order → List Order) :
    (updateLevel m p f).map Prod.fst = m.map Prod.fst := by
  induction m with
  | nil => simp [updateLevel]
  | cons e rest ih =>
    simp only [updateLevel, List.map_cons] at ih ⊢
    split
    · simpa using ih
    · simpa using ih

theorem mem_updateLevel {m : SideMap} {p : Nat} {f : List Order → List Order}
    {e' : Level} (h : e' ∈ updateLevel m p f) :
    ∃ e ∈ m, e' = if e.1 = p then (e.1, f e.2) else e := by
  rcases List.mem_map.1 h with ⟨e, he, rfl⟩
  refine ⟨e, he, ?_⟩
  by_cases hp : e.1 = p
  · simp [hp]
  · have hb : (e.1 == p) = false := by simpa using hp
    simp [hb, hp]

theorem mem_insertLevelBy {lt : Nat → Nat → Bool} {p : Nat} {q : List Order}
    {m : SideMap} {e : Level} :
    e ∈ insertLevelBy lt p q m ↔ e = (p, q) ∨ e ∈ m := by
  induction m with
  | nil => simp [insertLevelBy]
  | cons a rest ih =>
    simp only [insertLevelBy]
    split
    · simp [List.mem_cons, or_assoc]
    · simp only [List.mem_cons, ih]
      tauto

theorem updateLevel_of_not_mem {m : SideMap} {p : Nat}
    {f : List Order → List Order} (h : p ∉ m.map Prod.fst) :
    updateLevel m p f = m := by
  induction m with
  | nil => rfl
  | cons e rest ih =>
    simp only [List.map_cons, List.mem_cons, not_or] at h
    have hb : (e.1 == p) = false := by
      simp only [beq_eq_false_iff_ne, ne_eq]
      exact fun hc => h.1 hc.symm
    have ih' := ih h.2
    simp only [updateLevel] at ih'
    simp only [updateLevel, List.map_cons, hb, Bool.false_eq_true, if_false]
    rw [ih']

theorem lookup_updateLevel_self (m : SideMap) (p : Nat)
    (f : List Order → List Order) :
    lookupLevel (updateLevel m p f) p = (lookupLevel m p).map f := by
  induction m with
  | nil => rfl
  | cons e rest ih =>
    by_cases hp : e.1 = p
    · have hb : (e.1 == p) = true := by simpa using hp
      simp [updateLevel, lookupLevel, List.find?, hb]
    · have hb : (e.1 == p) = false := by simpa using hp
      simpa [updateLevel, lookupLevel, List.find?, hb] using ih

theorem lookup_updateLevel_ne (m : SideMap) {p p' : Nat}
    (f : List Order → List Order) (h : p' ≠ p) :
    lookupLevel (updateLevel m p f) p' = lookupLevel m p' := by
  induction m with
  | nil => rfl
  | cons e rest ih =>
    by_cases hp : e.1 = p
    · have hb : (e.1 == p) = true := by simpa using hp
      have hb' : (e.1 == p') = false := by
        simp only [beq_eq_false_iff_ne, ne_eq]
        exact fun hc => h (hc ▸ hp)
      simp [updateLevel, lookupLevel, List.find?, hb, hb'] at ih ⊢
      simpa [lookupLevel] using ih
    · have hb : (e.1 == p) = false := by simpa using hp
      by_cases hq : e.1 = p'
      · have hb' : (e.1 == p') = true := by simpa using hq
        simp [updateLevel, lookupLevel, List.find?, hb, hb']
      · have hb' : (e.1 == p') = false := by simpa using hq
        simpa [updateLevel, lookupLevel, List.find?, hb, hb'] using ih

theorem lookup_insertLevelBy_self {lt : Nat → Nat → Bool} {p : Nat}
    {q : List Order} {m : SideMap} (h : lookupLevel m p = none) :
    lookupLevel (insertLevelBy lt p q m) p = some q := by
  induction m with
  | nil => simp [insertLevelBy, lookupLevel, List.find?]
  | cons e rest ih =>
    simp only [lookupLevel, List.find?] at h
    rcases he : (e.1 == p) with _ | _
    · rw [he] at h
      simp only [insertLevelBy]
      split
      · simp [lookupLevel, List.find?]
      · simp only [lookupLevel, List.find?, he]
        exact ih (by simpa [lookupLevel] using h)
    · rw [he] at h
      simp at h

theorem lookup_insertLevelBy_ne {lt : Nat → Nat → Bool} {p p' : Nat}
    {q : List Order} {m : SideMap} (h : p' ≠ p) :
    lookupLevel (insertLevelBy lt p q m) p' = lookupLevel m p' := by
  have hb : (p == p') = false := by
    simp only [beq_eq_false_iff_ne, ne_eq]
    exact fun hc => h hc.symm
  induction m with
  | nil => simp [insertLevelBy, lookupLevel, List.find?, hb]
  | cons e rest ih =>
    simp only [insertLevelBy]
    split
    · simp [lookupLevel, List.find?, hb]
    · rcases he : (e.1 == p') with _ | _
      · simpa [lookupLevel, List.find?, he] using ih
      · simp [lookupLevel, List.find?, he]

/-- The head order of the best bid level, when both exist. -/
def headBidOrder? (bk : Orderbook) : Option Order :=
  bk.bids.head?.bind (fun e => e.2.head?)

/-- The head order of the best ask level, when both exist. -/
def headAskOrder? (bk : Orderbook) : Option Order :=
  bk.asks.head?.bind (fun e => e.2.head?)

theorem Order.fill_of_le {o : Order} {q : Nat} (h : q ≤ o.remaining_quantity) :
    Order.fill o q =
      (Except.ok (), { o with remaining_quantity := o.remaining_quantity - q }) := by
  simp [Order.fill, Nat.not_lt.2 h]

/-- add_order either admits the order (and only then inserts) or returns an
error leaving the book unchanged. -/
theorem add_order_cases (bk : Orderbook) (o : Order) :
    bk.add_order o = (Except.ok (), bk.insert_order o) ∨
      ∃ e, bk.add_order o = (Except.error e, bk) := by
  unfold Orderbook.add_order
  split
  · exact Or.inr ⟨_, rfl⟩
  · split
    · split
      · exact Or.inr ⟨_, rfl⟩
      · exact Or.inl rfl
    · split
      · exact Or.inr ⟨_, rfl⟩
      · exact Or.inl rfl
    · split
      · exact Or.inr ⟨_, rfl⟩
      · exact Or.inl rfl
    · exact Or.inl rfl
    · exact Or.inl rfl

/-- cancel_order either succeeds or fails with OrderNotFound leaving the
book unchanged. -/
theorem cancel_order_cases (bk : Orderbook) (id : Nat) :
    (bk.cancel_order id).1 = Except.ok () ∨
      bk.cancel_order id = (Except.error OrderError.OrderNotFound, bk) := by
  unfold Orderbook.cancel_order
  split
  · exact Or.inr rfl
  · split
    · split
      · exact Or.inl rfl
      · exact Or.inl rfl
    · split
      · exact Or.inl rfl
      · exact Or.inl rfl

/-- modify_order either succeeds or fails with OrderNotFound leaving the
book unchanged. -/
theorem modify_order_cases (bk : Orderbook) (id q : Nat) :
    (bk.modify_order id q).1 = Except.ok () ∨
      bk.modify_order id q = (Except.error OrderError.OrderNotFound, bk) := by
  unfold Orderbook.modify_order
  split
  · exact Or.inr rfl
  · split
    · exact Or.inl rfl
    · exact Or.inl rfl

/-- Claim C9: whenever a public operation returns an error (add_order with
IdExists/CantMatch/CantFullyFill/NoLiquidity, cancel_order or modify_order
with OrderNotFound, Order::fill with FillOverflow), the state it operates
on is exactly as it was before the call. -/
theorem c9_errors_preserve_state :
    (∀ (bk : Orderbook) (o : Order) (e : OrderError),
       (bk.add_order o).1 = Except.error e → (bk.add_order o).2 = bk) ∧
    (∀ (bk : Orderbook) (id : Nat) (e : OrderError),
       (bk.cancel_order id).1 = Except.error e → (bk.cancel_order id).2 = bk) ∧
    (∀ (bk : Orderbook) (id q : Nat) (e : OrderError),
       (bk.modify_order id q).1 = Except.error e → (bk.modify_order id q).2 = bk) ∧
    (∀ (o : Order) (q : Nat) (e : OrderError),
       (Order.fill o q).1 = Except.error e → (Order.fill o q).2 = o) := by
  refine ⟨?_, ?_, ?_, ?_⟩
  · intro bk o e h
    rcases add_order_cases bk o with hok | ⟨e', he⟩
    · rw [hok] at h
      simp at h
    · rw [he]
  · intro bk id e h
    rcases cancel_order_cases bk id with hok | he
    · rw [hok] at h
      simp at h
    · rw [he]
  · intro bk id q e h
    rcases modify_order_cases bk id q with hok | he
    · rw [hok] at h
      simp at h
    · rw [he]
  · intro o q e h
    unfold Order.fill at h ⊢
    split
    · rfl
    · next hc =>
        rw [if_neg hc] at h
        simp at h

/-- Claim C6: the two Order::fill calls inside the matching loop of
match_orders always succeed: the fill quantity is the minimum of the two
head orders' remaining quantities, so the FillOverflow branch is
unreachable there, for any book (reachable or not) whose best levels have
head orders. -/
theorem c6_fill_no_overflow (bk : Orderbook) (bo ao : Order)
    (hbo : headBidOrder? bk = some bo) (hao : headAskOrder? bk = some ao) :
    (Order.fill bo (min bo.remaining_quantity ao.remaining_quantity)).1 = Except.ok () ∧
    (Order.fill ao (min bo.remaining_quantity ao.remaining_quantity)).1 = Except.ok () ∧
    (Order.fill bo (min bo.remaining_quantity ao.remaining_quantity)).1 ≠
      Except.error OrderError.FillOverflow ∧
    (Order.fill ao (min bo.remaining_quantity ao.remaining_quantity)).1 ≠
      Except.error OrderError.FillOverflow := by
  have h1 := Order.fill_of_le (o := bo)
    (Nat.min_le_left bo.remaining_quantity ao.remaining_quantity)
  have h2 := Order.fill_of_le (o := ao)
    (Nat.min_le_right bo.remaining_quantity ao.remaining_quantity)
  rw [h1, h2]
  simp

/-- Claim C2: each iteration of the matching loop operates on the orders at
the head of the FIFO queues of the best bid and best ask levels only: the
head orders are the ones filled (by the minimum of their remaining
quantities), a head order is popped exactly when fully filled, and the
tails of both queues and all levels below the best are unchanged, so of two
resting asks at the same price the earlier-appended one is fully filled and
removed before the later one receives any fill (and symmetrically for
bids). -/
theorem c2_match_step_fifo (bk : Orderbook) (bp ap : Nat) (bo ao : Order)
    (bt atl : List Order) (brest arest : SideMap)
    (hb : bk.bids = (bp, bo :: bt) :: brest)
    (ha : bk.asks = (ap, ao :: atl) :: arest)
    (hcross : ap ≤ bp) :
    (bk.match_step).bids =
      (if (Order.fill bo (min bo.remaining_quantity ao.remaining_quantity)).2.is_filled then
         (if bt.isEmpty then brest else (bp, bt) :: brest)
       else
         (bp, (Order.fill bo (min bo.remaining_quantity ao.remaining_quantity)).2 :: bt) ::
           brest) ∧
    (bk.match_step).asks =
      (if (Order.fill ao (min bo.remaining_quantity ao.remaining_quantity)).2.is_filled then
         (if atl.isEmpty then arest else (ap, atl) :: arest)
       else
         (ap, (Order.fill ao (min bo.remaining_quantity ao.remaining_quantity)).2 :: atl) ::
           arest) ∧
    (bk.match_step).orders =
      (let orders2 :=
         if (Order.fill bo (min bo.remaining_quantity ao.remaining_quantity)).2.is_filled then
           Orders.delete bk.orders bo.order_id
         else bk.orders
       if (Order.fill ao (min bo.remaining_quantity ao.remaining_quantity)).2.is_filled then
         Orders.delete orders2 ao.order_id
       else orders2) ∧
    (bk.match_step).trades =
      bk.trades ++
        [{ bid_trade := ⟨bo.order_id, if ap == Price.min then bp else ap,
             min bo.remaining_quantity ao.remaining_quantity⟩,
           ask_trade := ⟨ao.order_id, if ap == Price.min then bp else ap,
             min bo.remaining_quantity ao.remaining_quantity⟩ }] := by
  refine ⟨?_, ?_, ?_, ?_⟩ <;>
    · unfold Orderbook.match_step
      rw [hb, ha]
      rfl

/-- The side map an order of the given side rests on. -/
def sideOf (bk : Orderbook) : Side → SideMap
  | Side.Buy => bk.bids
  | Side.Sell => bk.asks

/-- The side map opposite to the given side. -/
def oppSideOf (bk : Orderbook) : Side → SideMap
  | Side.Buy => bk.asks
  | Side.Sell => bk.bids

theorem insert_order_eq_buy_some {bk : Orderbook} {o : Order} {q : List Order}
    (hs : o.side = Side.Buy) (hl : lookupLevel bk.bids o.price = some q) :
    bk.insert_order o =
      { bk with bids := updateLevel bk.bids o.price (fun l => Orders.push_back l o),
                orders := Orders.push_back bk.orders o } := by
  unfold Orderbook.insert_order
  rw [hs, hl]

theorem insert_order_eq_buy_none {bk : Orderbook} {o : Order}
    (hs : o.side = Side.Buy) (hl : lookupLevel bk.bids o.price = none) :
    bk.insert_order o =
      { bk with bids := insertLevelBy bidLt o.price [o] bk.bids,
                orders := Orders.push_back bk.orders o } := by
  unfold Orderbook.insert_order
  rw [hs, hl]

theorem insert_order_eq_sell_some {bk : Orderbook} {o : Order} {q : List Order}
    (hs : o.side = Side.Sell) (hl : lookupLevel bk.asks o.price = some q) :
    bk.insert_order o =
      { bk with asks := updateLevel bk.asks o.price (fun l => Orders.push_back l o),
                orders := Orders.push_back bk.orders o } := by
  unfold Orderbook.insert_order
  rw [hs, hl]

theorem insert_order_eq_sell_none {bk : Orderbook} {o : Order}
    (hs : o.side = Side.Sell) (hl : lookupLevel bk.asks o.price = none) :
    bk.insert_order o =
      { bk with asks := insertLevelBy askLt o.price [o] bk.asks,
                orders := Orders.push_back bk.orders o } := by
  unfold Orderbook.insert_order
  rw [hs, hl]

/-- Effect of the insertion phase of add_order: the order is appended to the
tail of its price level's queue (creating the level if absent) and to the
global index; trades, the opposite side and all other levels are
untouched. -/
theorem insert_order_spec (bk : Orderbook) (o : Order) :
    (bk.insert_order o).trades = bk.trades ∧
    (bk.insert_order o).orders = bk.orders ++ [o] ∧
    oppSideOf (bk.insert_order o) o.side = oppSideOf bk o.side ∧
    lookupLevel (sideOf (bk.insert_order o) o.side) o.price =
      some (((lookupLevel (sideOf bk o.side) o.price).getD []) ++ [o]) ∧
    (∀ p, p ≠ o.price →
      lookupLevel (sideOf (bk.insert_order o) o.side) p =
        lookupLevel (sideOf bk o.side) p) := by
  cases hs : o.side
  · cases hl : lookupLevel bk.bids o.price
    · rw [insert_order_eq_buy_none hs hl]
      refine ⟨rfl, rfl, rfl, ?_, ?_⟩
      · dsimp only [sideOf]
        rw [lookup_insertLevelBy_self hl, hl]
        rfl
      · intro p hp
        dsimp only [sideOf]
        exact lookup_insertLevelBy_ne hp
    · rw [insert_order_eq_buy_some hs hl]
      refine ⟨rfl, rfl, rfl, ?_, ?_⟩
      · dsimp only [sideOf]
        rw [lookup_updateLevel_self, hl]
        rfl
      · intro p hp
        dsimp only [sideOf]
        exact lookup_updateLevel_ne bk.bids _ hp
  · cases hl : lookupLevel bk.asks o.price
    · rw [insert_order_eq_sell_none hs hl]
      refine ⟨rfl, rfl, rfl, ?_, ?_⟩
      · dsimp only [sideOf]
        rw [lookup_insertLevelBy_self hl, hl]
        rfl
      · intro p hp
        dsimp only [sideOf]
        exact lookup_insertLevelBy_ne hp
    · rw [insert_order_eq_sell_some hs hl]
      refine ⟨rfl, rfl, rfl, ?_, ?_⟩
      · dsimp only [sideOf]
        rw [lookup_updateLevel_self, hl]
        rfl
      · intro p hp
        dsimp only [sideOf]
        exact lookup_updateLevel_ne bk.asks _ hp

/-- Claim C3: add_order fails with IdExists when the id is already indexed;
otherwise FillAndKill fails CantMatch unless the opposing best price
crosses, FillOrKill fails CantFullyFill unless the crossable opposing
quantity covers its remaining quantity, Market fails NoLiquidity when the
opposing side is empty, GoodTillCancelled and GoodForDay are always
admitted; on admission the order is appended to the tail of its price
level's queue (creating the level if absent) and to the global index, and
no trade occurs and no other order or level changes. -/
theorem c3_add_order_spec (bk : Orderbook) (o : Order) :
    (Orders.contains bk.orders o.order_id = true →
       bk.add_order o = (Except.error OrderError.IdExists, bk)) ∧
    (Orders.contains bk.orders o.order_id = false →
       o.order_type = OrderType.FillAndKill →
       bk.can_match o.side o.price = false →
       bk.add_order o = (Except.error OrderError.CantMatch, bk)) ∧
    (Orders.contains bk.orders o.order_id = false →
       o.order_type = OrderType.FillOrKill →
       bk.can_fully_fill o.side o.price o.remaining_quantity = false →
       bk.add_order o = (Except.error OrderError.CantFullyFill, bk)) ∧
    (Orders.contains bk.orders o.order_id = false →
       o.order_type = OrderType.Market →
       bk.has_liquidity o.side = false →
       bk.add_order o = (Except.error OrderError.NoLiquidity, bk)) ∧
    (Orders.contains bk.orders o.order_id = false →
       (o.order_type = OrderType.GoodTillCancelled ∨
        o.order_type = OrderType.GoodForDay) →
       (bk.add_order o).1 = Except.ok ()) ∧
    (Orders.contains bk.orders o.order_id = false →
       o.order_type = OrderType.FillAndKill →
       bk.can_match o.side o.price = true →
       (bk.add_order o).1 = Except.ok ()) ∧
    (Orders.contains bk.orders o.order_id = false →
       o.order_type = OrderType.FillOrKill →
       bk.can_fully_fill o.side o.price o.remaining_quantity = true →
       (bk.add_order o).1 = Except.ok ()) ∧
    (Orders.contains bk.orders o.order_id = false →
       o.order_type = OrderType.Market →
       bk.has_liquidity o.side = true →
       (bk.add_order o).1 = Except.ok ()) ∧
    ((bk.add_order o).1 = Except.ok () →
       (bk.add_order o).2.trades = bk.trades ∧
       (bk.add_order o).2.orders = bk.orders ++ [o] ∧
       oppSideOf (bk.add_order o).2 o.side = oppSideOf bk o.side ∧
       lookupLevel (sideOf (bk.add_order o).2 o.side) o.price =
         some (((lookupLevel (sideOf bk o.side) o.price).getD []) ++ [o]) ∧
       (∀ p, p ≠ o.price →
         lookupLevel (sideOf (bk.add_order o).2 o.side) p =
           lookupLevel (sideOf bk o.side) p)) := by
  refine ⟨?_, ?_, ?_, ?_, ?_, ?_, ?_, ?_, ?_⟩
  · intro h
    simp [Orderbook.add_order, h]
  · intro h hty hcm
    simp [Orderbook.add_order, h, hty, hcm]
  · intro h hty hcf
    simp [Orderbook.add_order, h, hty, hcf]
  · intro h hty hlq
    simp [Orderbook.add_order, h, hty, hlq]
  · intro h hty
    rcases hty with hty | hty <;> simp [Orderbook.add_order, h, hty]
  · intro h hty hcm
    simp [Orderbook.add_order, h, hty, hcm]
  · intro h hty hcf
    simp [Orderbook.add_order, h, hty, hcf]
  · intro h hty hlq
    simp [Orderbook.add_order, h, hty, hlq]
  · intro hok
    rcases add_order_cases bk o with hc | ⟨e, hc⟩
    · rw [hc]
      exact insert_order_spec bk o
    · rw [hc] at hok
      simp at hok

/-! Membership-effect lemmas for each operation. -/

theorem mem_sideOrders {m : SideMap} {o : Order} :
    o ∈ sideOrders m ↔ ∃ e ∈ m, o ∈ e.2 := by
  simp only [sideOrders, List.mem_flatten, List.mem_map]
  constructor
  · rintro ⟨l, ⟨e, he, rfl⟩, hol⟩
    exact ⟨e, he, hol⟩
  · rintro ⟨e, he, hol⟩
    exact ⟨e.2, ⟨e, he, rfl⟩, hol⟩

theorem lookupLevel_some_mem {m : SideMap} {p : Nat} {q : List Order}
    (h : lookupLevel m p = some q) : (p, q) ∈ m := by
  unfold lookupLevel at h
  cases hf : m.find? (fun e => e.1 == p) with
  | none => rw [hf] at h; simp at h
  | some e =>
    rw [hf] at h
    have he := List.mem_of_find?_eq_some hf
    have : e = (p, q) := by
      rcases e with ⟨e1, e2⟩
      have hp : e1 = p := by simpa using List.find?_some hf
      have h2 : e2 = q := by simpa using h
      rw [hp, h2]
    rw [this] at he
    exact he

theorem mem_insert_order {bk : Orderbook} {o o' : Order}
    (h : o' ∈ allLevelOrders (bk.insert_order o)) :
    o' ∈ allLevelOrders bk ∨ o' = o := by
  have mainBids : ∀ m : SideMap,
      o' ∈ sideOrders (updateLevel m o.price (fun l => Orders.push_back l o)) →
      (∃ e ∈ m, o' ∈ e.2) ∨ o' = o := by
    intro m hm
    rcases mem_sideOrders.1 hm with ⟨e', he', hoe⟩
    rcases mem_updateLevel he' with ⟨e, he, heq⟩
    by_cases hp : e.1 = o.price
    · rw [if_pos hp] at heq
      rw [heq] at hoe
      simp only [Orders.push_back] at hoe
      rcases List.mem_append.1 hoe with h1 | h1
      · exact Or.inl ⟨e, he, h1⟩
      · exact Or.inr (by simpa using h1)
    · rw [if_neg hp] at heq
      rw [heq] at hoe
      exact Or.inl ⟨e, he, hoe⟩
  have mainIns : ∀ (lt : Nat → Nat → Bool) (m : SideMap),
      o' ∈ sideOrders (insertLevelBy lt o.price [o] m) →
      (∃ e ∈ m, o' ∈ e.2) ∨ o' = o := by
    intro lt m hm
    rcases mem_sideOrders.1 hm with ⟨e', he', hoe⟩
    rcases mem_insertLevelBy.1 he' with rfl | he
    · exact Or.inr (by simpa using hoe)
    · exact Or.inl ⟨e', he, hoe⟩
  cases hs : o.side
  · cases hl : lookupLevel bk.bids o.price
    · rw [insert_order_eq_buy_none hs hl] at h
      rcases List.mem_append.1 h with h1 | h1
      · rcases mainIns bidLt bk.bids h1 with ⟨e, he, hoe⟩ | h2
        · exact Or.inl (List.mem_append.2 (Or.inl (mem_sideOrders.2 ⟨e, he, hoe⟩)))
        · exact Or.inr h2
      · exact Or.inl (List.mem_append.2 (Or.inr h1))
    · rw [insert_order_eq_buy_some hs hl] at h
      rcases List.mem_append.1 h with h1 | h1
      · rcases mainBids bk.bids h1 with ⟨e, he, hoe⟩ | h2
        · exact Or.inl (List.mem_append.2 (Or.inl (mem_sideOrders.2 ⟨e, he, hoe⟩)))
        · exact Or.inr h2
      · exact Or.inl (List.mem_append.2 (Or.inr h1))
  · cases hl : lookupLevel bk.asks o.price
    · rw [insert_order_eq_sell_none hs hl] at h
      rcases List.mem_append.1 h with h1 | h1
      · exact Or.inl (List.mem_append.2 (Or.inl h1))
      · rcases mainIns askLt bk.asks h1 with ⟨e, he, hoe⟩ | h2
        · exact Or.inl (List.mem_append.2 (Or.inr (mem_sideOrders.2 ⟨e, he, hoe⟩)))
        · exact Or.inr h2
    · rw [insert_order_eq_sell_some hs hl] at h
      rcases List.mem_append.1 h with h1 | h1
      · exact Or.inl (List.mem_append.2 (Or.inl h1))
      · rcases mainBids bk.asks h1 with ⟨e, he, hoe⟩ | h2
        · exact Or.inl (List.mem_append.2 (Or.inr (mem_sideOrders.2 ⟨e, he, hoe⟩)))
        · exact Or.inr h2

theorem mem_sideOrders_cancel {m : SideMap} {p : Nat} {q : List Order}
    {id : Nat} {o' : Order}
    (h : o' ∈ sideOrders (if (Orders.delete q id).isEmpty then removeLevel p m
                          else updateLevel m p (fun _ => Orders.delete q id)))
    (hq : (p, q) ∈ m) : o' ∈ sideOrders m := by
  split at h
  · exact mem_sideOrders.2 (by
      rcases mem_sideOrders.1 h with ⟨e, he, hoe⟩
      exact ⟨e, (removeLevel_sublist p m).subset he, hoe⟩)
  · rcases mem_sideOrders.1 h with ⟨e', he', hoe⟩
    rcases mem_updateLevel he' with ⟨e, he, heq⟩
    by_cases hp : e.1 = p
    · rw [if_pos hp] at heq
      rw [heq] at hoe
      exact mem_sideOrders.2 ⟨(p, q), hq, Orders.mem_of_mem_delete hoe⟩
    · rw [if_neg hp] at heq
      rw [heq] at hoe
      exact mem_sideOrders.2 ⟨e, he, hoe⟩

theorem mem_cancel_order {bk : Orderbook} {id : Nat} {o' : Order}
    (h : o' ∈ allLevelOrders (bk.cancel_order id).2) :
    o' ∈ allLevelOrders bk := by
  unfold Orderbook.cancel_order at h
  cases hg : Orders.get bk.orders id with
  | none => rw [hg] at h; exact h
  | some o =>
    simp only [hg] at h
    cases hs : o.side
    · simp only [hs] at h
      cases hl : lookupLevel bk.bids o.price with
      | none =>
        simp only [hl] at h
        exact h
      | some q =>
        simp only [hl] at h
        rcases List.mem_append.1 h with h1 | h1
        · exact List.mem_append.2
            (Or.inl (mem_sideOrders_cancel h1 (lookupLevel_some_mem hl)))
        · exact List.mem_append.2 (Or.inr h1)
    · simp only [hs] at h
      cases hl : lookupLevel bk.asks o.price with
      | none =>
        simp only [hl] at h
        exact h
      | some q =>
        simp only [hl] at h
        rcases List.mem_append.1 h with h1 | h1
        · exact List.mem_append.2 (Or.inl h1)
        · exact List.mem_append.2
            (Or.inr (mem_sideOrders_cancel h1 (lookupLevel_some_mem hl)))

theorem orders_cancel_order_subset {bk : Orderbook} {id : Nat} {o' : Order}
    (h : o' ∈ (bk.cancel_order id).2.orders) : o' ∈ bk.orders := by
  unfold Orderbook.cancel_order at h
  cases hg : Orders.get bk.orders id with
  | none => rw [hg] at h; exact h
  | some o =>
    simp only [hg] at h
    cases hs : o.side <;> simp only [hs] at h
    · cases hl : lookupLevel bk.bids o.price <;> simp only [hl] at h <;>
        exact Orders.mem_of_mem_delete h
    · cases hl : lookupLevel bk.asks o.price <;> simp only [hl] at h <;>
        exact Orders.mem_of_mem_delete h

/-- The matching-loop body written out, when both best levels have head
orders. -/
theorem match_step_eq {bk : Orderbook} {bp ap : Nat} {bo ao : Order}
    {bt atl : List Order} {brest arest : SideMap}
    (hb : bk.bids = (bp, bo :: bt) :: brest)
    (ha : bk.asks = (ap, ao :: atl) :: arest) :
    bk.match_step =
      { bids :=
          if (Order.fill bo (min bo.remaining_quantity ao.remaining_quantity)).2.is_filled
          then (if bt.isEmpty then brest else (bp, bt) :: brest)
          else (bp, (Order.fill bo (min bo.remaining_quantity ao.remaining_quantity)).2 :: bt)
            :: brest,
        asks :=
          if (Order.fill ao (min bo.remaining_quantity ao.remaining_quantity)).2.is_filled
          then (if atl.isEmpty then arest else (ap, atl) :: arest)
          else (ap, (Order.fill ao (min bo.remaining_quantity ao.remaining_quantity)).2 :: atl)
            :: arest,
        orders :=
          (let orders2 :=
             if (Order.fill bo (min bo.remaining_quantity ao.remaining_quantity)).2.is_filled
             then Orders.delete bk.orders bo.order_id
             else bk.orders
           if (Order.fill ao (min bo.remaining_quantity ao.remaining_quantity)).2.is_filled
           then Orders.delete orders2 ao.order_id
           else orders2),
        trades :=
          bk.trades ++
            [{ bid_trade := ⟨bo.order_id, if ap == Price.min then bp else ap,
                 min bo.remaining_quantity ao.remaining_quantity⟩,
               ask_trade := ⟨ao.order_id, if ap == Price.min then bp else ap,
                 min bo.remaining_quantity ao.remaining_quantity⟩ }] } := by
  unfold Orderbook.match_step
  rw [hb, ha]
  rfl

/-- match_step does nothing on a book whose sides or best queues are not
both populated (the source would panic on an empty best queue; such states
are not well-formed). -/
theorem match_step_eq_self {bk : Orderbook}
    (h : bk.bids = [] ∨ bk.asks = [] ∨
         (∃ bp brest, bk.bids = (bp, ([] : List Order)) :: brest) ∨
         (∃ ap arest, bk.asks = (ap, ([] : List Order)) :: arest)) :
    bk.match_step = bk := by
  unfold Orderbook.match_step
  rcases h with h | h | ⟨bp, brest, h⟩ | ⟨ap, arest, h⟩
  · rw [h]
  · rw [h]
    rcases bk.bids with _ | ⟨⟨bp, bq⟩, brest⟩ <;> rfl
  · rw [h]
    rcases bk.asks with _ | ⟨⟨ap, aq⟩, arest⟩ <;> rfl
  · rw [h]
    rcases bk.bids with _ | ⟨⟨bp, bq⟩, brest⟩
    · rfl
    · rcases bq with _ | ⟨bo, bt⟩ <;> rfl

theorem Order.fill_snd_fields (o : Order) (q : Nat) :
    (Order.fill o q).2.order_id = o.order_id ∧
    (Order.fill o q).2.order_type = o.order_type ∧
    (Order.fill o q).2.side = o.side ∧
    (Order.fill o q).2.price = o.price ∧
    (Order.fill o q).2.initial_quantity = o.initial_quantity ∧
    (Order.fill o q).2.remaining_quantity ≤ o.remaining_quantity := by
  unfold Order.fill
  split <;> simp [Nat.sub_le]

theorem mem_step_side {c c2 : Bool} {bp : Nat} {bo2 : Order}
    {bt : List Order} {brest : SideMap} {o' : Order}
    (h : o' ∈ sideOrders (if c then (if c2 then brest else (bp, bt) :: brest)
                          else (bp, bo2 :: bt) :: brest)) :
    o' = bo2 ∨ o' ∈ bt ∨ o' ∈ sideOrders brest := by
  split at h
  · split at h
    · exact Or.inr (Or.inr h)
    · rcases mem_sideOrders.1 h with ⟨e, he, hoe⟩
      rcases List.mem_cons.1 he with rfl | he2
      · exact Or.inr (Or.inl hoe)
      · exact Or.inr (Or.inr (mem_sideOrders.2 ⟨e, he2, hoe⟩))
  · rcases mem_sideOrders.1 h with ⟨e, he, hoe⟩
    rcases List.mem_cons.1 he with rfl | he2
    · rcases List.mem_cons.1 hoe with rfl | h3
      · exact Or.inl rfl
      · exact Or.inr (Or.inl h3)
    · exact Or.inr (Or.inr (mem_sideOrders.2 ⟨e, he2, hoe⟩))

/-- Every order resting after a matching-loop iteration descends from a
resting order of the original book with the same identity fields and a
remaining quantity that did not grow. -/
theorem mem_match_step {bk : Orderbook} {o' : Order}
    (h : o' ∈ allLevelOrders bk.match_step) :
    ∃ o ∈ allLevelOrders bk, o'.order_id = o.order_id ∧
      o'.order_type = o.order_type ∧ o'.side = o.side ∧ o'.price = o.price ∧
      o'.initial_quantity = o.initial_quantity ∧
      o'.remaining_quantity ≤ o.remaining_quantity := by
  have self : o' ∈ allLevelOrders bk →
      ∃ o ∈ allLevelOrders bk, o'.order_id = o.order_id ∧
        o'.order_type = o.order_type ∧ o'.side = o.side ∧ o'.price = o.price ∧
        o'.initial_quantity = o.initial_quantity ∧
        o'.remaining_quantity ≤ o.remaining_quantity :=
    fun hm => ⟨o', hm, rfl, rfl, rfl, rfl, rfl, Nat.le_refl _⟩
  rcases hb : bk.bids with _ | ⟨⟨bp, bq⟩, brest⟩
  · rw [match_step_eq_self (Or.inl hb)] at h
    exact self h
  rcases ha : bk.asks with _ | ⟨⟨ap, aq⟩, arest⟩
  · rw [match_step_eq_self (Or.inr (Or.inl ha))] at h
    exact self h
  rcases hbq : bq with _ | ⟨bo, bt⟩
  · rw [match_step_eq_self (Or.inr (Or.inr (Or.inl ⟨bp, brest, by rw [hb, hbq]⟩)))] at h
    exact self h
  rcases haq : aq with _ | ⟨ao, atl⟩
  · rw [match_step_eq_self
      (Or.inr (Or.inr (Or.inr ⟨ap, arest, by rw [ha, haq]⟩)))] at h
    exact self h
  rw [match_step_eq (by rw [hb, hbq]) (by rw [ha, haq])] at h
  have hboMem : bo ∈ allLevelOrders bk := by
    refine List.mem_append.2 (Or.inl (mem_sideOrders.2 ⟨(bp, bo :: bt), ?_, ?_⟩))
    · rw [hb, hbq]
      exact List.mem_cons_self _ _
    · exact List.mem_cons_self _ _
  have haoMem : ao ∈ allLevelOrders bk := by
    refine List.mem_append.2 (Or.inr (mem_sideOrders.2 ⟨(ap, ao :: atl), ?_, ?_⟩))
    · rw [ha, haq]
      exact List.mem_cons_self _ _
    · exact List.mem_cons_self _ _
  have hbtMem : ∀ x ∈ bt, x ∈ allLevelOrders bk := by
    intro x hx
    refine List.mem_append.2 (Or.inl (mem_sideOrders.2 ⟨(bp, bo :: bt), ?_, ?_⟩))
    · rw [hb, hbq]
      exact List.mem_cons_self _ _
    · exact List.mem_cons_of_mem _ hx
  have hatMem : ∀ x ∈ atl, x ∈ allLevelOrders bk := by
    intro x hx
    refine List.mem_append.2 (Or.inr (mem_sideOrders.2 ⟨(ap, ao :: atl), ?_, ?_⟩))
    · rw [ha, haq]
      exact List.mem_cons_self _ _
    · exact List.mem_cons_of_mem _ hx
  have hbrestMem : ∀ x, x ∈ sideOrders brest → x ∈ allLevelOrders bk := by
    intro x hx
    rcases mem_sideOrders.1 hx with ⟨e, he, hoe⟩
    refine List.mem_append.2 (Or.inl (mem_sideOrders.2 ⟨e, ?_, hoe⟩))
    rw [hb]
    exact List.mem_cons_of_mem _ he
  have harestMem : ∀ x, x ∈ sideOrders arest → x ∈ allLevelOrders bk := by
    intro x hx
    rcases mem_sideOrders.1 hx with ⟨e, he, hoe⟩
    refine List.mem_append.2 (Or.inr (mem_sideOrders.2 ⟨e, ?_, hoe⟩))
    rw [ha]
    exact List.mem_cons_of_mem _ he
  rcases List.mem_append.1 h with h1 | h1
  · rcases mem_step_side h1 with rfl | h2 | h2
    · obtain ⟨f1, f2, f3, f4, f5, f6⟩ :=
        Order.fill_snd_fields bo (min bo.remaining_quantity ao.remaining_quantity)
      exact ⟨bo, hboMem, f1, f2, f3, f4, f5, f6⟩
    · exact ⟨o', hbtMem o' h2, rfl, rfl, rfl, rfl, rfl, Nat.le_refl _⟩
    · exact ⟨o', hbrestMem o' h2, rfl, rfl, rfl, rfl, rfl, Nat.le_refl _⟩
  · rcases mem_step_side h1 with rfl | h2 | h2
    · obtain ⟨f1, f2, f3, f4, f5, f6⟩ :=
        Order.fill_snd_fields ao (min bo.remaining_quantity ao.remaining_quantity)
      exact ⟨ao, haoMem, f1, f2, f3, f4, f5, f6⟩
    · exact ⟨o', hatMem o' h2, rfl, rfl, rfl, rfl, rfl, Nat.le_refl _⟩
    · exact ⟨o', harestMem o' h2, rfl, rfl, rfl, rfl, rfl, Nat.le_refl _⟩

theorem orders_match_step_subset {bk : Orderbook} {o' : Order}
    (h : o' ∈ bk.match_step.orders) : o' ∈ bk.orders := by
  rcases hb : bk.bids with _ | ⟨⟨bp, bq⟩, brest⟩
  · rw [match_step_eq_self (Or.inl hb)] at h
    exact h
  rcases ha : bk.asks with _ | ⟨⟨ap, aq⟩, arest⟩
  · rw [match_step_eq_self (Or.inr (Or.inl ha))] at h
    exact h
  rcases hbq : bq with _ | ⟨bo, bt⟩
  · rw [match_step_eq_self (Or.inr (Or.inr (Or.inl ⟨bp, brest, by rw [hb, hbq]⟩)))] at h
    exact h
  rcases haq : aq with _ | ⟨ao, atl⟩
  · rw [match_step_eq_self
      (Or.inr (Or.inr (Or.inr ⟨ap, arest, by rw [ha, haq]⟩)))] at h
    exact h
  rw [match_step_eq (by rw [hb, hbq]) (by rw [ha, haq])] at h
  simp only at h
  split at h
  · split at h
    · exact Orders.mem_of_mem_delete (Orders.mem_of_mem_delete h)
    · exact Orders.mem_of_mem_delete h
  · split at h
    · exact Orders.mem_of_mem_delete h
    · exact h

theorem mem_sideOrders_set_quantity {m : SideMap} {p id q : Nat} {o' : Order}
    (h : o' ∈ sideOrders (updateLevel m p (fun ql => Orders.set_quantity ql id q))) :
    (∃ e ∈ m, o' ∈ e.2) ∨
      ∃ o2, (∃ e ∈ m, o2 ∈ e.2) ∧ o2.order_id = id ∧
        o' = { o2 with remaining_quantity := q } := by
  rcases mem_sideOrders.1 h with ⟨e', he', hoe⟩
  rcases mem_updateLevel he' with ⟨e, he, heq⟩
  by_cases hp : e.1 = p
  · rw [if_pos hp] at heq
    rw [heq] at hoe
    rcases Orders.mem_set_quantity hoe with h2 | ⟨o2, ho2, hid2, ho'⟩
    · exact Or.inl ⟨e, he, h2⟩
    · exact Or.inr ⟨o2, ⟨e, he, ho2⟩, hid2, ho'⟩
  · rw [if_neg hp] at heq
    rw [heq] at hoe
    exact Or.inl ⟨e, he, hoe⟩

theorem mem_modify_order {bk : Orderbook} {id q : Nat} {o' : Order}
    (h : o' ∈ allLevelOrders (bk.modify_order id q).2) :
    o' ∈ allLevelOrders bk ∨
      ∃ o2 ∈ allLevelOrders bk, o2.order_id = id ∧
        o' = { o2 with remaining_quantity := q } := by
  unfold Orderbook.modify_order at h
  cases hg : Orders.get bk.orders id with
  | none => rw [hg] at h; exact Or.inl h
  | some o =>
    simp only [hg] at h
    cases hs : o.side <;> simp only [hs] at h
    · rcases List.mem_append.1 h with h1 | h1
      · rcases mem_sideOrders_set_quantity h1 with ⟨e, he, hoe⟩ | ⟨o2, ⟨e, he, ho2⟩, hid2, ho'⟩
        · exact Or.inl (List.mem_append.2 (Or.inl (mem_sideOrders.2 ⟨e, he, hoe⟩)))
        · exact Or.inr ⟨o2,
            List.mem_append.2 (Or.inl (mem_sideOrders.2 ⟨e, he, ho2⟩)), hid2, ho'⟩
      · exact Or.inl (List.mem_append.2 (Or.inr h1))
    · rcases List.mem_append.1 h with h1 | h1
      · exact Or.inl (List.mem_append.2 (Or.inl h1))
      · rcases mem_sideOrders_set_quantity h1 with ⟨e, he, hoe⟩ | ⟨o2, ⟨e, he, ho2⟩, hid2, ho'⟩
        · exact Or.inl (List.mem_append.2 (Or.inr (mem_sideOrders.2 ⟨e, he, hoe⟩)))
        · exact Or.inr ⟨o2,
            List.mem_append.2 (Or.inr (mem_sideOrders.2 ⟨e, he, ho2⟩)), hid2, ho'⟩

theorem orders_modify_order {bk : Orderbook} {id q : Nat} {o' : Order}
    (h : o' ∈ (bk.modify_order id q).2.orders) :
    o' ∈ bk.orders ∨
      ∃ o2 ∈ bk.orders, o2.order_id = id ∧
        o' = { o2 with remaining_quantity := q } := by
  unfold Orderbook.modify_order at h
  cases hg : Orders.get bk.orders id with
  | none => rw [hg] at h; exact Or.inl h
  | some o =>
    simp only [hg] at h
    cases hs : o.side <;> simp only [hs] at h <;>
      exact Orders.mem_set_quantity h

theorem mem_foldl_cancel {L : List Nat} {bk : Orderbook} {o' : Order}
    (h : o' ∈ allLevelOrders
      (L.foldl (fun b id => (Orderbook.cancel_order b id).2) bk)) :
    o' ∈ allLevelOrders bk := by
  induction L generalizing bk with
  | nil => exact h
  | cons a rest ih => exact mem_cancel_order (ih h)

theorem orders_foldl_cancel {L : List Nat} {bk : Orderbook} {o' : Order}
    (h : o' ∈ (L.foldl (fun b id => (Orderbook.cancel_order b id).2) bk).orders) :
    o' ∈ bk.orders := by
  induction L generalizing bk with
  | nil => exact h
  | cons a rest ih => exact orders_cancel_order_subset (ih h)

/-! Quantity invariant: every live copy of an order satisfies
remaining_quantity ≤ initial_quantity. -/

/-- Every order resting in a price level and every copy in the global index
has remaining_quantity ≤ initial_quantity. -/
def quantityInv (bk : Orderbook) : Prop :=
  (∀ o ∈ allLevelOrders bk, o.remaining_quantity ≤ o.initial_quantity) ∧
  (∀ o ∈ bk.orders, o.remaining_quantity ≤ o.initial_quantity)

theorem quantityInv_insert {bk : Orderbook} {o : Order} (h : quantityInv bk)
    (ho : o.remaining_quantity ≤ o.initial_quantity) :
    quantityInv (bk.insert_order o) := by
  constructor
  · intro o' h'
    rcases mem_insert_order h' with h1 | rfl
    · exact h.1 o' h1
    · exact ho
  · intro o' h'
    rw [(insert_order_spec bk o).2.1] at h'
    rcases List.mem_append.1 h' with h1 | h1
    · exact h.2 o' h1
    · rw [List.mem_singleton.1 h1]
      exact ho

theorem quantityInv_add_order {bk : Orderbook} {o : Order} (h : quantityInv bk)
    (ho : o.remaining_quantity ≤ o.initial_quantity) :
    quantityInv (bk.add_order o).2 := by
  rcases add_order_cases bk o with hc | ⟨e, hc⟩
  · rw [hc]
    exact quantityInv_insert h ho
  · rw [hc]
    exact h

theorem quantityInv_cancel {bk : Orderbook} {id : Nat} (h : quantityInv bk) :
    quantityInv (bk.cancel_order id).2 :=
  ⟨fun o' h' => h.1 o' (mem_cancel_order h'),
   fun o' h' => h.2 o' (orders_cancel_order_subset h')⟩

theorem quantityInv_foldl_cancel {L : List Nat} {bk : Orderbook}
    (h : quantityInv bk) :
    quantityInv (L.foldl (fun b id => (Orderbook.cancel_order b id).2) bk) :=
  ⟨fun o' h' => h.1 o' (mem_foldl_cancel h'),
   fun o' h' => h.2 o' (orders_foldl_cancel h')⟩

theorem quantityInv_match_step {bk : Orderbook} (h : quantityInv bk) :
    quantityInv bk.match_step := by
  constructor
  · intro o' h'
    rcases mem_match_step h' with ⟨o, ho, _, _, _, _, hinit, hrem⟩
    calc o'.remaining_quantity ≤ o.remaining_quantity := hrem
      _ ≤ o.initial_quantity := h.1 o ho
      _ = o'.initial_quantity := hinit.symm
  · intro o' h'
    exact h.2 o' (orders_match_step_subset h')

theorem quantityInv_match_loop {fuel : Nat} {bk : Orderbook}
    (h : quantityInv bk) : quantityInv (Orderbook.match_loop fuel bk) := by
  induction fuel generalizing bk with
  | zero => exact h
  | succ n ih =>
    unfold Orderbook.match_loop
    split
    · exact ih (quantityInv_match_step h)
    · exact h

theorem quantityInv_match_orders {bk : Orderbook} (h : quantityInv bk) :
    quantityInv bk.match_orders :=
  quantityInv_foldl_cancel (quantityInv_match_loop h)

theorem quantityInv_prune {bk : Orderbook} (h : quantityInv bk) :
    quantityInv bk.prune_good_for_day_orders :=
  quantityInv_foldl_cancel h

theorem quantityInv_modify {bk : Orderbook} {id q : Nat} (h : quantityInv bk)
    (hq1 : ∀ o ∈ allLevelOrders bk, o.order_id = id → q ≤ o.initial_quantity)
    (hq2 : ∀ o ∈ bk.orders, o.order_id = id → q ≤ o.initial_quantity) :
    quantityInv (bk.modify_order id q).2 := by
  constructor
  · intro o' h'
    rcases mem_modify_order h' with h1 | ⟨o2, ho2, hid2, ho'⟩
    · exact h.1 o' h1
    · rw [ho']
      exact hq1 o2 ho2 hid2
  · intro o' h'
    rcases orders_modify_order h' with h1 | ⟨o2, ho2, hid2, ho'⟩
    · exact h.2 o' h1
    · rw [ho']
      exact hq2 o2 ho2 hid2

/-- A reachable book: a 50-lot bid admitted, then modified to quantity 60. -/
def c7Book : Orderbook :=
  ((Orderbook.new.add_order
    (Order.new 1 OrderType.GoodTillCancelled Side.Buy 100 50)).2.modify_order 1 60).2

/-- Claim C7 counterexample: modify_order overwrites remaining_quantity with
no check against initial_quantity, so the invariant
remaining_quantity ≤ initial_quantity fails on a reachable book after a
modify_order whose new_quantity exceeds the order's initial quantity. -/
theorem c7_counterexample :
    Reachable c7Book ∧
    ∃ o ∈ allLevelOrders c7Book, o.initial_quantity < o.remaining_quantity := by
  constructor
  · exact Reachable.modify _ 1 60
      (Reachable.add _ 1 OrderType.GoodTillCancelled Side.Buy 100 50 Reachable.empty)
  · decide

/-- Claim C7 (amended): remaining_quantity ≤ initial_quantity holds for
every live order copy of the empty book and is preserved by add_order of a
freshly constructed order, cancel_order, match_orders and
prune_good_for_day_orders; modify_order preserves it only under the
additional hypothesis that new_quantity does not exceed the initial
quantity of the targeted order's live copies (the code performs no such
check, which is what the counterexample exploits). -/
theorem c7_quantity_invariant_amended :
    quantityInv Orderbook.new ∧
    (∀ (bk : Orderbook) (id : Nat) (t : OrderType) (s : Side) (p q : Nat),
      quantityInv bk → quantityInv (bk.add_order (Order.new id t s p q)).2) ∧
    (∀ (bk : Orderbook) (id : Nat),
      quantityInv bk → quantityInv (bk.cancel_order id).2) ∧
    (∀ bk : Orderbook, quantityInv bk → quantityInv bk.match_orders) ∧
    (∀ bk : Orderbook, quantityInv bk → quantityInv bk.prune_good_for_day_orders) ∧
    (∀ (bk : Orderbook) (id q : Nat), quantityInv bk →
      (∀ o ∈ allLevelOrders bk, o.order_id = id → q ≤ o.initial_quantity) →
      (∀ o ∈ bk.orders, o.order_id = id → q ≤ o.initial_quantity) →
      quantityInv (bk.modify_order id q).2) := by
  refine ⟨?_, ?_, ?_, ?_, ?_, ?_⟩
  · exact ⟨by intro o h; simp [allLevelOrders, sideOrders, Orderbook.new] at h,
      by intro o h; simp [Orderbook.new] at h⟩
  · intro bk id t s p q h
    exact quantityInv_add_order h (Nat.le_refl _)
  · intro bk id h
    exact quantityInv_cancel h
  · intro bk h
    exact quantityInv_match_orders h
  · intro bk h
    exact quantityInv_prune h
  · intro bk id q h hq1 hq2
    exact quantityInv_modify h hq1 hq2

/-- Witness for the amended C7 theorem at concrete inputs. -/
theorem c7_witness :
    quantityInv ((Orderbook.new.add_order
      (Order.new 1 OrderType.GoodTillCancelled Side.Buy 100 50)).2.modify_order
      1 20).2 := by
  apply c7_quantity_invariant_amended.2.2.2.2.2
  · apply c7_quantity_invariant_amended.2.1
    exact c7_quantity_invariant_amended.1
  · decide
  · decide

/-- A reachable book: a 50-lot ask, a FillOrKill bid admitted against it, a
better-priced 30-lot bid, then a matching pass. -/
def c8Book : Orderbook :=
  (((Orderbook.new.add_order
      (Order.new 1 OrderType.GoodTillCancelled Side.Sell 100 50)).2.add_order
      (Order.new 2 OrderType.FillOrKill Side.Buy 100 50)).2.add_order
      (Order.new 3 OrderType.GoodTillCancelled Side.Buy 101 30)).2.match_orders

/-- Claim C8 counterexample: a FillOrKill order can rest partially filled.
Admission (full-fillability) and matching are separate operations; a
better-priced bid added after the FillOrKill admission consumes the ask
liquidity first, and the post-loop sweep cancels only FillAndKill and
Market orders, so the FillOrKill remainder stays resting. -/
theorem c8_counterexample :
    Reachable c8Book ∧
    ∃ o ∈ allLevelOrders c8Book,
      o.order_type = OrderType.FillOrKill ∧ 0 < o.remaining_quantity ∧
        o.remaining_quantity < o.initial_quantity := by
  constructor
  · exact Reachable.matched _
      (Reachable.add _ 3 OrderType.GoodTillCancelled Side.Buy 101 30
        (Reachable.add _ 2 OrderType.FillOrKill Side.Buy 100 50
          (Reachable.add _ 1 OrderType.GoodTillCancelled Side.Sell 100 50
            Reachable.empty)))
  · decide

/-- Claim C8 (amended): the all-or-nothing guarantee of FillOrKill holds at
admission time only: add_order admits a FillOrKill order exactly when the
aggregate remaining quantity over all crossable opposing levels covers its
remaining quantity (can_fully_fill); the "never rests partially filled"
property does not persist across later operations, as the counterexample
shows. -/
theorem c8_fok_admission_amended (bk : Orderbook) (o : Order)
    (hok : (bk.add_order o).1 = Except.ok ())
    (hty : o.order_type = OrderType.FillOrKill) :
    bk.can_fully_fill o.side o.price o.remaining_quantity = true := by
  unfold Orderbook.add_order at hok
  split at hok
  · simp at hok
  · simp only [hty] at hok
    split at hok
    · simp at hok
    · next hc => simpa using hc

/-- Witness for the amended C8 theorem at concrete inputs. -/
theorem c8_witness :
    ((Orderbook.new.add_order
        (Order.new 1 OrderType.GoodTillCancelled Side.Sell 100 50)).2).can_fully_fill
      (Order.new 2 OrderType.FillOrKill Side.Buy 100 30).side
      (Order.new 2 OrderType.FillOrKill Side.Buy 100 30).price
      (Order.new 2 OrderType.FillOrKill Side.Buy 100 30).remaining_quantity = true :=
  c8_fok_admission_amended _ _ (by rfl) (by rfl)

theorem Orders.id_of_mem_not_mem_delete {l : Orders} {id : Nat} {o' : Order}
    (h : o' ∈ l) (hn : o' ∉ Orders.delete l id) : o'.order_id = id := by
  induction l with
  | nil => simp at h
  | cons a rest ih =>
    simp only [Orders.delete] at hn
    split at hn
    · next hbeq =>
      rcases List.mem_cons.1 h with rfl | hmem
      · simpa using hbeq
      · exact absurd hmem hn
    · rcases List.mem_cons.1 h with rfl | hmem
      · exact absurd (List.mem_cons_self _ _) hn
      · exact ih hmem (fun hc => hn (List.mem_cons_of_mem _ hc))

/-- The book just before the matching pass of the index-staleness scenario:
a 50-lot resting bid and a 30-lot incoming ask at the same price. -/
def c10PreBook : Orderbook :=
  ((Orderbook.new.add_order
      (Order.new 1 OrderType.GoodTillCancelled Side.Buy 100 50)).2.add_order
      (Order.new 2 OrderType.GoodTillCancelled Side.Sell 100 30)).2

/-- The same book after match_orders: the bid is partially filled. -/
def c10Book : Orderbook := c10PreBook.match_orders

/-- Claim C10: match_orders decreases remaining_quantity only in the price
levels' copies: on a partial fill the global-index copy keeps its pre-fill
remaining_quantity (shown on a concrete reachable book where the two copies
of the live order disagree, 50 in the index against 20 at the level, while
the fully filled counterparty is removed from the index); and in a matching
iteration the index entries are never mutated, only deleted, and an entry
is deleted only when it is the head bid or head ask order and that order
was fully filled by the iteration. -/
theorem c10_index_staleness :
    (Reachable c10Book ∧
     (∃ oIdx ∈ c10Book.orders, ∃ oLvl ∈ allLevelOrders c10Book,
        oIdx.order_id = oLvl.order_id ∧
        oIdx.remaining_quantity = 50 ∧ oLvl.remaining_quantity = 20) ∧
     Orders.contains c10Book.orders 2 = false) ∧
    (∀ (bk : Orderbook) (bp ap : Nat) (bo ao : Order) (bt atl : List Order)
       (brest arest : SideMap),
       bk.bids = (bp, bo :: bt) :: brest → bk.asks = (ap, ao :: atl) :: arest →
       (∀ o' ∈ bk.match_step.orders, o' ∈ bk.orders) ∧
       (∀ o' ∈ bk.orders, o' ∉ bk.match_step.orders →
         (o'.order_id = bo.order_id ∧
           (Order.fill bo
             (min bo.remaining_quantity ao.remaining_quantity)).2.is_filled = true) ∨
         (o'.order_id = ao.order_id ∧
           (Order.fill ao
             (min bo.remaining_quantity ao.remaining_quantity)).2.is_filled = true))) := by
  constructor
  · refine ⟨?_, by decide, by decide⟩
    exact Reachable.matched _
      (Reachable.add _ 2 OrderType.GoodTillCancelled Side.Sell 100 30
        (Reachable.add _ 1 OrderType.GoodTillCancelled Side.Buy 100 50
          Reachable.empty))
  · intro bk bp ap bo ao bt atl brest arest hb ha
    rw [match_step_eq hb ha]
    simp only
    constructor
    · intro o' h'
      split at h'
      · split at h'
        · exact Orders.mem_of_mem_delete (Orders.mem_of_mem_delete h')
        · exact Orders.mem_of_mem_delete h'
      · split at h'
        · exact Orders.mem_of_mem_delete h'
        · exact h'
    · intro o' h' hn
      split at hn
      · next haf =>
        split at hn
        · next hbf =>
          by_cases h2 : o' ∈ Orders.delete bk.orders bo.order_id
          · exact Or.inr ⟨Orders.id_of_mem_not_mem_delete h2 hn, haf⟩
          · exact Or.inl ⟨Orders.id_of_mem_not_mem_delete h' h2, hbf⟩
        · exact Or.inr ⟨Orders.id_of_mem_not_mem_delete h' hn, haf⟩
      · split at hn
        · next hbf =>
          exact Or.inl ⟨Orders.id_of_mem_not_mem_delete h' hn, hbf⟩
        · exact absurd h' hn

/-- Witness for the universal part of the C10 theorem at the concrete
staleness scenario. -/
theorem c10_witness :
    (∀ o' ∈ c10PreBook.match_step.orders, o' ∈ c10PreBook.orders) ∧
    (∀ o' ∈ c10PreBook.orders, o' ∉ c10PreBook.match_step.orders →
      (o'.order_id = (Order.new 1 OrderType.GoodTillCancelled Side.Buy 100 50).order_id ∧
        (Order.fill (Order.new 1 OrderType.GoodTillCancelled Side.Buy 100 50)
          (min (Order.new 1 OrderType.GoodTillCancelled Side.Buy 100 50).remaining_quantity
               (Order.new 2 OrderType.GoodTillCancelled Side.Sell 100 30).remaining_quantity)).2.is_filled
          = true) ∨
      (o'.order_id = (Order.new 2 OrderType.GoodTillCancelled Side.Sell 100 30).order_id ∧
        (Order.fill (Order.new 2 OrderType.GoodTillCancelled Side.Sell 100 30)
          (min (Order.new 1 OrderType.GoodTillCancelled Side.Buy 100 50).remaining_quantity
               (Order.new 2 OrderType.GoodTillCancelled Side.Sell 100 30).remaining_quantity)).2.is_filled
          = true)) :=
  c10_index_staleness.2 c10PreBook 100 100
    (Order.new 1 OrderType.GoodTillCancelled Side.Buy 100 50)
    (Order.new 2 OrderType.GoodTillCancelled Side.Sell 100 30)
    [] [] [] [] (by rfl) (by rfl)

/-- Witness for C2 at a concrete crossed book. -/
theorem c2_witness :
    c10PreBook.match_step.bids =
      [(100, [⟨1, OrderType.GoodTillCancelled, Side.Buy, 100, 50, 20⟩])] ∧
    c10PreBook.match_step.asks = [] := by
  have h := c2_match_step_fifo c10PreBook 100 100
      ⟨1, OrderType.GoodTillCancelled, Side.Buy, 100, 50, 50⟩
      ⟨2, OrderType.GoodTillCancelled, Side.Sell, 100, 30, 30⟩
      [] [] [] [] (by rfl) (by rfl) (by decide)
  constructor
  · rw [h.1]
    rfl
  · rw [h.2.1]
    rfl

/-- Witness for C6 at concrete head orders. -/
theorem c6_witness :
    (Order.fill ⟨1, OrderType.GoodTillCancelled, Side.Buy, 100, 50, 50⟩ 30).1 =
      Except.ok () ∧
    (Order.fill ⟨2, OrderType.GoodTillCancelled, Side.Sell, 100, 30, 30⟩ 30).1 =
      Except.ok () := by
  have h := c6_fill_no_overflow c10PreBook
    ⟨1, OrderType.GoodTillCancelled, Side.Buy, 100, 50, 50⟩
    ⟨2, OrderType.GoodTillCancelled, Side.Sell, 100, 30, 30⟩ (by rfl) (by rfl)
  exact ⟨h.1, h.2.1⟩

/-- Witness for C3: a FillAndKill rejection and a GoodTillCancelled
admission at concrete inputs. -/
theorem c3_witness :
    Orderbook.new.add_order (Order.new 1 OrderType.FillAndKill Side.Buy 100 50) =
      (Except.error OrderError.CantMatch, Orderbook.new) ∧
    (Orderbook.new.add_order
      (Order.new 1 OrderType.GoodTillCancelled Side.Buy 100 50)).1 =
      Except.ok () := by
  constructor
  · exact (c3_add_order_spec Orderbook.new _).2.1 (by rfl) (by rfl) (by rfl)
  · exact (c3_add_order_spec Orderbook.new _).2.2.2.2.1 (by rfl) (Or.inl (by rfl))

/-- Witness for C9 at concrete failing operations. -/
theorem c9_witness :
    (Orderbook.new.add_order
      (Order.new 1 OrderType.FillAndKill Side.Buy 100 50)).2 = Orderbook.new ∧
    (Orderbook.new.cancel_order 5).2 = Orderbook.new ∧
    (Orderbook.new.modify_order 5 10).2 = Orderbook.new ∧
    (Order.fill ⟨1, OrderType.GoodTillCancelled, Side.Buy, 100, 50, 50⟩ 60).2 =
      ⟨1, OrderType.GoodTillCancelled, Side.Buy, 100, 50, 50⟩ := by
  refine ⟨?_, ?_, ?_, ?_⟩
  · exact c9_errors_preserve_state.1 Orderbook.new _ OrderError.CantMatch (by rfl)
  · exact c9_errors_preserve_state.2.1 Orderbook.new 5 OrderError.OrderNotFound (by rfl)
  · exact c9_errors_preserve_state.2.2.1 Orderbook.new 5 10 OrderError.OrderNotFound
      (by rfl)
  · exact c9_errors_preserve_state.2.2.2 _ 60 OrderError.FillOverflow (by rfl)

/-! Well-formedness invariant of reachable books. -/

/-- Orders rest on the bid side at the level keyed by their price. -/
def placedBids (bk : Orderbook) : Prop :=
  ∀ e ∈ bk.bids, ∀ o ∈ e.2, o.price = e.1 ∧ o.side = Side.Buy

/-- Orders rest on the ask side at the level keyed by their price. -/
def placedAsks (bk : Orderbook) : Prop :=
  ∀ e ∈ bk.asks, ∀ o ∈ e.2, o.price = e.1 ∧ o.side = Side.Sell

/-- The fields shared by the price-level copy and the global-index copy of a
live order; remaining_quantity is deliberately excluded, because the
matching loop fills only the level copies (see C10). -/
def agreeOn (o o' : Order) : Prop :=
  o'.side = o.side ∧ o'.price = o.price ∧ o'.order_type = o.order_type ∧
    o'.initial_quantity = o.initial_quantity

/-- Well-formedness of a book: sides sorted best-first with no duplicate
keys, no empty level stored, orders placed at their own price level, no
duplicate ids among resting orders nor in the index, resting orders and
index in id-bijection, and the two copies of each live order agreeing on
everything except remaining_quantity. -/
structure Inv (bk : Orderbook) : Prop where
  sortedBids : List.Pairwise (fun a b => bidLt a b = true) (bidKeys bk)
  sortedAsks : List.Pairwise (fun a b => askLt a b = true) (askKeys bk)
  neBids : ∀ e ∈ bk.bids, e.2 ≠ []
  neAsks : ∀ e ∈ bk.asks, e.2 ≠ []
  placedB : placedBids bk
  placedA : placedAsks bk
  nodupLevel : (levelIds bk).Nodup
  nodupIndex : (indexIds bk).Nodup
  levelSubIndex : ∀ id ∈ levelIds bk, id ∈ indexIds bk
  indexSubLevel : ∀ id ∈ indexIds bk, id ∈ levelIds bk
  agree : ∀ o ∈ allLevelOrders bk, ∀ o' ∈ bk.orders,
    o'.order_id = o.order_id → agreeOn o o'

theorem pairwise_keys_insertLevelBy {lt : Nat → Nat → Bool}
    (htrans : ∀ a b c, lt a b = true → lt b c = true → lt a c = true)
    (htotal : ∀ a b : Nat, a ≠ b → lt a b = true ∨ lt b a = true)
    {p : Nat} {q : List Order} {m : SideMap}
    (hs : List.Pairwise (fun a b => lt a b = true) (m.map Prod.fst))
    (hp : p ∉ m.map Prod.fst) :
    List.Pairwise (fun a b => lt a b = true)
      ((insertLevelBy lt p q m).map Prod.fst) := by
  induction m with
  | nil => simp [insertLevelBy]
  | cons e rest ih =>
    simp only [List.map_cons, List.pairwise_cons] at hs
    obtain ⟨he, hrest⟩ := hs
    simp only [List.map_cons, List.mem_cons, not_or] at hp
    obtain ⟨hne, hnotin⟩ := hp
    simp only [insertLevelBy]
    split
    · next hlt =>
      simp only [List.map_cons, List.pairwise_cons]
      refine ⟨?_, he, hrest⟩
      intro k hk
      rcases List.mem_cons.1 hk with rfl | hk2
      · exact hlt
      · exact htrans _ _ _ hlt (he k hk2)
    · next hnlt =>
      have hlt2 : lt e.1 p = true := by
        rcases htotal p e.1 hne with h1 | h1
        · exact absurd h1 hnlt
        · exact h1
      simp only [List.map_cons, List.pairwise_cons]
      refine ⟨?_, ih hrest hnotin⟩
      intro k hk
      have hk' : k = p ∨ k ∈ rest.map Prod.fst := by
        rcases List.mem_map.1 hk with ⟨e2, he2, rfl⟩
        rcases mem_insertLevelBy.1 he2 with rfl | h2
        · exact Or.inl rfl
        · exact Or.inr (List.mem_map_of_mem _ h2)
      rcases hk' with rfl | h2
      · exact hlt2
      · exact he k h2

theorem bidLt_trans : ∀ a b c : Nat, bidLt a b = true → bidLt b c = true →
    bidLt a c = true := by
  intro a b c h1 h2
  simp only [bidLt, decide_eq_true_eq] at h1 h2 ⊢
  exact h2.trans h1

theorem bidLt_total : ∀ a b : Nat, a ≠ b → bidLt a b = true ∨ bidLt b a = true := by
  intro a b h
  simp only [bidLt, decide_eq_true_eq]
  omega

theorem askLt_trans : ∀ a b c : Nat, askLt a b = true → askLt b c = true →
    askLt a c = true := by
  intro a b c h1 h2
  simp only [askLt, decide_eq_true_eq] at h1 h2 ⊢
  exact h1.trans h2

theorem askLt_total : ∀ a b : Nat, a ≠ b → askLt a b = true ∨ askLt b a = true := by
  intro a b h
  simp only [askLt, decide_eq_true_eq]
  omega

theorem keys_nodup_of_pairwise_bid {ks : List Nat}
    (h : List.Pairwise (fun a b => bidLt a b = true) ks) : ks.Nodup := by
  refine h.imp ?_
  intro a b hab
  simp only [bidLt, decide_eq_true_eq] at hab
  omega

theorem keys_nodup_of_pairwise_ask {ks : List Nat}
    (h : List.Pairwise (fun a b => askLt a b = true) ks) : ks.Nodup := by
  refine h.imp ?_
  intro a b hab
  simp only [askLt, decide_eq_true_eq] at hab
  omega

theorem Orders.contains_eq_false_iff {l : Orders} {id : Nat} :
    Orders.contains l id = false ↔ id ∉ l.map Order.order_id := by
  unfold Orders.contains Orders.get
  cases hf : l.find? (fun o => o.order_id == id) with
  | none =>
    simp only [Option.isSome_none]
    constructor
    · intro _ hc
      rcases List.mem_map.1 hc with ⟨o, ho, rfl⟩
      rw [List.find?_eq_none] at hf
      simpa using hf o ho
    · intro _
      trivial
  | some o =>
    simp only [Option.isSome_some]
    constructor
    · intro h
      exact absurd h (by simp)
    · intro h
      have ho := List.mem_of_find?_eq_some hf
      have hid : o.order_id = id := by simpa using List.find?_some hf
      exact (h (List.mem_map.2 ⟨o, ho, hid⟩)).elim

theorem lookup_isSome_of_mem_keys {m : SideMap} {p : Nat}
    (h : p ∈ m.map Prod.fst) : (lookupLevel m p).isSome = true := by
  rcases List.mem_map.1 h with ⟨e, he, rfl⟩
  unfold lookupLevel
  cases hf : m.find? (fun x => x.1 == e.1) with
  | some e2 => simp
  | none =>
    rw [List.find?_eq_none] at hf
    have := hf e he
    simp at this

theorem lookup_none_not_mem {m : SideMap} {p : Nat}
    (h : lookupLevel m p = none) : p ∉ m.map Prod.fst := by
  intro hc
  have h2 := lookup_isSome_of_mem_keys hc
  rw [h] at h2
  simp at h2

theorem mem_keys_of_lookup_some {m : SideMap} {p : Nat} {q : List Order}
    (h : lookupLevel m p = some q) : p ∈ m.map Prod.fst :=
  List.mem_map.2 ⟨(p, q), lookupLevel_some_mem h, rfl⟩

theorem sideOrders_insertLevelBy {lt : Nat → Nat → Bool} {p : Nat}
    {q : List Order} {m : SideMap} :
    List.Perm (sideOrders (insertLevelBy lt p q m)) (q ++ sideOrders m) := by
  induction m with
  | nil => simp [insertLevelBy, sideOrders]
  | cons e rest ih =>
    simp only [insertLevelBy]
    split
    · exact List.Perm.refl _
    · calc sideOrders (e :: insertLevelBy lt p q rest)
          = e.2 ++ sideOrders (insertLevelBy lt p q rest) := rfl
        _ ~ e.2 ++ (q ++ sideOrders rest) := List.Perm.append_left _ ih
        _ ~ q ++ (e.2 ++ sideOrders rest) :=
            List.perm_append_comm_assoc e.2 q (sideOrders rest)
        _ = q ++ sideOrders (e :: rest) := rfl

theorem sideOrders_updateLevel_push {m : SideMap} {p : Nat} {o : Order}
    (hnd : (m.map Prod.fst).Nodup) (hp : p ∈ m.map Prod.fst) :
    List.Perm (sideOrders (updateLevel m p (fun l => Orders.push_back l o)))
      (sideOrders m ++ [o]) := by
  induction m with
  | nil => simp at hp
  | cons e rest ih =>
    simp only [List.map_cons, List.nodup_cons] at hnd
    have hcons0 : updateLevel (e :: rest) p (fun l => Orders.push_back l o) =
        (if (e.1 == p) = true then (e.1, Orders.push_back e.2 o) else e) ::
          updateLevel rest p (fun l => Orders.push_back l o) := rfl
    rcases List.mem_cons.1 hp with heq | hp2
    · have hb : (e.1 == p) = true := by simp [heq]
      have hrest : updateLevel rest p (fun l => Orders.push_back l o) = rest :=
        updateLevel_of_not_mem (heq ▸ hnd.1)
      have hcons : updateLevel (e :: rest) p (fun l => Orders.push_back l o) =
          (e.1, e.2 ++ [o]) :: rest := by
        rw [hcons0, hb, hrest]
        simp [Orders.push_back]
      rw [hcons]
      show List.Perm ((e.2 ++ [o]) ++ sideOrders rest)
        ((e.2 ++ sideOrders rest) ++ [o])
      rw [List.append_assoc, List.append_assoc]
      exact List.Perm.append_left _ List.perm_append_comm
    · have hne : (e.1 == p) = false := by
        simp only [beq_eq_false_iff_ne, ne_eq]
        exact fun hc => hnd.1 (hc ▸ hp2)
      have hcons : updateLevel (e :: rest) p (fun l => Orders.push_back l o) =
          e :: updateLevel rest p (fun l => Orders.push_back l o) := by
        rw [hcons0, hne]
        simp
      rw [hcons]
      show List.Perm (e.2 ++ sideOrders (updateLevel rest p (fun l => Orders.push_back l o)))
        ((e.2 ++ sideOrders rest) ++ [o])
      rw [List.append_assoc]
      exact List.Perm.append_left _ (ih hnd.2 hp2)

theorem allLevelOrders_insert_perm {bk : Orderbook} {o : Order}
    (hndb : (bk.bids.map Prod.fst).Nodup) (hnda : (bk.asks.map Prod.fst).Nodup) :
    List.Perm (allLevelOrders (bk.insert_order o)) (o :: allLevelOrders bk) := by
  cases hs : o.side
  · cases hl : lookupLevel bk.bids o.price
    · rw [insert_order_eq_buy_none hs hl]
      show List.Perm (sideOrders (insertLevelBy bidLt o.price [o] bk.bids) ++
        sideOrders bk.asks) (o :: (sideOrders bk.bids ++ sideOrders bk.asks))
      calc sideOrders (insertLevelBy bidLt o.price [o] bk.bids) ++ sideOrders bk.asks
          ~ ([o] ++ sideOrders bk.bids) ++ sideOrders bk.asks :=
            List.Perm.append_right _ sideOrders_insertLevelBy
        _ = o :: (sideOrders bk.bids ++ sideOrders bk.asks) := by simp
    · rw [insert_order_eq_buy_some hs hl]
      show List.Perm (sideOrders (updateLevel bk.bids o.price
        (fun l => Orders.push_back l o)) ++ sideOrders bk.asks)
        (o :: (sideOrders bk.bids ++ sideOrders bk.asks))
      calc sideOrders (updateLevel bk.bids o.price (fun l => Orders.push_back l o)) ++
            sideOrders bk.asks
          ~ (sideOrders bk.bids ++ [o]) ++ sideOrders bk.asks :=
            List.Perm.append_right _
              (sideOrders_updateLevel_push hndb (mem_keys_of_lookup_some hl))
        _ = sideOrders bk.bids ++ (o :: sideOrders bk.asks) := by simp
        _ ~ o :: (sideOrders bk.bids ++ sideOrders bk.asks) := List.perm_middle
  · cases hl : lookupLevel bk.asks o.price
    · rw [insert_order_eq_sell_none hs hl]
      show List.Perm (sideOrders bk.bids ++
        sideOrders (insertLevelBy askLt o.price [o] bk.asks))
        (o :: (sideOrders bk.bids ++ sideOrders bk.asks))
      calc sideOrders bk.bids ++ sideOrders (insertLevelBy askLt o.price [o] bk.asks)
          ~ sideOrders bk.bids ++ ([o] ++ sideOrders bk.asks) :=
            List.Perm.append_left _ sideOrders_insertLevelBy
        _ = sideOrders bk.bids ++ (o :: sideOrders bk.asks) := rfl
        _ ~ o :: (sideOrders bk.bids ++ sideOrders bk.asks) := List.perm_middle
    · rw [insert_order_eq_sell_some hs hl]
      show List.Perm (sideOrders bk.bids ++ sideOrders (updateLevel bk.asks o.price
        (fun l => Orders.push_back l o)))
        (o :: (sideOrders bk.bids ++ sideOrders bk.asks))
      calc sideOrders bk.bids ++ sideOrders (updateLevel bk.asks o.price
            (fun l => Orders.push_back l o))
          ~ sideOrders bk.bids ++ (sideOrders bk.asks ++ [o]) :=
            List.Perm.append_left _
              (sideOrders_updateLevel_push hnda (mem_keys_of_lookup_some hl))
        _ = (sideOrders bk.bids ++ sideOrders bk.asks) ++ [o] :=
            (List.append_assoc _ _ _).symm
        _ ~ [o] ++ (sideOrders bk.bids ++ sideOrders bk.asks) := List.perm_append_comm
        _ = o :: (sideOrders bk.bids ++ sideOrders bk.asks) := rfl

theorem struct_insert_ne_placed {l : Nat → Nat → Bool} {p : Nat}
    {q : List Order} {m : SideMap} {P : Order → Nat → Prop}
    (hne : ∀ e ∈ m, e.2 ≠ []) (hq : q ≠ [])
    (hplaced : ∀ e ∈ m, ∀ o2 ∈ e.2, P o2 e.1) (hqP : ∀ o2 ∈ q, P o2 p) :
    (∀ e ∈ insertLevelBy l p q m, e.2 ≠ []) ∧
    (∀ e ∈ insertLevelBy l p q m, ∀ o2 ∈ e.2, P o2 e.1) := by
  constructor
  · intro e he
    rcases mem_insertLevelBy.1 he with rfl | he2
    · exact hq
    · exact hne e he2
  · intro e he o2 ho2
    rcases mem_insertLevelBy.1 he with rfl | he2
    · exact hqP o2 ho2
    · exact hplaced e he2 o2 ho2

theorem struct_update_push_ne_placed {m : SideMap} {p : Nat} {o : Order}
    {P : Order → Nat → Prop}
    (hne : ∀ e ∈ m, e.2 ≠ [])
    (hplaced : ∀ e ∈ m, ∀ o2 ∈ e.2, P o2 e.1) (hoP : P o p) :
    (∀ e ∈ updateLevel m p (fun l => Orders.push_back l o), e.2 ≠ []) ∧
    (∀ e ∈ updateLevel m p (fun l => Orders.push_back l o),
      ∀ o2 ∈ e.2, P o2 e.1) := by
  constructor
  · intro e' he'
    rcases mem_updateLevel he' with ⟨e, he, heq⟩
    by_cases hp : e.1 = p
    · rw [if_pos hp] at heq
      rw [heq]
      simp [Orders.push_back]
    · rw [if_neg hp] at heq
      rw [heq]
      exact hne e he
  · intro e' he' o2 ho2
    rcases mem_updateLevel he' with ⟨e, he, heq⟩
    by_cases hp : e.1 = p
    · rw [if_pos hp] at heq
      rw [heq] at ho2 ⊢
      simp only [Orders.push_back] at ho2
      rcases List.mem_append.1 ho2 with h1 | h1
      · exact hplaced e he o2 h1
      · rw [List.mem_singleton.1 h1]
        exact hp ▸ hoP
    · rw [if_neg hp] at heq
      rw [heq] at ho2 ⊢
      exact hplaced e he o2 ho2

theorem Inv_insert {bk : Orderbook} {o : Order} (hInv : Inv bk)
    (hfresh : o.order_id ∉ indexIds bk) : Inv (bk.insert_order o) := by
  have hndb := keys_nodup_of_pairwise_bid hInv.sortedBids
  have hnda := keys_nodup_of_pairwise_ask hInv.sortedAsks
  have hperm : List.Perm (allLevelOrders (bk.insert_order o))
      (o :: allLevelOrders bk) := allLevelOrders_insert_perm hndb hnda
  have hidsperm : List.Perm (levelIds (bk.insert_order o))
      (o.order_id :: levelIds bk) := hperm.map Order.order_id
  have horders : (bk.insert_order o).orders = bk.orders ++ [o] :=
    (insert_order_spec bk o).2.1
  have hfreshL : o.order_id ∉ levelIds bk :=
    fun hc => hfresh (hInv.levelSubIndex _ hc)
  have hidx : indexIds (bk.insert_order o) = indexIds bk ++ [o.order_id] := by
    unfold indexIds
    rw [horders]
    simp
  have hstruct : List.Pairwise (fun a b => bidLt a b = true)
        (bidKeys (bk.insert_order o)) ∧
      List.Pairwise (fun a b => askLt a b = true) (askKeys (bk.insert_order o)) ∧
      (∀ e ∈ (bk.insert_order o).bids, e.2 ≠ []) ∧
      (∀ e ∈ (bk.insert_order o).asks, e.2 ≠ []) ∧
      placedBids (bk.insert_order o) ∧ placedAsks (bk.insert_order o) := by
    cases hs : o.side
    · cases hl : lookupLevel bk.bids o.price
      · rw [insert_order_eq_buy_none hs hl]
        have h1 := struct_insert_ne_placed (l := bidLt) (p := o.price)
            (q := [o]) (m := bk.bids)
            (P := fun o2 k => o2.price = k ∧ o2.side = Side.Buy)
            hInv.neBids (by simp) hInv.placedB
            (by
              intro o2 ho2
              rw [List.mem_singleton.1 ho2]
              exact ⟨rfl, hs⟩)
        exact ⟨pairwise_keys_insertLevelBy bidLt_trans bidLt_total
            hInv.sortedBids (lookup_none_not_mem hl),
          hInv.sortedAsks, h1.1, hInv.neAsks, h1.2, hInv.placedA⟩
      · rw [insert_order_eq_buy_some hs hl]
        have h1 := struct_update_push_ne_placed (m := bk.bids) (p := o.price)
            (o := o) (P := fun o2 k => o2.price = k ∧ o2.side = Side.Buy)
            hInv.neBids hInv.placedB ⟨rfl, hs⟩
        refine ⟨?_, hInv.sortedAsks, h1.1, hInv.neAsks, h1.2, hInv.placedA⟩
        show List.Pairwise _ ((updateLevel bk.bids o.price
          (fun l => Orders.push_back l o)).map Prod.fst)
        rw [keys_updateLevel]
        exact hInv.sortedBids
    · cases hl : lookupLevel bk.asks o.price
      · rw [insert_order_eq_sell_none hs hl]
        have h1 := struct_insert_ne_placed (l := askLt) (p := o.price)
            (q := [o]) (m := bk.asks)
            (P := fun o2 k => o2.price = k ∧ o2.side = Side.Sell)
            hInv.neAsks (by simp) hInv.placedA
            (by
              intro o2 ho2
              rw [List.mem_singleton.1 ho2]
              exact ⟨rfl, hs⟩)
        exact ⟨hInv.sortedBids,
          pairwise_keys_insertLevelBy askLt_trans askLt_total
            hInv.sortedAsks (lookup_none_not_mem hl),
          hInv.neBids, h1.1, hInv.placedB, h1.2⟩
      · rw [insert_order_eq_sell_some hs hl]
        have h1 := struct_update_push_ne_placed (m := bk.asks) (p := o.price)
            (o := o) (P := fun o2 k => o2.price = k ∧ o2.side = Side.Sell)
            hInv.neAsks hInv.placedA ⟨rfl, hs⟩
        refine ⟨hInv.sortedBids, ?_, hInv.neBids, h1.1, hInv.placedB, h1.2⟩
        show List.Pairwise _ ((updateLevel bk.asks o.price
          (fun l => Orders.push_back l o)).map Prod.fst)
        rw [keys_updateLevel]
        exact hInv.sortedAsks
  refine ⟨hstruct.1, hstruct.2.1, hstruct.2.2.1, hstruct.2.2.2.1,
    hstruct.2.2.2.2.1, hstruct.2.2.2.2.2, ?_, ?_, ?_, ?_, ?_⟩
  · exact hidsperm.nodup_iff.2 (List.nodup_cons.2 ⟨hfreshL, hInv.nodupLevel⟩)
  · rw [hidx]
    exact (List.perm_append_comm).nodup_iff.2
      (List.nodup_cons.2 ⟨hfresh, hInv.nodupIndex⟩)
  · intro x hx
    rw [hidx]
    rcases List.mem_cons.1 (hidsperm.mem_iff.1 hx) with rfl | hx2
    · exact List.mem_append.2 (Or.inr (List.mem_singleton.2 rfl))
    · exact List.mem_append.2 (Or.inl (hInv.levelSubIndex _ hx2))
  · intro x hx
    rw [hidx] at hx
    apply hidsperm.mem_iff.2
    rcases List.mem_append.1 hx with hx2 | hx2
    · exact List.mem_cons_of_mem _ (hInv.indexSubLevel _ hx2)
    · rw [List.mem_singleton.1 hx2]
      exact List.mem_cons_self _ _
  · intro x hx y hy hxy
    have hx' := hperm.mem_iff.1 hx
    rw [horders] at hy
    rcases List.mem_cons.1 hx' with rfl | hx2
    · rcases List.mem_append.1 hy with hy2 | hy2
      · exfalso
        apply hfresh
        rw [← hxy]
        exact List.mem_map_of_mem _ hy2
      · rw [List.mem_singleton.1 hy2]
        exact ⟨rfl, rfl, rfl, rfl⟩
    · rcases List.mem_append.1 hy with hy2 | hy2
      · exact hInv.agree x hx2 y hy2 hxy
      · exfalso
        apply hfreshL
        rw [List.mem_singleton.1 hy2] at hxy
        rw [hxy]
        exact List.mem_map_of_mem _ hx2

theorem add_order_ok_fresh {bk : Orderbook} {o : Order}
    (h : (bk.add_order o).1 = Except.ok ()) :
    Orders.contains bk.orders o.order_id = false := by
  cases hc : Orders.contains bk.orders o.order_id
  · rfl
  · exfalso
    unfold Orderbook.add_order at h
    rw [if_pos hc] at h
    simp at h

theorem add_order_ok_snd {bk : Orderbook} {o : Order}
    (h : (bk.add_order o).1 = Except.ok ()) :
    (bk.add_order o).2 = bk.insert_order o := by
  rcases add_order_cases bk o with hc | ⟨e, hc⟩
  · rw [hc]
  · rw [hc] at h
    simp at h

theorem Inv_add_order {bk : Orderbook} {o : Order} (hInv : Inv bk) :
    Inv (bk.add_order o).2 := by
  rcases add_order_cases bk o with hc | ⟨e, hc⟩
  · have hfresh : Orders.contains bk.orders o.order_id = false :=
      add_order_ok_fresh (by rw [hc])
    rw [hc]
    exact Inv_insert hInv (Orders.contains_eq_false_iff.1 hfresh)
  · rw [hc]
    exact hInv

theorem sideOrders_append (a b : SideMap) :
    sideOrders (a ++ b) = sideOrders a ++ sideOrders b := by
  simp [sideOrders]

/-- A map with sorted (hence distinct) keys decomposes around the looked-up
key, and removal/update act on exactly that entry. -/
theorem lookup_decomp {m : SideMap} {p : Nat} {q : List Order}
    (hndk : (m.map Prod.fst).Nodup) (hm : lookupLevel m p = some q) :
    ∃ pre post, m = pre ++ (p, q) :: post ∧
      p ∉ pre.map Prod.fst ∧ p ∉ post.map Prod.fst ∧
      removeLevel p m = pre ++ post ∧
      (∀ f, updateLevel m p f = pre ++ (p, f q) :: post) := by
  induction m with
  | nil => simp [lookupLevel] at hm
  | cons e rest ih =>
    simp only [List.map_cons, List.nodup_cons] at hndk
    by_cases hp : e.1 = p
    · have hb : (e.1 == p) = true := by simpa using hp
      have hq : e.2 = q := by
        simp only [lookupLevel, List.find?_cons, hb, if_true] at hm
        simpa using hm
      have hef : e = (p, q) := by
        rcases e with ⟨e1, e2⟩
        simp only at hp hq
        rw [hp, hq]
      refine ⟨[], rest, by simp [hef], by simp, hp ▸ hndk.1, ?_, ?_⟩
      · simp [removeLevel, hb]
      · intro f
        have h0 : updateLevel (e :: rest) p f =
            (if (e.1 == p) = true then (e.1, f e.2) else e) ::
              updateLevel rest p f := rfl
        rw [h0, hb, updateLevel_of_not_mem (hp ▸ hndk.1)]
        simp [hp, hq]
    · have hb : (e.1 == p) = false := by simpa using hp
      have hm' : lookupLevel rest p = some q := by
        simp only [lookupLevel, List.find?_cons, hb, Bool.false_eq_true,
          if_false] at hm
        exact hm
      obtain ⟨pre, post, hmeq, hpre, hpost, hrem, hupd⟩ := ih hndk.2 hm'
      refine ⟨e :: pre, post, by rw [List.cons_append, ← hmeq], ?_, hpost, ?_, ?_⟩
      · simp only [List.map_cons, List.mem_cons, not_or]
        exact ⟨fun hc => hp hc.symm, hpre⟩
      · simp only [removeLevel, hb, Bool.false_eq_true, if_false, hrem,
          List.cons_append]
      · intro f
        have h0 : updateLevel (e :: rest) p f =
            (if (e.1 == p) = true then (e.1, f e.2) else e) ::
              updateLevel rest p f := rfl
        rw [h0, hb, hupd f]
        simp

theorem eq_entry_of_lookup {m : SideMap} {p : Nat} {q : List Order}
    (hndk : (m.map Prod.fst).Nodup) (hm : lookupLevel m p = some q)
    {e : Level} (he : e ∈ m) (hep : e.1 = p) : e = (p, q) := by
  obtain ⟨pre, post, hmeq, hpre, hpost, _, _⟩ := lookup_decomp hndk hm
  subst hmeq
  rcases List.mem_append.1 he with h1 | h1
  · exact absurd (hep ▸ List.mem_map_of_mem Prod.fst h1) hpre
  · rcases List.mem_cons.1 h1 with rfl | h2
    · rfl
    · exact absurd (hep ▸ List.mem_map_of_mem Prod.fst h2) hpost

theorem Orders.delete_eq_nil {q : Orders} {id : Nat}
    (h : Orders.delete q id = []) : ∀ x ∈ q, x.order_id = id := by
  intro x hx
  cases q with
  | nil => simp at hx
  | cons a rest =>
    simp only [Orders.delete] at h
    split at h
    · next hbeq =>
      subst h
      rw [List.mem_singleton.1 hx]
      simpa using hbeq
    · simp at h

/-- All facts needed about the side that cancel_order touches: the result is
a sub-collection, every other order survives in place, the cancelled id is
gone, keys shrink, and non-emptiness and placement are maintained. -/
theorem cancelSide_facts {m : SideMap} {p : Nat} {q : List Order} {id : Nat}
    {P : Order → Nat → Prop}
    (hndk : (m.map Prod.fst).Nodup) (hm : lookupLevel m p = some q)
    (hid : id ∈ q.map Order.order_id)
    (hndo : ((sideOrders m).map Order.order_id).Nodup)
    (hne : ∀ e ∈ m, e.2 ≠ []) (hP : ∀ e ∈ m, ∀ o2 ∈ e.2, P o2 e.1) :
    List.Sublist
      (sideOrders (if (Orders.delete q id).isEmpty then removeLevel p m
        else updateLevel m p (fun _ => Orders.delete q id))) (sideOrders m) ∧
    (∀ ox ∈ sideOrders m, ox.order_id ≠ id →
      ox ∈ sideOrders (if (Orders.delete q id).isEmpty then removeLevel p m
        else updateLevel m p (fun _ => Orders.delete q id))) ∧
    id ∉ (sideOrders (if (Orders.delete q id).isEmpty then removeLevel p m
        else updateLevel m p (fun _ => Orders.delete q id))).map Order.order_id ∧
    List.Sublist
      ((if (Orders.delete q id).isEmpty then removeLevel p m
        else updateLevel m p (fun _ => Orders.delete q id)).map Prod.fst)
      (m.map Prod.fst) ∧
    (∀ e ∈ (if (Orders.delete q id).isEmpty then removeLevel p m
        else updateLevel m p (fun _ => Orders.delete q id)), e.2 ≠ []) ∧
    (∀ e ∈ (if (Orders.delete q id).isEmpty then removeLevel p m
        else updateLevel m p (fun _ => Orders.delete q id)),
      ∀ o2 ∈ e.2, P o2 e.1) := by
  obtain ⟨pre, post, hmeq, hpre, hpost, hrem, hupd⟩ := lookup_decomp hndk hm
  have hqmem : (p, q) ∈ m := by
    rw [hmeq]
    exact List.mem_append.2 (Or.inr (List.mem_cons_self _ _))
  have hsidem : sideOrders m = sideOrders pre ++ (q ++ sideOrders post) := by
    rw [hmeq, sideOrders_append]
    rfl
  have hndo' : ((sideOrders pre).map Order.order_id ++
      ((q.map Order.order_id) ++ (sideOrders post).map Order.order_id)).Nodup := by
    rw [hsidem] at hndo
    simpa using hndo
  rw [List.nodup_append] at hndo'
  have hndq : ((q.map Order.order_id) ++
      (sideOrders post).map Order.order_id).Nodup := hndo'.2.1
  rw [List.nodup_append] at hndq
  cases hq1 : (Orders.delete q id).isEmpty
  · -- non-empty remainder: update in place
    rw [if_neg Bool.false_ne_true, hupd]
    have hside : sideOrders (pre ++ (p, Orders.delete q id) :: post) =
        sideOrders pre ++ (Orders.delete q id ++ sideOrders post) := by
      rw [sideOrders_append]
      rfl
    refine ⟨?_, ?_, ?_, ?_, ?_, ?_⟩
    · rw [hside, hsidem]
      exact List.Sublist.append_left
        (List.Sublist.append_right (Orders.delete_sublist q id) _) _
    · intro ox hox hne2
      rw [hsidem] at hox
      rw [hside]
      rcases List.mem_append.1 hox with h1 | h1
      · exact List.mem_append.2 (Or.inl h1)
      · rcases List.mem_append.1 h1 with h2 | h2
        · exact List.mem_append.2
            (Or.inr (List.mem_append.2 (Or.inl (Orders.mem_delete_of_ne h2 hne2))))
        · exact List.mem_append.2 (Or.inr (List.mem_append.2 (Or.inr h2)))
    · rw [hside]
      simp only [List.map_append, List.mem_append, not_or]
      refine ⟨?_, ?_, ?_⟩
      · intro hc
        exact (hndo'.2.2 hc) (List.mem_append.2 (Or.inl hid))
      · rw [Orders.ids_delete]
        exact hndq.1.not_mem_erase
      · intro hc
        exact (hndq.2.2 hid) hc
    · rw [hmeq]
      simp only [List.map_append, List.map_cons]
      exact List.Sublist.refl _
    · intro e he
      rcases List.mem_append.1 he with h1 | h1
      · exact hne e (by rw [hmeq]; exact List.mem_append.2 (Or.inl h1))
      · rcases List.mem_cons.1 h1 with rfl | h2
        · intro hc
          simp only at hc
          rw [hc] at hq1
          simp at hq1
        · exact hne e (by
            rw [hmeq]
            exact List.mem_append.2 (Or.inr (List.mem_cons_of_mem _ h2)))
    · intro e he o2 ho2
      rcases List.mem_append.1 he with h1 | h1
      · exact hP e (by rw [hmeq]; exact List.mem_append.2 (Or.inl h1)) o2 ho2
      · rcases List.mem_cons.1 h1 with rfl | h2
        · exact hP (p, q) hqmem o2 (Orders.mem_of_mem_delete ho2)
        · exact hP e (by
            rw [hmeq]
            exact List.mem_append.2 (Or.inr (List.mem_cons_of_mem _ h2))) o2 ho2
  · -- emptied level: remove it
    rw [if_pos rfl, hrem]
    have hall : ∀ x ∈ q, x.order_id = id :=
      Orders.delete_eq_nil (List.isEmpty_iff.1 hq1)
    refine ⟨?_, ?_, ?_, ?_, ?_, ?_⟩
    · rw [sideOrders_append, hsidem]
      exact List.Sublist.append_left (List.sublist_append_right _ _) _
    · intro ox hox hne2
      rw [hsidem] at hox
      rw [sideOrders_append]
      rcases List.mem_append.1 hox with h1 | h1
      · exact List.mem_append.2 (Or.inl h1)
      · rcases List.mem_append.1 h1 with h2 | h2
        · exact absurd (hall ox h2) hne2
        · exact List.mem_append.2 (Or.inr h2)
    · rw [sideOrders_append]
      simp only [List.map_append, List.mem_append, not_or]
      refine ⟨?_, ?_⟩
      · intro hc
        exact (hndo'.2.2 hc) (List.mem_append.2 (Or.inl hid))
      · intro hc
        exact (hndq.2.2 hid) hc
    · rw [hmeq, List.map_append, List.map_append, List.map_cons]
      exact List.Sublist.append_left (List.sublist_cons_self _ _) _
    · intro e he
      rcases List.mem_append.1 he with h1 | h1
      · exact hne e (by rw [hmeq]; exact List.mem_append.2 (Or.inl h1))
      · exact hne e (by
          rw [hmeq]
          exact List.mem_append.2 (Or.inr (List.mem_cons_of_mem _ h1)))
    · intro e he o2 ho2
      rcases List.mem_append.1 he with h1 | h1
      · exact hP e (by rw [hmeq]; exact List.mem_append.2 (Or.inl h1)) o2 ho2
      · exact hP e (by
          rw [hmeq]
          exact List.mem_append.2 (Or.inr (List.mem_cons_of_mem _ h1))) o2 ho2

theorem Orders.get_eq_some {l : Orders} {id : Nat} {o : Order}
    (h : Orders.get l id = some o) : o ∈ l ∧ o.order_id = id := by
  unfold Orders.get at h
  exact ⟨List.mem_of_find?_eq_some h, by simpa using List.find?_some h⟩

theorem bid_ask_ids_disjoint {bk : Orderbook} (hInv : Inv bk) :
    List.Disjoint ((sideOrders bk.bids).map Order.order_id)
      ((sideOrders bk.asks).map Order.order_id) := by
  have h := hInv.nodupLevel
  unfold levelIds allLevelOrders at h
  rw [List.map_append] at h
  exact (List.nodup_append.1 h).2.2

theorem bids_ids_nodup {bk : Orderbook} (hInv : Inv bk) :
    ((sideOrders bk.bids).map Order.order_id).Nodup := by
  have h := hInv.nodupLevel
  unfold levelIds allLevelOrders at h
  rw [List.map_append] at h
  exact (List.nodup_append.1 h).1

theorem asks_ids_nodup {bk : Orderbook} (hInv : Inv bk) :
    ((sideOrders bk.asks).map Order.order_id).Nodup := by
  have h := hInv.nodupLevel
  unfold levelIds allLevelOrders at h
  rw [List.map_append] at h
  exact (List.nodup_append.1 h).2.1

theorem Inv_cancel {bk : Orderbook} {id : Nat} (hInv : Inv bk) :
    Inv (bk.cancel_order id).2 := by
  cases hg : Orders.get bk.orders id with
  | none =>
    have hbook : (bk.cancel_order id).2 = bk := by
      unfold Orderbook.cancel_order
      rw [hg]
    rw [hbook]
    exact hInv
  | some o =>
    obtain ⟨hoMem, hoid⟩ := Orders.get_eq_some hg
    have hidIdx : id ∈ indexIds bk := hoid ▸ List.mem_map_of_mem _ hoMem
    have hidLvl : id ∈ levelIds bk := hInv.indexSubLevel _ hidIdx
    obtain ⟨x0, hx0Mem, hx0id⟩ := List.mem_map.1 hidLvl
    have hagree := hInv.agree x0 hx0Mem o hoMem (by rw [hoid, hx0id])
    cases hs : o.side
    · -- Buy side
      have hx0side : x0.side = Side.Buy := by rw [← hagree.1, hs]
      have hx0bids : x0 ∈ sideOrders bk.bids := by
        rcases List.mem_append.1 hx0Mem with h1 | h1
        · exact h1
        · exfalso
          rcases mem_sideOrders.1 h1 with ⟨e, he, hoe⟩
          have h2 := (hInv.placedA e he x0 hoe).2
          rw [hx0side] at h2
          exact Side.noConfusion h2
      rcases mem_sideOrders.1 hx0bids with ⟨e, he, hoe⟩
      have hkey : e.1 = o.price := by
        have h1 := (hInv.placedB e he x0 hoe).1
        rw [← h1]
        exact hagree.2.1.symm
      have hkeys : o.price ∈ bk.bids.map Prod.fst :=
        hkey ▸ List.mem_map_of_mem Prod.fst he
      have hndkb := keys_nodup_of_pairwise_bid hInv.sortedBids
      cases hl : lookupLevel bk.bids o.price with
      | none => exact absurd (lookup_isSome_of_mem_keys hkeys) (by rw [hl]; simp)
      | some q =>
        have he_eq : e = (o.price, q) := eq_entry_of_lookup hndkb hl he hkey
        have hx0q : x0 ∈ q := by
          rw [he_eq] at hoe
          exact hoe
        have hidq : id ∈ q.map Order.order_id := hx0id ▸ List.mem_map_of_mem _ hx0q
        have hidbids : id ∈ (sideOrders bk.bids).map Order.order_id :=
          hx0id ▸ List.mem_map_of_mem _ hx0bids
        obtain ⟨hsub, hkeeps, hnotmem, hksub, hne', hP'⟩ :=
          cancelSide_facts (P := fun o2 k => o2.price = k ∧ o2.side = Side.Buy)
            hndkb hl hidq (bids_ids_nodup hInv) hInv.neBids hInv.placedB
        set B2 := if (Orders.delete q id).isEmpty then removeLevel o.price bk.bids
                  else updateLevel bk.bids o.price (fun _ => Orders.delete q id) with hB2
        have hbook : (bk.cancel_order id).2 =
            { bk with orders := Orders.delete bk.orders id, bids := B2 } := by
          simp only [Orderbook.cancel_order, hg, hs, hl]
        rw [hbook]
        refine ⟨?_, hInv.sortedAsks, hne', hInv.neAsks, hP', hInv.placedA,
          ?_, ?_, ?_, ?_, ?_⟩
        · exact List.Pairwise.sublist hksub hInv.sortedBids
        · show ((sideOrders B2 ++ sideOrders bk.asks).map Order.order_id).Nodup
          rw [List.map_append]
          have hbig : ((sideOrders bk.bids).map Order.order_id ++
              (sideOrders bk.asks).map Order.order_id).Nodup := by
            rw [← List.map_append]
            exact hInv.nodupLevel
          exact hbig.sublist
            (List.Sublist.append (hsub.map _) (List.Sublist.refl _))
        · show ((Orders.delete bk.orders id).map Order.order_id).Nodup
          rw [Orders.ids_delete]
          exact hInv.nodupIndex.erase id
        · intro x hx
          have h0 : x ∈ (sideOrders B2 ++ sideOrders bk.asks).map Order.order_id := hx
          rw [List.map_append] at h0
          have hxsplit := List.mem_append.1 h0
          show x ∈ (Orders.delete bk.orders id).map Order.order_id
          rw [Orders.ids_delete]
          have hxne : x ≠ id := by
            rcases hxsplit with h1 | h1
            · exact fun hc => hnotmem (hc ▸ h1)
            · exact fun hc => (bid_ask_ids_disjoint hInv) hidbids (hc ▸ h1)
          have hxlvl : x ∈ levelIds bk := by
            rcases hxsplit with h1 | h1
            · rcases List.mem_map.1 h1 with ⟨y, hy, rfl⟩
              exact List.mem_map_of_mem _ (List.mem_append.2 (Or.inl (hsub.subset hy)))
            · rcases List.mem_map.1 h1 with ⟨y, hy, rfl⟩
              exact List.mem_map_of_mem _ (List.mem_append.2 (Or.inr hy))
          exact (hInv.nodupIndex.mem_erase_iff).2
            ⟨hxne, hInv.levelSubIndex _ hxlvl⟩
        · intro x hx
          have hx' : x ∈ (Orders.delete bk.orders id).map Order.order_id := hx
          rw [Orders.ids_delete] at hx'
          obtain ⟨hxne, hxidx⟩ := (hInv.nodupIndex.mem_erase_iff).1 hx'
          have hxlvl := hInv.indexSubLevel _ hxidx
          obtain ⟨y, hyMem, hyx⟩ := List.mem_map.1 hxlvl
          show x ∈ (sideOrders B2 ++ sideOrders bk.asks).map Order.order_id
          rcases List.mem_append.1 hyMem with h1 | h1
          · have hykeep := hkeeps y h1 (by rw [hyx]; exact hxne)
            exact hyx ▸ List.mem_map_of_mem _ (List.mem_append.2 (Or.inl hykeep))
          · exact hyx ▸ List.mem_map_of_mem _ (List.mem_append.2 (Or.inr h1))
        · intro x hx y hy hxy
          have hxold : x ∈ allLevelOrders bk := by
            rcases List.mem_append.1 hx with h1 | h1
            · exact List.mem_append.2 (Or.inl (hsub.subset h1))
            · exact List.mem_append.2 (Or.inr h1)
          exact hInv.agree x hxold y (Orders.mem_of_mem_delete hy) hxy
    · -- Sell side
      have hx0side : x0.side = Side.Sell := by rw [← hagree.1, hs]
      have hx0asks : x0 ∈ sideOrders bk.asks := by
        rcases List.mem_append.1 hx0Mem with h1 | h1
        · exfalso
          rcases mem_sideOrders.1 h1 with ⟨e, he, hoe⟩
          have h2 := (hInv.placedB e he x0 hoe).2
          rw [hx0side] at h2
          exact Side.noConfusion h2
        · exact h1
      rcases mem_sideOrders.1 hx0asks with ⟨e, he, hoe⟩
      have hkey : e.1 = o.price := by
        have h1 := (hInv.placedA e he x0 hoe).1
        rw [← h1]
        exact hagree.2.1.symm
      have hkeys : o.price ∈ bk.asks.map Prod.fst :=
        hkey ▸ List.mem_map_of_mem Prod.fst he
      have hndka := keys_nodup_of_pairwise_ask hInv.sortedAsks
      cases hl : lookupLevel bk.asks o.price with
      | none => exact absurd (lookup_isSome_of_mem_keys hkeys) (by rw [hl]; simp)
      | some q =>
        have he_eq : e = (o.price, q) := eq_entry_of_lookup hndka hl he hkey
        have hx0q : x0 ∈ q := by
          rw [he_eq] at hoe
          exact hoe
        have hidq : id ∈ q.map Order.order_id := hx0id ▸ List.mem_map_of_mem _ hx0q
        have hidasks : id ∈ (sideOrders bk.asks).map Order.order_id :=
          hx0id ▸ List.mem_map_of_mem _ hx0asks
        obtain ⟨hsub, hkeeps, hnotmem, hksub, hne', hP'⟩ :=
          cancelSide_facts (P := fun o2 k => o2.price = k ∧ o2.side = Side.Sell)
            hndka hl hidq (asks_ids_nodup hInv) hInv.neAsks hInv.placedA
        set A2 := if (Orders.delete q id).isEmpty then removeLevel o.price bk.asks
                  else updateLevel bk.asks o.price (fun _ => Orders.delete q id) with hA2
        have hbook : (bk.cancel_order id).2 =
            { bk with orders := Orders.delete bk.orders id, asks := A2 } := by
          simp only [Orderbook.cancel_order, hg, hs, hl]
        rw [hbook]
        refine ⟨hInv.sortedBids, ?_, hInv.neBids, hne', hInv.placedB, hP',
          ?_, ?_, ?_, ?_, ?_⟩
        · exact List.Pairwise.sublist hksub hInv.sortedAsks
        · show ((sideOrders bk.bids ++ sideOrders A2).map Order.order_id).Nodup
          rw [List.map_append]
          have hbig : ((sideOrders bk.bids).map Order.order_id ++
              (sideOrders bk.asks).map Order.order_id).Nodup := by
            rw [← List.map_append]
            exact hInv.nodupLevel
          exact hbig.sublist
            (List.Sublist.append (List.Sublist.refl _) (hsub.map _))
        · show ((Orders.delete bk.orders id).map Order.order_id).Nodup
          rw [Orders.ids_delete]
          exact hInv.nodupIndex.erase id
        · intro x hx
          have h0 : x ∈ (sideOrders bk.bids ++ sideOrders A2).map Order.order_id := hx
          rw [List.map_append] at h0
          have hxsplit := List.mem_append.1 h0
          show x ∈ (Orders.delete bk.orders id).map Order.order_id
          rw [Orders.ids_delete]
          have hxne : x ≠ id := by
            rcases hxsplit with h1 | h1
            · exact fun hc => (bid_ask_ids_disjoint hInv) (hc ▸ h1) hidasks
            · exact fun hc => hnotmem (hc ▸ h1)
          have hxlvl : x ∈ levelIds bk := by
            rcases hxsplit with h1 | h1
            · rcases List.mem_map.1 h1 with ⟨y, hy, rfl⟩
              exact List.mem_map_of_mem _ (List.mem_append.2 (Or.inl hy))
            · rcases List.mem_map.1 h1 with ⟨y, hy, rfl⟩
              exact List.mem_map_of_mem _ (List.mem_append.2 (Or.inr (hsub.subset hy)))
          exact (hInv.nodupIndex.mem_erase_iff).2
            ⟨hxne, hInv.levelSubIndex _ hxlvl⟩
        · intro x hx
          have hx' : x ∈ (Orders.delete bk.orders id).map Order.order_id := hx
          rw [Orders.ids_delete] at hx'
          obtain ⟨hxne, hxidx⟩ := (hInv.nodupIndex.mem_erase_iff).1 hx'
          have hxlvl := hInv.indexSubLevel _ hxidx
          obtain ⟨y, hyMem, hyx⟩ := List.mem_map.1 hxlvl
          show x ∈ (sideOrders bk.bids ++ sideOrders A2).map Order.order_id
          rcases List.mem_append.1 hyMem with h1 | h1
          · exact hyx ▸ List.mem_map_of_mem _ (List.mem_append.2 (Or.inl h1))
          · have hykeep := hkeeps y h1 (by rw [hyx]; exact hxne)
            exact hyx ▸ List.mem_map_of_mem _ (List.mem_append.2 (Or.inr hykeep))
        · intro x hx y hy hxy
          have hxold : x ∈ allLevelOrders bk := by
            rcases List.mem_append.1 hx with h1 | h1
            · exact List.mem_append.2 (Or.inl h1)
            · exact List.mem_append.2 (Or.inr (hsub.subset h1))
          exact hInv.agree x hxold y (Orders.mem_of_mem_delete hy) hxy

theorem agreeOn_of_fields {x x' y : Order}
    (ht : x'.order_type = x.order_type) (hs : x'.side = x.side)
    (hp : x'.price = x.price) (hi : x'.initial_quantity = x.initial_quantity)
    (h : agreeOn x y) : agreeOn x' y := by
  obtain ⟨h1, h2, h3, h4⟩ := h
  exact ⟨hs ▸ h1, hp ▸ h2, ht ▸ h3, hi ▸ h4⟩

/-- Structural facts about one side after a matching-loop iteration: the head
order is replaced by its filled version or popped (dropping an emptied
level), keys shrink, and sortedness, non-emptiness and placement are
maintained. -/
theorem stepSide_facts {c : Bool} {p : Nat} {u v : Order} {t : List Order}
    {s r : SideMap} {P : Order → Nat → Prop} {l : Nat → Nat → Bool}
    (hr : r = if c then (if t.isEmpty then s else (p, t) :: s)
              else (p, v :: t) :: s)
    (hsorted : List.Pairwise (fun a b => l a b = true)
      (((p, u :: t) :: s).map Prod.fst))
    (hne : ∀ e ∈ (p, u :: t) :: s, e.2 ≠ [])
    (hP : ∀ e ∈ (p, u :: t) :: s, ∀ x ∈ e.2, P x e.1)
    (hP2 : P v p) :
    List.Pairwise (fun a b => l a b = true) (r.map Prod.fst) ∧
    (∀ e ∈ r, e.2 ≠ []) ∧ (∀ e ∈ r, ∀ x ∈ e.2, P x e.1) ∧
    sideOrders r =
      (if c then t ++ sideOrders s else v :: (t ++ sideOrders s)) ∧
    List.Sublist (r.map Prod.fst) (((p, u :: t) :: s).map Prod.fst) := by
  subst hr
  cases c
  · -- head replaced by the filled order
    rw [if_neg Bool.false_ne_true, if_neg Bool.false_ne_true]
    refine ⟨hsorted, ?_, ?_, rfl, List.Sublist.refl _⟩
    · intro e he
      rcases List.mem_cons.1 he with rfl | h2
      · simp
      · exact hne e (List.mem_cons_of_mem _ h2)
    · intro e he x hx
      rcases List.mem_cons.1 he with rfl | h2
      · rcases List.mem_cons.1 hx with rfl | h3
        · exact hP2
        · exact hP (p, u :: t) (List.mem_cons_self _ _) x
            (List.mem_cons_of_mem _ h3)
      · exact hP e (List.mem_cons_of_mem _ h2) x hx
  · rw [if_pos rfl]
    cases ht : t.isEmpty
    · -- head popped, level kept
      rw [if_neg Bool.false_ne_true]
      refine ⟨hsorted, ?_, ?_, rfl, List.Sublist.refl _⟩
      · intro e he
        rcases List.mem_cons.1 he with rfl | h2
        · intro hc
          simp only at hc
          rw [hc] at ht
          simp at ht
        · exact hne e (List.mem_cons_of_mem _ h2)
      · intro e he x hx
        rcases List.mem_cons.1 he with rfl | h2
        · exact hP (p, u :: t) (List.mem_cons_self _ _) x
            (List.mem_cons_of_mem _ hx)
        · exact hP e (List.mem_cons_of_mem _ h2) x hx
    · -- head popped, level emptied and removed
      rw [if_pos rfl]
      have ht0 : t = [] := List.isEmpty_iff.1 ht
      refine ⟨(List.pairwise_cons.1 hsorted).2, ?_, ?_, ?_,
        List.sublist_cons_self _ _⟩
      · intro e he
        exact hne e (List.mem_cons_of_mem _ he)
      · intro e he x hx
        exact hP e (List.mem_cons_of_mem _ he) x hx
      · rw [ht0]
        rfl

theorem mem_ite_cons {c : Bool} {x y : Order} {l : List Order} :
    y ∈ (if c then l else x :: l) ↔ (c = false ∧ y = x) ∨ y ∈ l := by
  cases c <;> simp

theorem ids_ite_cons {c : Bool} {x : Order} {l : List Order} :
    (if c then l else x :: l).map Order.order_id =
      if c then l.map Order.order_id else x.order_id :: l.map Order.order_id := by
  cases c <;> simp

theorem mem_ids_ite_cons {c : Bool} {x : Order} {l : List Order} {i : Nat} :
    i ∈ (if c then l else x :: l).map Order.order_id ↔
      (c = false ∧ i = x.order_id) ∨ i ∈ l.map Order.order_id := by
  rw [ids_ite_cons]
  cases c <;> simp

theorem sublist_ite_cons {α : Type} {c : Bool} {x : α} {l : List α} :
    List.Sublist (if c then l else x :: l) (x :: l) := by
  cases c
  · simp
  · simp

theorem ids_ite_delete {c : Bool} {l : Orders} {i : Nat} :
    (if c then Orders.delete l i else l).map Order.order_id =
      if c then (l.map Order.order_id).erase i else l.map Order.order_id := by
  cases c <;> simp [Orders.ids_delete]

theorem mem_ite_erase {c : Bool} {J : List Nat} {i x : Nat} (hnd : J.Nodup) :
    x ∈ (if c then J.erase i else J) ↔
      (c = true → x ≠ i) ∧ x ∈ J := by
  cases c
  · simp
  · rw [if_pos rfl]
    rw [hnd.mem_erase_iff]
    constructor
    · rintro ⟨h1, h2⟩
      exact ⟨fun _ => h1, h2⟩
    · rintro ⟨h1, h2⟩
      exact ⟨h1 rfl, h2⟩

theorem nodup_ite_erase {c : Bool} {J : List Nat} {i : Nat} (hnd : J.Nodup) :
    (if c then J.erase i else J).Nodup := by
  cases c
  · simpa using hnd
  · simpa using hnd.erase i

theorem Inv_match_step {bk : Orderbook} (hInv : Inv bk) :
    Inv bk.match_step := by
  rcases hb : bk.bids with _ | ⟨⟨bp, bq⟩, brest⟩
  · rw [match_step_eq_self (Or.inl hb)]
    exact hInv
  rcases ha : bk.asks with _ | ⟨⟨ap, aq⟩, arest⟩
  · rw [match_step_eq_self (Or.inr (Or.inl ha))]
    exact hInv
  rcases hbq : bq with _ | ⟨bo, bt⟩
  · rw [match_step_eq_self (Or.inr (Or.inr (Or.inl ⟨bp, brest, by rw [hb, hbq]⟩)))]
    exact hInv
  rcases haq : aq with _ | ⟨ao, atl⟩
  · rw [match_step_eq_self
      (Or.inr (Or.inr (Or.inr ⟨ap, arest, by rw [ha, haq]⟩)))]
    exact hInv
  have hb' : bk.bids = (bp, bo :: bt) :: brest := by rw [hb, hbq]
  have ha' : bk.asks = (ap, ao :: atl) :: arest := by rw [ha, haq]
  rw [match_step_eq hb' ha']
  have hfb := Order.fill_snd_fields bo
    (min bo.remaining_quantity ao.remaining_quantity)
  have hfa := Order.fill_snd_fields ao
    (min bo.remaining_quantity ao.remaining_quantity)
  set bo2 := (Order.fill bo (min bo.remaining_quantity ao.remaining_quantity)).2
    with hbo2
  set ao2 := (Order.fill ao (min bo.remaining_quantity ao.remaining_quantity)).2
    with hao2
  -- transported invariant facts
  have hsortedB : List.Pairwise (fun a b => bidLt a b = true)
      (((bp, bo :: bt) :: brest).map Prod.fst) := by
    have h0 := hInv.sortedBids
    unfold bidKeys at h0
    rw [hb'] at h0
    exact h0
  have hsortedA : List.Pairwise (fun a b => askLt a b = true)
      (((ap, ao :: atl) :: arest).map Prod.fst) := by
    have h0 := hInv.sortedAsks
    unfold askKeys at h0
    rw [ha'] at h0
    exact h0
  have hneB : ∀ e ∈ (bp, bo :: bt) :: brest, e.2 ≠ [] := by
    have h0 := hInv.neBids
    rw [hb'] at h0
    exact h0
  have hneA : ∀ e ∈ (ap, ao :: atl) :: arest, e.2 ≠ [] := by
    have h0 := hInv.neAsks
    rw [ha'] at h0
    exact h0
  have hPB : ∀ e ∈ (bp, bo :: bt) :: brest, ∀ x ∈ e.2,
      x.price = e.1 ∧ x.side = Side.Buy := by
    have h0 := hInv.placedB
    unfold placedBids at h0
    rw [hb'] at h0
    exact h0
  have hPA : ∀ e ∈ (ap, ao :: atl) :: arest, ∀ x ∈ e.2,
      x.price = e.1 ∧ x.side = Side.Sell := by
    have h0 := hInv.placedA
    unfold placedAsks at h0
    rw [ha'] at h0
    exact h0
  have hboPlaced := hPB (bp, bo :: bt) (List.mem_cons_self _ _) bo
    (List.mem_cons_self _ _)
  have haoPlaced := hPA (ap, ao :: atl) (List.mem_cons_self _ _) ao
    (List.mem_cons_self _ _)
  have hBfacts := stepSide_facts (c := bo2.is_filled) (p := bp) (u := bo)
    (v := bo2) (t := bt) (s := brest)
    (P := fun x k => x.price = k ∧ x.side = Side.Buy) (l := bidLt) rfl
    hsortedB hneB hPB
    ⟨hfb.2.2.2.1.trans hboPlaced.1, hfb.2.2.1.trans hboPlaced.2⟩
  have hAfacts := stepSide_facts (c := ao2.is_filled) (p := ap) (u := ao)
    (v := ao2) (t := atl) (s := arest)
    (P := fun x k => x.price = k ∧ x.side = Side.Sell) (l := askLt) rfl
    hsortedA hneA hPA
    ⟨hfa.2.2.2.1.trans haoPlaced.1, hfa.2.2.1.trans haoPlaced.2⟩
  obtain ⟨hsB2, hneB2, hPB2, hordB2, hksubB2⟩ := hBfacts
  obtain ⟨hsA2, hneA2, hPA2, hordA2, hksubA2⟩ := hAfacts
  -- id bookkeeping
  have hSbBefore : sideOrders bk.bids = bo :: (bt ++ sideOrders brest) := by
    rw [hb']
    rfl
  have hSaBefore : sideOrders bk.asks = ao :: (atl ++ sideOrders arest) := by
    rw [ha']
    rfl
  have hndLvl := hInv.nodupLevel
  have hndL' : ((bo :: (bt ++ sideOrders brest)).map Order.order_id ++
      (ao :: (atl ++ sideOrders arest)).map Order.order_id).Nodup := by
    have h0 := hndLvl
    unfold levelIds allLevelOrders at h0
    rw [hSbBefore, hSaBefore, List.map_append] at h0
    exact h0
  rw [List.nodup_append] at hndL'
  obtain ⟨hndB', hndA', hdisj'⟩ := hndL'
  simp only [List.map_cons, List.nodup_cons] at hndB' hndA'
  -- membership facts before
  have hboMem : bo ∈ allLevelOrders bk := by
    unfold allLevelOrders
    rw [hSbBefore]
    exact List.mem_append.2 (Or.inl (List.mem_cons_self _ _))
  have haoMem : ao ∈ allLevelOrders bk := by
    unfold allLevelOrders
    rw [hSaBefore]
    exact List.mem_append.2 (Or.inr (List.mem_cons_self _ _))
  have hSBsub : ∀ x ∈ bt ++ sideOrders brest, x ∈ allLevelOrders bk := by
    intro x hx
    unfold allLevelOrders
    rw [hSbBefore]
    exact List.mem_append.2 (Or.inl (List.mem_cons_of_mem _ hx))
  have hSAsub : ∀ x ∈ atl ++ sideOrders arest, x ∈ allLevelOrders bk := by
    intro x hx
    unfold allLevelOrders
    rw [hSaBefore]
    exact List.mem_append.2 (Or.inr (List.mem_cons_of_mem _ hx))
  have hboIdx : bo.order_id ∈ indexIds bk :=
    hInv.levelSubIndex _ (List.mem_map_of_mem _ hboMem)
  have haoIdx : ao.order_id ∈ indexIds bk :=
    hInv.levelSubIndex _ (List.mem_map_of_mem _ haoMem)
  simp only [List.map_cons] at hdisj'
  have hbo_notin_A : bo.order_id ∉
      ao.order_id :: (atl ++ sideOrders arest).map Order.order_id :=
    hdisj' (List.mem_cons_self _ _)
  have hao_notin_B : ao.order_id ∉
      bo.order_id :: (bt ++ sideOrders brest).map Order.order_id :=
    hdisj'.symm (List.mem_cons_self _ _)
  have hbo_ne_ao : bo.order_id ≠ ao.order_id :=
    fun h => hbo_notin_A (h ▸ List.mem_cons_self _ _)
  have hidsSB_lvl : ∀ x ∈ (bt ++ sideOrders brest).map Order.order_id,
      x ∈ levelIds bk := by
    intro x hx
    rcases List.mem_map.1 hx with ⟨y, hy, rfl⟩
    exact List.mem_map_of_mem _ (hSBsub y hy)
  have hidsSA_lvl : ∀ x ∈ (atl ++ sideOrders arest).map Order.order_id,
      x ∈ levelIds bk := by
    intro x hx
    rcases List.mem_map.1 hx with ⟨y, hy, rfl⟩
    exact List.mem_map_of_mem _ (hSAsub y hy)
  refine ⟨hsB2, hsA2, hneB2, hneA2, hPB2, hPA2, ?_, ?_, ?_, ?_, ?_⟩
  · -- nodupLevel
    show ((sideOrders _ ++ sideOrders _).map Order.order_id).Nodup
    rw [List.map_append, hordB2, hordA2, ids_ite_cons, ids_ite_cons,
      hfb.1, hfa.1]
    have hbig : ((bo.order_id :: (bt ++ sideOrders brest).map Order.order_id) ++
        (ao.order_id :: (atl ++ sideOrders arest).map Order.order_id)).Nodup := by
      rw [List.nodup_append]
      exact ⟨List.nodup_cons.2 hndB', List.nodup_cons.2 hndA', hdisj'⟩
    exact hbig.sublist (List.Sublist.append sublist_ite_cons sublist_ite_cons)
  · -- nodupIndex
    show ((if ao2.is_filled then
      Orders.delete (if bo2.is_filled then Orders.delete bk.orders bo.order_id
        else bk.orders) ao.order_id
      else (if bo2.is_filled then Orders.delete bk.orders bo.order_id
        else bk.orders)).map Order.order_id).Nodup
    rw [ids_ite_delete, ids_ite_delete]
    exact nodup_ite_erase (nodup_ite_erase hInv.nodupIndex)
  · -- levelSubIndex
    intro x hx
    have hx' : x ∈ (if bo2.is_filled then bt ++ sideOrders brest
        else bo2 :: (bt ++ sideOrders brest)).map Order.order_id ++
        (if ao2.is_filled then atl ++ sideOrders arest
        else ao2 :: (atl ++ sideOrders arest)).map Order.order_id := by
      have h0 := hx
      unfold levelIds allLevelOrders at h0
      rw [List.map_append, hordB2, hordA2] at h0
      exact h0
    have hxcases : ((bo2.is_filled = false ∧ x = bo.order_id) ∨
        x ∈ (bt ++ sideOrders brest).map Order.order_id) ∨
        ((ao2.is_filled = false ∧ x = ao.order_id) ∨
        x ∈ (atl ++ sideOrders arest).map Order.order_id) := by
      rcases List.mem_append.1 hx' with h1 | h1
      · left
        have h2 := mem_ids_ite_cons.1 h1
        rwa [hfb.1] at h2
      · right
        have h2 := mem_ids_ite_cons.1 h1
        rwa [hfa.1] at h2
    show x ∈ (if ao2.is_filled then
      Orders.delete (if bo2.is_filled then Orders.delete bk.orders bo.order_id
        else bk.orders) ao.order_id
      else (if bo2.is_filled then Orders.delete bk.orders bo.order_id
        else bk.orders)).map Order.order_id
    rw [ids_ite_delete, ids_ite_delete]
    have hndIdx : (bk.orders.map Order.order_id).Nodup := hInv.nodupIndex
    rw [mem_ite_erase (nodup_ite_erase hndIdx), mem_ite_erase hndIdx]
    rcases hxcases with (hc | hc) | (hc | hc)
    · obtain ⟨hpop, hxeq⟩ := hc
      refine ⟨?_, ?_, hxeq ▸ hboIdx⟩
      · intro _ hcc
        exact hbo_ne_ao (by rw [← hxeq, hcc])
      · intro hcc
        rw [hpop] at hcc
        exact Bool.noConfusion hcc
    · refine ⟨?_, ?_, ?_⟩
      · intro _ hcc
        exact hao_notin_B (List.mem_cons_of_mem _ (hcc ▸ hc))
      · intro _ hcc
        exact hndB'.1 (hcc ▸ hc)
      · exact hInv.levelSubIndex _ (hidsSB_lvl x hc)
    · obtain ⟨hpop, hxeq⟩ := hc
      refine ⟨?_, ?_, hxeq ▸ haoIdx⟩
      · intro hcc
        rw [hpop] at hcc
        exact Bool.noConfusion hcc
      · intro _ hcc
        exact hbo_ne_ao (by rw [← hcc, hxeq])
    · refine ⟨?_, ?_, ?_⟩
      · intro _ hcc
        exact hndA'.1 (hcc ▸ hc)
      · intro _ hcc
        exact hbo_notin_A (List.mem_cons_of_mem _ (hcc ▸ hc))
      · exact hInv.levelSubIndex _ (hidsSA_lvl x hc)
  · -- indexSubLevel
    intro x hx
    have hx' : x ∈ (if ao2.is_filled then
        Orders.delete (if bo2.is_filled then Orders.delete bk.orders bo.order_id
          else bk.orders) ao.order_id
        else (if bo2.is_filled then Orders.delete bk.orders bo.order_id
          else bk.orders)).map Order.order_id := hx
    have hndIdx : (bk.orders.map Order.order_id).Nodup := hInv.nodupIndex
    rw [ids_ite_delete, ids_ite_delete,
      mem_ite_erase (nodup_ite_erase hndIdx), mem_ite_erase hndIdx] at hx'
    obtain ⟨haNe, hbNe, hidx⟩ := hx'
    have hxlvl := hInv.indexSubLevel _ hidx
    have hxlvl' : x ∈ (bo.order_id :: (bt ++ sideOrders brest).map Order.order_id) ++
        (ao.order_id :: (atl ++ sideOrders arest).map Order.order_id) := by
      have h0 := hxlvl
      unfold levelIds allLevelOrders at h0
      rw [hSbBefore, hSaBefore, List.map_append] at h0
      simpa using h0
    unfold levelIds allLevelOrders
    rw [List.map_append, hordB2, hordA2]
    rcases List.mem_append.1 hxlvl' with h1 | h1
    · apply List.mem_append.2
      apply Or.inl
      apply mem_ids_ite_cons.2
      rw [hfb.1]
      rcases List.mem_cons.1 h1 with rfl | h2
      · left
        refine ⟨?_, rfl⟩
        cases hpop : bo2.is_filled
        · rfl
        · exact absurd rfl (hbNe hpop)
      · exact Or.inr h2
    · apply List.mem_append.2
      apply Or.inr
      apply mem_ids_ite_cons.2
      rw [hfa.1]
      rcases List.mem_cons.1 h1 with rfl | h2
      · left
        refine ⟨?_, rfl⟩
        cases hpop : ao2.is_filled
        · rfl
        · exact absurd rfl (haNe hpop)
      · exact Or.inr h2
  · -- agree
    intro y hy z hz hzy
    have hzMem : z ∈ bk.orders := by
      have hz' : z ∈ (if ao2.is_filled then
          Orders.delete (if bo2.is_filled then Orders.delete bk.orders bo.order_id
            else bk.orders) ao.order_id
          else (if bo2.is_filled then Orders.delete bk.orders bo.order_id
            else bk.orders)) := hz
      split at hz'
      · have hz2 := Orders.mem_of_mem_delete hz'
        split at hz2
        · exact Orders.mem_of_mem_delete hz2
        · exact hz2
      · split at hz'
        · exact Orders.mem_of_mem_delete hz'
        · exact hz'
    have hy' : y ∈ (if bo2.is_filled then bt ++ sideOrders brest
        else bo2 :: (bt ++ sideOrders brest)) ++
        (if ao2.is_filled then atl ++ sideOrders arest
        else ao2 :: (atl ++ sideOrders arest)) := by
      have h0 : y ∈ sideOrders _ ++ sideOrders _ := hy
      rw [hordB2, hordA2] at h0
      exact h0
    rcases List.mem_append.1 hy' with h1 | h1
    · rcases mem_ite_cons.1 h1 with ⟨_, rfl⟩ | h2
      · exact agreeOn_of_fields hfb.2.1 hfb.2.2.1 hfb.2.2.2.1 hfb.2.2.2.2.1
          (hInv.agree bo hboMem z hzMem (by rw [hzy, hfb.1]))
      · exact hInv.agree y (hSBsub y h2) z hzMem hzy
    · rcases mem_ite_cons.1 h1 with ⟨_, rfl⟩ | h2
      · exact agreeOn_of_fields hfa.2.1 hfa.2.2.1 hfa.2.2.2.1 hfa.2.2.2.2.1
          (hInv.agree ao haoMem z hzMem (by rw [hzy, hfa.1]))
      · exact hInv.agree y (hSAsub y h2) z hzMem hzy


theorem Orders.set_quantity_ne_nil {l : Orders} {id q : Nat} (h : l ≠ []) :
    Orders.set_quantity l id q ≠ [] := by
  cases l with
  | nil => exact absurd rfl h
  | cons o rest =>
    simp only [Orders.set_quantity]
    split <;> simp

/-- Updating quantities in place never changes the id sequence of a side. -/
theorem ids_sideOrders_setq {m : SideMap} {p id q : Nat} :
    (sideOrders (updateLevel m p (fun ql => Orders.set_quantity ql id q))).map
      Order.order_id = (sideOrders m).map Order.order_id := by
  induction m with
  | nil => rfl
  | cons e rest ih =>
    show ((sideOrders ((if e.1 == p then (e.1, Orders.set_quantity e.2 id q)
        else e) :: updateLevel rest p (fun ql => Orders.set_quantity ql id q)))).map
        Order.order_id = _
    by_cases hb : (e.1 == p) = true
    · rw [if_pos hb]
      show ((Orders.set_quantity e.2 id q ++
        sideOrders (updateLevel rest p (fun ql => Orders.set_quantity ql id q))).map
        Order.order_id) = ((e.2 ++ sideOrders rest).map Order.order_id)
      rw [List.map_append, List.map_append, Orders.ids_set_quantity, ih]
    · rw [if_neg hb]
      show ((e.2 ++
        sideOrders (updateLevel rest p (fun ql => Orders.set_quantity ql id q))).map
        Order.order_id) = ((e.2 ++ sideOrders rest).map Order.order_id)
      rw [List.map_append, List.map_append, ih]

theorem Inv_modify {bk : Orderbook} {id q : Nat} (hInv : Inv bk) :
    Inv (bk.modify_order id q).2 := by
  cases hg : Orders.get bk.orders id with
  | none =>
    have hbook : (bk.modify_order id q).2 = bk := by
      unfold Orderbook.modify_order
      rw [hg]
    rw [hbook]
    exact hInv
  | some o =>
    cases hs : o.side
    · -- buy side
      have hbook : (bk.modify_order id q).2 =
          { bk with orders := Orders.set_quantity bk.orders id q,
                    bids := updateLevel bk.bids o.price
                      (fun ql => Orders.set_quantity ql id q) } := by
        simp only [Orderbook.modify_order, hg, hs]
      rw [hbook]
      refine ⟨?_, hInv.sortedAsks, ?_, hInv.neAsks, ?_, hInv.placedA,
        ?_, ?_, ?_, ?_, ?_⟩
      · show List.Pairwise _ ((updateLevel bk.bids o.price
          (fun ql => Orders.set_quantity ql id q)).map Prod.fst)
        rw [keys_updateLevel]
        exact hInv.sortedBids
      · intro e' he'
        have he2 : e' ∈ updateLevel bk.bids o.price
            (fun ql => Orders.set_quantity ql id q) := he'
        rcases mem_updateLevel he2 with ⟨e, he, heq⟩
        by_cases hp : e.1 = o.price
        · rw [if_pos hp] at heq
          rw [heq]
          exact Orders.set_quantity_ne_nil (hInv.neBids e he)
        · rw [if_neg hp] at heq
          rw [heq]
          exact hInv.neBids e he
      · intro e' he' x hx
        have he2 : e' ∈ updateLevel bk.bids o.price
            (fun ql => Orders.set_quantity ql id q) := he'
        rcases mem_updateLevel he2 with ⟨e, he, heq⟩
        by_cases hp : e.1 = o.price
        · rw [if_pos hp] at heq
          rw [heq] at hx ⊢
          rcases Orders.mem_set_quantity hx with h1 | ⟨o2, ho2, _, ho'⟩
          · exact hInv.placedB e he x h1
          · rw [ho']
            exact hInv.placedB e he o2 ho2
        · rw [if_neg hp] at heq
          rw [heq] at hx ⊢
          exact hInv.placedB e he x hx
      · show ((sideOrders (updateLevel bk.bids o.price
          (fun ql => Orders.set_quantity ql id q)) ++
          sideOrders bk.asks).map Order.order_id).Nodup
        rw [List.map_append, ids_sideOrders_setq, ← List.map_append]
        exact hInv.nodupLevel
      · show ((Orders.set_quantity bk.orders id q).map Order.order_id).Nodup
        rw [Orders.ids_set_quantity]
        exact hInv.nodupIndex
      · intro x hx
        have hx' : x ∈ levelIds bk := by
          have h0 : x ∈ ((sideOrders (updateLevel bk.bids o.price
              (fun ql => Orders.set_quantity ql id q)) ++
              sideOrders bk.asks).map Order.order_id) := hx
          rw [List.map_append, ids_sideOrders_setq, ← List.map_append] at h0
          exact h0
        show x ∈ (Orders.set_quantity bk.orders id q).map Order.order_id
        rw [Orders.ids_set_quantity]
        exact hInv.levelSubIndex _ hx'
      · intro x hx
        have hx' : x ∈ indexIds bk := by
          have h0 : x ∈ (Orders.set_quantity bk.orders id q).map Order.order_id := hx
          rw [Orders.ids_set_quantity] at h0
          exact h0
        show x ∈ ((sideOrders (updateLevel bk.bids o.price
            (fun ql => Orders.set_quantity ql id q)) ++
            sideOrders bk.asks).map Order.order_id)
        rw [List.map_append, ids_sideOrders_setq, ← List.map_append]
        exact hInv.indexSubLevel _ hx'
      · intro y hy z hz hzy
        have hy' : y ∈ allLevelOrders bk ∨
            ∃ o2 ∈ allLevelOrders bk, o2.order_id = id ∧
              y = { o2 with remaining_quantity := q } := by
          rcases List.mem_append.1 hy with h1 | h1
          · rcases mem_sideOrders_set_quantity h1 with ⟨e, he, hoe⟩ |
              ⟨o2, ⟨e, he, ho2⟩, hid2, ho'⟩
            · exact Or.inl (List.mem_append.2
                (Or.inl (mem_sideOrders.2 ⟨e, he, hoe⟩)))
            · exact Or.inr ⟨o2,
                List.mem_append.2 (Or.inl (mem_sideOrders.2 ⟨e, he, ho2⟩)),
                hid2, ho'⟩
          · exact Or.inl (List.mem_append.2 (Or.inr h1))
        have hz' : z ∈ bk.orders ∨
            ∃ z2 ∈ bk.orders, z2.order_id = id ∧
              z = { z2 with remaining_quantity := q } :=
          Orders.mem_set_quantity hz
        rcases hy' with hy1 | ⟨o2, ho2, hoid2, rfl⟩ <;>
          rcases hz' with hz1 | ⟨z2, hz2, hzid2, rfl⟩
        · exact hInv.agree y hy1 z hz1 hzy
        · exact hInv.agree y hy1 z2 hz2 hzy
        · exact agreeOn_of_fields rfl rfl rfl rfl
            (hInv.agree o2 ho2 z hz1 hzy)
        · exact agreeOn_of_fields rfl rfl rfl rfl
            (hInv.agree o2 ho2 z2 hz2 hzy)
    · -- sell side
      have hbook : (bk.modify_order id q).2 =
          { bk with orders := Orders.set_quantity bk.orders id q,
                    asks := updateLevel bk.asks o.price
                      (fun ql => Orders.set_quantity ql id q) } := by
        simp only [Orderbook.modify_order, hg, hs]
      rw [hbook]
      refine ⟨hInv.sortedBids, ?_, hInv.neBids, ?_, hInv.placedB, ?_,
        ?_, ?_, ?_, ?_, ?_⟩
      · show List.Pairwise _ ((updateLevel bk.asks o.price
          (fun ql => Orders.set_quantity ql id q)).map Prod.fst)
        rw [keys_updateLevel]
        exact hInv.sortedAsks
      · intro e' he'
        have he2 : e' ∈ updateLevel bk.asks o.price
            (fun ql => Orders.set_quantity ql id q) := he'
        rcases mem_updateLevel he2 with ⟨e, he, heq⟩
        by_cases hp : e.1 = o.price
        · rw [if_pos hp] at heq
          rw [heq]
          exact Orders.set_quantity_ne_nil (hInv.neAsks e he)
        · rw [if_neg hp] at heq
          rw [heq]
          exact hInv.neAsks e he
      · intro e' he' x hx
        have he2 : e' ∈ updateLevel bk.asks o.price
            (fun ql => Orders.set_quantity ql id q) := he'
        rcases mem_updateLevel he2 with ⟨e, he, heq⟩
        by_cases hp : e.1 = o.price
        · rw [if_pos hp] at heq
          rw [heq] at hx ⊢
          rcases Orders.mem_set_quantity hx with h1 | ⟨o2, ho2, _, ho'⟩
          · exact hInv.placedA e he x h1
          · rw [ho']
            exact hInv.placedA e he o2 ho2
        · rw [if_neg hp] at heq
          rw [heq] at hx ⊢
          exact hInv.placedA e he x hx
      · show ((sideOrders bk.bids ++ sideOrders (updateLevel bk.asks o.price
          (fun ql => Orders.set_quantity ql id q))).map Order.order_id).Nodup
        rw [List.map_append, ids_sideOrders_setq, ← List.map_append]
        exact hInv.nodupLevel
      · show ((Orders.set_quantity bk.orders id q).map Order.order_id).Nodup
        rw [Orders.ids_set_quantity]
        exact hInv.nodupIndex
      · intro x hx
        have hx' : x ∈ levelIds bk := by
          have h0 : x ∈ ((sideOrders bk.bids ++
              sideOrders (updateLevel bk.asks o.price
              (fun ql => Orders.set_quantity ql id q))).map Order.order_id) := hx
          rw [List.map_append, ids_sideOrders_setq, ← List.map_append] at h0
          exact h0
        show x ∈ (Orders.set_quantity bk.orders id q).map Order.order_id
        rw [Orders.ids_set_quantity]
        exact hInv.levelSubIndex _ hx'
      · intro x hx
        have hx' : x ∈ indexIds bk := by
          have h0 : x ∈ (Orders.set_quantity bk.orders id q).map Order.order_id := hx
          rw [Orders.ids_set_quantity] at h0
          exact h0
        show x ∈ ((sideOrders bk.bids ++
            sideOrders (updateLevel bk.asks o.price
            (fun ql => Orders.set_quantity ql id q))).map Order.order_id)
        rw [List.map_append, ids_sideOrders_setq, ← List.map_append]
        exact hInv.indexSubLevel _ hx'
      · intro y hy z hz hzy
        have hy' : y ∈ allLevelOrders bk ∨
            ∃ o2 ∈ allLevelOrders bk, o2.order_id = id ∧
              y = { o2 with remaining_quantity := q } := by
          rcases List.mem_append.1 hy with h1 | h1
          · exact Or.inl (List.mem_append.2 (Or.inl h1))
          · rcases mem_sideOrders_set_quantity h1 with ⟨e, he, hoe⟩ |
              ⟨o2, ⟨e, he, ho2⟩, hid2, ho'⟩
            · exact Or.inl (List.mem_append.2
                (Or.inr (mem_sideOrders.2 ⟨e, he, hoe⟩)))
            · exact Or.inr ⟨o2,
                List.mem_append.2 (Or.inr (mem_sideOrders.2 ⟨e, he, ho2⟩)),
                hid2, ho'⟩
        have hz' : z ∈ bk.orders ∨
            ∃ z2 ∈ bk.orders, z2.order_id = id ∧
              z = { z2 with remaining_quantity := q } :=
          Orders.mem_set_quantity hz
        rcases hy' with hy1 | ⟨o2, ho2, hoid2, rfl⟩ <;>
          rcases hz' with hz1 | ⟨z2, hz2, hzid2, rfl⟩
        · exact hInv.agree y hy1 z hz1 hzy
        · exact hInv.agree y hy1 z2 hz2 hzy
        · exact agreeOn_of_fields rfl rfl rfl rfl
            (hInv.agree o2 ho2 z hz1 hzy)
        · exact agreeOn_of_fields rfl rfl rfl rfl
            (hInv.agree o2 ho2 z2 hz2 hzy)

theorem Inv_new : Inv Orderbook.new := by
  refine ⟨?_, ?_, ?_, ?_, ?_, ?_, ?_, ?_, ?_, ?_, ?_⟩ <;>
    simp [Orderbook.new, bidKeys, askKeys, levelIds, indexIds, allLevelOrders,
      sideOrders, placedBids, placedAsks]

theorem Inv_clear {bk : Orderbook} (hInv : Inv bk) : Inv bk.clear_trades :=
  ⟨hInv.sortedBids, hInv.sortedAsks, hInv.neBids, hInv.neAsks, hInv.placedB,
   hInv.placedA, hInv.nodupLevel, hInv.nodupIndex, hInv.levelSubIndex,
   hInv.indexSubLevel, hInv.agree⟩

theorem Inv_foldl_cancel {L : List Nat} {bk : Orderbook} (hInv : Inv bk) :
    Inv (L.foldl (fun b id => (Orderbook.cancel_order b id).2) bk) := by
  induction L generalizing bk with
  | nil => exact hInv
  | cons a rest ih => exact ih (Inv_cancel hInv)

theorem Inv_match_loop {fuel : Nat} {bk : Orderbook} (hInv : Inv bk) :
    Inv (Orderbook.match_loop fuel bk) := by
  induction fuel generalizing bk with
  | zero => exact hInv
  | succ n ih =>
    show Inv (if bk.match_cond then Orderbook.match_loop n bk.match_step else bk)
    split
    · exact ih (Inv_match_step hInv)
    · exact hInv

theorem Inv_sweep {bk : Orderbook} (hInv : Inv bk) : Inv bk.sweep :=
  Inv_foldl_cancel hInv

theorem Inv_match_orders {bk : Orderbook} (hInv : Inv bk) :
    Inv bk.match_orders := Inv_sweep (Inv_match_loop hInv)

theorem Inv_prune {bk : Orderbook} (hInv : Inv bk) :
    Inv bk.prune_good_for_day_orders := Inv_foldl_cancel hInv

theorem levelOrdersCount_mk (B A : SideMap) (os : Orders) (ts : List Trade) :
    levelOrdersCount { bids := B, asks := A, orders := os, trades := ts } =
      ((B.map (fun e => e.2.length)).sum) +
        ((A.map (fun e => e.2.length)).sum) := rfl

/-- Order count contributed by one side after a matching-loop iteration. -/
theorem count_stepSide {c : Bool} {p : Nat} {v : Order} {t : List Order}
    {s : SideMap} :
    ((if c then (if t.isEmpty then s else (p, t) :: s)
      else (p, v :: t) :: s).map (fun e => e.2.length)).sum =
      (if c then 0 else 1) + t.length + ((s.map (fun e => e.2.length)).sum) := by
  cases c
  · rw [if_neg Bool.false_ne_true, if_neg Bool.false_ne_true]
    simp only [List.map_cons, List.sum_cons, List.length_cons]
    omega
  · rw [if_pos rfl, if_pos rfl]
    cases ht : t.isEmpty
    · rw [if_neg Bool.false_ne_true]
      simp only [List.map_cons, List.sum_cons]
      omega
    · rw [if_pos rfl]
      have ht0 : t = [] := List.isEmpty_iff.1 ht
      subst ht0
      simp

/-- Filling both heads by the minimum of their remainders fully fills at
least one of them. -/
theorem min_fill_one_filled (bo ao : Order) :
    (Order.fill bo (min bo.remaining_quantity ao.remaining_quantity)).2.is_filled
      = true ∨
    (Order.fill ao (min bo.remaining_quantity ao.remaining_quantity)).2.is_filled
      = true := by
  rcases Nat.le_total bo.remaining_quantity ao.remaining_quantity with h | h
  · left
    rw [Order.fill_of_le (Nat.min_le_left _ _)]
    simp [Order.is_filled, Nat.min_eq_left h]
  · right
    rw [Order.fill_of_le (Nat.min_le_right _ _)]
    simp [Order.is_filled, Nat.min_eq_right h]

/-- Each iteration of the matching loop strictly decreases the number of
resting orders of a well-formed book whose guard holds. -/
theorem levelOrdersCount_match_step_lt {bk : Orderbook} (hInv : Inv bk)
    (hc : bk.match_cond = true) :
    levelOrdersCount bk.match_step < levelOrdersCount bk := by
  rcases hb : bk.bids with _ | ⟨⟨bp, bq⟩, brest⟩
  · exfalso
    unfold Orderbook.match_cond at hc
    rw [hb] at hc
    simp at hc
  rcases ha : bk.asks with _ | ⟨⟨ap, aq⟩, arest⟩
  · exfalso
    unfold Orderbook.match_cond at hc
    rw [hb, ha] at hc
    simp at hc
  rcases hbq : bq with _ | ⟨bo, bt⟩
  · exact absurd hbq (hInv.neBids (bp, bq)
      (by rw [hb]; exact List.mem_cons_self _ _))
  rcases haq : aq with _ | ⟨ao, atl⟩
  · exact absurd haq (hInv.neAsks (ap, aq)
      (by rw [ha]; exact List.mem_cons_self _ _))
  have hb' : bk.bids = (bp, bo :: bt) :: brest := by rw [hb, hbq]
  have ha' : bk.asks = (ap, ao :: atl) :: arest := by rw [ha, haq]
  rw [match_step_eq hb' ha', levelOrdersCount_mk, count_stepSide, count_stepSide]
  unfold levelOrdersCount
  rw [hb', ha']
  simp only [List.map_cons, List.sum_cons, List.length_cons]
  have hone := min_fill_one_filled bo ao
  cases hbf : (Order.fill bo (min bo.remaining_quantity
      ao.remaining_quantity)).2.is_filled <;>
    cases haf : (Order.fill ao (min bo.remaining_quantity
      ao.remaining_quantity)).2.is_filled
  · exfalso
    rcases hone with h | h
    · rw [h] at hbf
      exact Bool.noConfusion hbf
    · rw [h] at haf
      exact Bool.noConfusion haf
  · rw [if_neg Bool.false_ne_true, if_pos rfl]
    omega
  · rw [if_pos rfl, if_neg Bool.false_ne_true]
    omega
  · rw [if_pos rfl]
    omega

/-- With enough fuel (more than the number of resting orders) the matching
loop of a well-formed book runs until its guard fails. -/
theorem match_loop_exit {fuel : Nat} {bk : Orderbook} (hInv : Inv bk)
    (hfuel : levelOrdersCount bk < fuel) :
    (Orderbook.match_loop fuel bk).match_cond = false := by
  induction fuel generalizing bk with
  | zero => exact absurd hfuel (Nat.not_lt_zero _)
  | succ n ih =>
    show (if bk.match_cond then Orderbook.match_loop n bk.match_step
      else bk).match_cond = false
    cases hc : bk.match_cond
    · rw [if_neg Bool.false_ne_true]
      exact hc
    · rw [if_pos rfl]
      exact ih (Inv_match_step hInv)
        (Nat.lt_of_lt_of_le (levelOrdersCount_match_step_lt hInv hc)
          (Nat.lt_succ_iff.1 hfuel))

/-- A failed matching guard means the book is not crossed. -/
theorem uncrossed_of_cond_false {bk : Orderbook} (h : bk.match_cond = false) :
    uncrossed bk = true := by
  unfold Orderbook.match_cond at h
  unfold uncrossed
  cases hbh : bk.bids.head? with
  | none =>
    cases hah : bk.asks.head? <;> rfl
  | some b =>
    cases hah : bk.asks.head? with
    | none => rfl
    | some a =>
      rw [hbh, hah] at h
      show decide (b.1 < a.1) = true
      simp only [decide_eq_false_iff_not, Nat.not_le] at h
      simp only [decide_eq_true_eq]
      omega

/-- Shrinking both sides of a sorted uncrossed book keeps it uncrossed: the
new best bid cannot exceed the old one and the new best ask cannot undercut
the old one. -/
theorem uncrossed_mono {b b' : Orderbook}
    (hsB : List.Pairwise (fun x y => bidLt x y = true) (bidKeys b))
    (hsA : List.Pairwise (fun x y => askLt x y = true) (askKeys b))
    (hkb : List.Sublist (bidKeys b') (bidKeys b))
    (hka : List.Sublist (askKeys b') (askKeys b))
    (hu : uncrossed b = true) : uncrossed b' = true := by
  rcases hb1 : b'.bids with _ | ⟨e1, r1⟩
  · unfold uncrossed
    rw [hb1]
    rfl
  rcases ha1 : b'.asks with _ | ⟨e2, r2⟩
  · unfold uncrossed
    rw [hb1, ha1]
    rfl
  have he1 : e1.1 ∈ bidKeys b := by
    apply hkb.subset
    unfold bidKeys
    rw [hb1]
    exact List.mem_cons_self _ _
  have he2 : e2.1 ∈ askKeys b := by
    apply hka.subset
    unfold askKeys
    rw [ha1]
    exact List.mem_cons_self _ _
  rcases hb2 : b.bids with _ | ⟨f1, s1⟩
  · exfalso
    unfold bidKeys at he1
    rw [hb2] at he1
    simp at he1
  rcases ha2 : b.asks with _ | ⟨f2, s2⟩
  · exfalso
    unfold askKeys at he2
    rw [ha2] at he2
    simp at he2
  have hu' : f1.1 < f2.1 := by
    unfold uncrossed at hu
    rw [hb2, ha2] at hu
    simpa using hu
  have hle1 : e1.1 ≤ f1.1 := by
    unfold bidKeys at he1 hsB
    rw [hb2] at he1 hsB
    rcases List.mem_cons.1 (by simpa using he1 :
        e1.1 ∈ f1.1 :: s1.map Prod.fst) with h | h
    · exact Nat.le_of_eq h
    · have h2 := (List.pairwise_cons.1 hsB).1 _ h
      unfold bidLt at h2
      have h3 := of_decide_eq_true h2
      omega
  have hge2 : f2.1 ≤ e2.1 := by
    unfold askKeys at he2 hsA
    rw [ha2] at he2 hsA
    rcases List.mem_cons.1 (by simpa using he2 :
        e2.1 ∈ f2.1 :: s2.map Prod.fst) with h | h
    · exact Nat.le_of_eq h.symm
    · have h2 := (List.pairwise_cons.1 hsA).1 _ h
      unfold askLt at h2
      have h3 := of_decide_eq_true h2
      omega
  unfold uncrossed
  rw [hb1, ha1]
  show decide (e1.1 < e2.1) = true
  simp only [decide_eq_true_eq]
  omega

/-- cancel_order never grows a side's key list. -/
theorem cancel_keys_sublist (bk : Orderbook) (id : Nat) :
    List.Sublist (bidKeys (bk.cancel_order id).2) (bidKeys bk) ∧
    List.Sublist (askKeys (bk.cancel_order id).2) (askKeys bk) := by
  cases hg : Orders.get bk.orders id with
  | none =>
    have hbook : (bk.cancel_order id).2 = bk := by
      unfold Orderbook.cancel_order
      rw [hg]
    rw [hbook]
    exact ⟨List.Sublist.refl _, List.Sublist.refl _⟩
  | some o =>
    cases hs : o.side
    · cases hl : lookupLevel bk.bids o.price with
      | none =>
        have hbook : (bk.cancel_order id).2 =
            { bk with orders := Orders.delete bk.orders id } := by
          simp only [Orderbook.cancel_order, hg, hs, hl]
        rw [hbook]
        exact ⟨List.Sublist.refl _, List.Sublist.refl _⟩
      | some q =>
        have hbook : (bk.cancel_order id).2 =
            { bk with orders := Orders.delete bk.orders id,
                      bids := if (Orders.delete q id).isEmpty
                        then removeLevel o.price bk.bids
                        else updateLevel bk.bids o.price
                          (fun _ => Orders.delete q id) } := by
          simp only [Orderbook.cancel_order, hg, hs, hl]
        rw [hbook]
        refine ⟨?_, List.Sublist.refl _⟩
        show List.Sublist ((if (Orders.delete q id).isEmpty
            then removeLevel o.price bk.bids
            else updateLevel bk.bids o.price (fun _ => Orders.delete q id)).map
            Prod.fst) (bk.bids.map Prod.fst)
        split
        · exact (removeLevel_sublist _ _).map _
        · rw [keys_updateLevel]
    · cases hl : lookupLevel bk.asks o.price with
      | none =>
        have hbook : (bk.cancel_order id).2 =
            { bk with orders := Orders.delete bk.orders id } := by
          simp only [Orderbook.cancel_order, hg, hs, hl]
        rw [hbook]
        exact ⟨List.Sublist.refl _, List.Sublist.refl _⟩
      | some q =>
        have hbook : (bk.cancel_order id).2 =
            { bk with orders := Orders.delete bk.orders id,
                      asks := if (Orders.delete q id).isEmpty
                        then removeLevel o.price bk.asks
                        else updateLevel bk.asks o.price
                          (fun _ => Orders.delete q id) } := by
          simp only [Orderbook.cancel_order, hg, hs, hl]
        rw [hbook]
        refine ⟨List.Sublist.refl _, ?_⟩
        show List.Sublist ((if (Orders.delete q id).isEmpty
            then removeLevel o.price bk.asks
            else updateLevel bk.asks o.price (fun _ => Orders.delete q id)).map
            Prod.fst) (bk.asks.map Prod.fst)
        split
        · exact (removeLevel_sublist _ _).map _
        · rw [keys_updateLevel]

/-- Cancelling any list of ids keeps a well-formed uncrossed book
uncrossed. -/
theorem uncrossed_foldl_cancel {L : List Nat} {bk : Orderbook} (hInv : Inv bk)
    (hu : uncrossed bk = true) :
    uncrossed (L.foldl (fun b id => (Orderbook.cancel_order b id).2) bk)
      = true := by
  induction L generalizing bk with
  | nil => exact hu
  | cons a rest ih =>
    refine ih (Inv_cancel hInv) ?_
    exact uncrossed_mono hInv.sortedBids hInv.sortedAsks
      (cancel_keys_sublist bk a).1 (cancel_keys_sublist bk a).2 hu

/-- Every reachable book is well formed. -/
theorem Reachable_Inv {bk : Orderbook} (h : Reachable bk) : Inv bk := by
  induction h with
  | empty => exact Inv_new
  | add bk id t s p q _ ih => exact Inv_add_order ih
  | cancel bk id _ ih => exact Inv_cancel ih
  | modify bk id q _ ih => exact Inv_modify ih
  | matched bk _ ih => exact Inv_match_orders ih
  | pruned bk _ ih => exact Inv_prune ih
  | cleared bk _ ih => exact Inv_clear ih

/-- C1: for every reachable book state, after match_orders returns, either
the bid side is empty, or the ask side is empty, or the best (highest) bid
price is strictly less than the best (lowest) ask price — the book is never
left crossed. -/
theorem c1_match_orders_uncrossed (bk : Orderbook) (h : Reachable bk) :
    uncrossed bk.match_orders = true := by
  have hInv := Reachable_Inv h
  have hmid : (Orderbook.match_loop (levelOrdersCount bk + 1) bk).match_cond
      = false := match_loop_exit hInv (Nat.lt_succ_self _)
  have hImid : Inv (Orderbook.match_loop (levelOrdersCount bk + 1) bk) :=
    Inv_match_loop hInv
  have humid : uncrossed (Orderbook.match_loop (levelOrdersCount bk + 1) bk)
      = true := uncrossed_of_cond_false hmid
  show uncrossed
    (Orderbook.sweep (Orderbook.match_loop (levelOrdersCount bk + 1) bk)) = true
  exact uncrossed_foldl_cancel hImid humid

theorem c1_witness :
    Reachable ((Orderbook.new.add_order
        (Order.new 1 OrderType.GoodTillCancelled Side.Buy 100 50)).2.add_order
        (Order.new 2 OrderType.GoodTillCancelled Side.Sell 90 30)).2 ∧
    uncrossed ((Orderbook.new.add_order
        (Order.new 1 OrderType.GoodTillCancelled Side.Buy 100 50)).2.add_order
        (Order.new 2 OrderType.GoodTillCancelled Side.Sell 90 30)).2.match_orders
      = true :=
  ⟨Reachable.add _ 2 OrderType.GoodTillCancelled Side.Sell 90 30
      (Reachable.add _ 1 OrderType.GoodTillCancelled Side.Buy 100 50
        Reachable.empty),
   c1_match_orders_uncrossed _
     (Reachable.add _ 2 OrderType.GoodTillCancelled Side.Sell 90 30
       (Reachable.add _ 1 OrderType.GoodTillCancelled Side.Buy 100 50
         Reachable.empty))⟩

/-- A well-formed crossed book used to witness the trade-record theorem. -/
def c4Book : Orderbook :=
  ((Orderbook.new.add_order
    (Order.new 1 OrderType.GoodTillCancelled Side.Buy 100 50)).2.add_order
    (Order.new 2 OrderType.GoodTillCancelled Side.Sell 90 30)).2

/-- C4: every Trade appended by the matching loop has identical price and
identical quantity in its bid-side and ask-side TradeInfo records and two
distinct order ids; its quantity is the minimum of the head bid and head ask
remaining quantities, and its price is the best ask price, except when the
best ask price equals the minimum sentinel price, in which case it is the
best bid price. -/
theorem c4_trade_record (bk : Orderbook) (hInv : Inv bk)
    (hc : bk.match_cond = true) :
    ∃ bp brest ap arest bo bt atl ao,
      bk.bids = (bp, bo :: bt) :: brest ∧
      bk.asks = (ap, ao :: atl) :: arest ∧
      bo.order_id ≠ ao.order_id ∧
      bk.match_step.trades = bk.trades ++
        [{ bid_trade := ⟨bo.order_id, (if ap == Price.min then bp else ap),
             min bo.remaining_quantity ao.remaining_quantity⟩,
           ask_trade := ⟨ao.order_id, (if ap == Price.min then bp else ap),
             min bo.remaining_quantity ao.remaining_quantity⟩ }] := by
  rcases hb : bk.bids with _ | ⟨⟨bp, bq⟩, brest⟩
  · exfalso
    unfold Orderbook.match_cond at hc
    rw [hb] at hc
    simp at hc
  rcases ha : bk.asks with _ | ⟨⟨ap, aq⟩, arest⟩
  · exfalso
    unfold Orderbook.match_cond at hc
    rw [hb, ha] at hc
    simp at hc
  rcases hbq : bq with _ | ⟨bo, bt⟩
  · exact absurd hbq (hInv.neBids (bp, bq)
      (by rw [hb]; exact List.mem_cons_self _ _))
  rcases haq : aq with _ | ⟨ao, atl⟩
  · exact absurd haq (hInv.neAsks (ap, aq)
      (by rw [ha]; exact List.mem_cons_self _ _))
  have hb' : bk.bids = (bp, bo :: bt) :: brest := by rw [hb, hbq]
  have ha' : bk.asks = (ap, ao :: atl) :: arest := by rw [ha, haq]
  refine ⟨bp, brest, ap, arest, bo, bt, atl, ao, rfl, rfl, ?_, ?_⟩
  · have hSb : sideOrders bk.bids = bo :: (bt ++ sideOrders brest) := by
      rw [hb']
      rfl
    have hSa : sideOrders bk.asks = ao :: (atl ++ sideOrders arest) := by
      rw [ha']
      rfl
    have hnd : ((bo :: (bt ++ sideOrders brest)).map Order.order_id ++
        (ao :: (atl ++ sideOrders arest)).map Order.order_id).Nodup := by
      have h0 := hInv.nodupLevel
      unfold levelIds allLevelOrders at h0
      rw [hSb, hSa, List.map_append] at h0
      exact h0
    rw [List.nodup_append] at hnd
    obtain ⟨_, _, hdisj⟩ := hnd
    simp only [List.map_cons] at hdisj
    intro heq
    exact (hdisj (List.mem_cons_self _ _)) (heq ▸ List.mem_cons_self _ _)
  · rw [match_step_eq hb' ha']

theorem c4_witness :
    Orderbook.match_cond c4Book = true ∧
    ∃ bp brest ap arest bo bt atl ao,
      c4Book.bids = (bp, bo :: bt) :: brest ∧
      c4Book.asks = (ap, ao :: atl) :: arest ∧
      bo.order_id ≠ ao.order_id ∧
      c4Book.match_step.trades = c4Book.trades ++
        [{ bid_trade := ⟨bo.order_id, (if ap == Price.min then bp else ap),
             min bo.remaining_quantity ao.remaining_quantity⟩,
           ask_trade := ⟨ao.order_id, (if ap == Price.min then bp else ap),
             min bo.remaining_quantity ao.remaining_quantity⟩ }] :=
  ⟨by decide, c4_trade_record c4Book (Inv_add_order (Inv_add_order Inv_new))
    (by decide)⟩

/-- cancel_order either leaves the index alone (unknown id) or deletes the
id's entry from it. -/
theorem cancel_order_orders_eq (bk : Orderbook) (id : Nat) :
    ((bk.cancel_order id).2.orders = bk.orders ∧
      Orders.get bk.orders id = none) ∨
    (bk.cancel_order id).2.orders = Orders.delete bk.orders id := by
  cases hg : Orders.get bk.orders id with
  | none =>
    left
    refine ⟨?_, rfl⟩
    unfold Orderbook.cancel_order
    rw [hg]
  | some o =>
    right
    cases hs : o.side
    · cases hl : lookupLevel bk.bids o.price with
      | none => simp only [Orderbook.cancel_order, hg, hs, hl]
      | some q => simp only [Orderbook.cancel_order, hg, hs, hl]
    · cases hl : lookupLevel bk.asks o.price with
      | none => simp only [Orderbook.cancel_order, hg, hs, hl]
      | some q => simp only [Orderbook.cancel_order, hg, hs, hl]

/-- Cancelling an id leaves no index entry with that id. -/
theorem cancel_id_not_in_index {bk : Orderbook} {id : Nat}
    (hnd : (indexIds bk).Nodup) : id ∉ indexIds (bk.cancel_order id).2 := by
  rcases cancel_order_orders_eq bk id with ⟨heq, hg⟩ | heq
  · intro hmem
    unfold indexIds at hmem
    rw [heq] at hmem
    rcases List.mem_map.1 hmem with ⟨o, ho, hoid⟩
    unfold Orders.get at hg
    have h1 := List.find?_eq_none.1 hg o ho
    rw [hoid] at h1
    exact h1 (beq_self_eq_true id)
  · intro hmem
    unfold indexIds at hmem
    rw [heq, Orders.ids_delete] at hmem
    exact ((hnd.mem_erase_iff).1 hmem).1 rfl

/-- An id absent from the index stays absent through any cancellations. -/
theorem not_mem_index_foldl {L : List Nat} {bk : Orderbook} {id : Nat}
    (h : id ∉ indexIds bk) :
    id ∉ indexIds (L.foldl (fun b j => (Orderbook.cancel_order b j).2) bk) := by
  intro hmem
  rcases List.mem_map.1 hmem with ⟨o, ho, hoid⟩
  exact h (hoid ▸ List.mem_map_of_mem _ (orders_foldl_cancel ho))

/-- Cancelling every id of a list removes each of them from the index. -/
theorem foldl_cancel_removes {L : List Nat} {bk : Orderbook} (hInv : Inv bk) :
    ∀ i ∈ L,
      i ∉ indexIds (L.foldl (fun b j => (Orderbook.cancel_order b j).2) bk) := by
  induction L generalizing bk with
  | nil =>
    intro i hi
    cases hi
  | cons a rest ih =>
    intro i hi
    rcases List.mem_cons.1 hi with rfl | hi2
    · show i ∉ indexIds
        (rest.foldl (fun b j => (Orderbook.cancel_order b j).2)
          (bk.cancel_order i).2)
      exact not_mem_index_foldl (cancel_id_not_in_index hInv.nodupIndex)
    · exact ih (Inv_cancel hInv) i hi2

/-- Cancelling one id keeps every other live order, in the index and in the
levels. -/
theorem cancel_order_keeps {bk : Orderbook} {id : Nat} (hInv : Inv bk) :
    (∀ o' ∈ bk.orders, o'.order_id ≠ id → o' ∈ (bk.cancel_order id).2.orders) ∧
    (∀ o' ∈ allLevelOrders bk, o'.order_id ≠ id →
      o' ∈ allLevelOrders (bk.cancel_order id).2) := by
  cases hg : Orders.get bk.orders id with
  | none =>
    have hbook : (bk.cancel_order id).2 = bk := by
      unfold Orderbook.cancel_order
      rw [hg]
    rw [hbook]
    exact ⟨fun o' h _ => h, fun o' h _ => h⟩
  | some o =>
    obtain ⟨hoMem, hoid⟩ := Orders.get_eq_some hg
    have hidIdx : id ∈ indexIds bk := hoid ▸ List.mem_map_of_mem _ hoMem
    have hidLvl : id ∈ levelIds bk := hInv.indexSubLevel _ hidIdx
    obtain ⟨x0, hx0Mem, hx0id⟩ := List.mem_map.1 hidLvl
    have hagree := hInv.agree x0 hx0Mem o hoMem (by rw [hoid, hx0id])
    cases hs : o.side
    · -- Buy side
      have hx0side : x0.side = Side.Buy := by rw [← hagree.1, hs]
      have hx0bids : x0 ∈ sideOrders bk.bids := by
        rcases List.mem_append.1 hx0Mem with h1 | h1
        · exact h1
        · exfalso
          rcases mem_sideOrders.1 h1 with ⟨e, he, hoe⟩
          have h2 := (hInv.placedA e he x0 hoe).2
          rw [hx0side] at h2
          exact Side.noConfusion h2
      rcases mem_sideOrders.1 hx0bids with ⟨e, he, hoe⟩
      have hkey : e.1 = o.price := by
        have h1 := (hInv.placedB e he x0 hoe).1
        rw [← h1]
        exact hagree.2.1.symm
      have hkeys : o.price ∈ bk.bids.map Prod.fst :=
        hkey ▸ List.mem_map_of_mem Prod.fst he
      have hndkb := keys_nodup_of_pairwise_bid hInv.sortedBids
      cases hl : lookupLevel bk.bids o.price with
      | none => exact absurd (lookup_isSome_of_mem_keys hkeys) (by rw [hl]; simp)
      | some q =>
        have he_eq : e = (o.price, q) := eq_entry_of_lookup hndkb hl he hkey
        have hx0q : x0 ∈ q := by
          rw [he_eq] at hoe
          exact hoe
        have hidq : id ∈ q.map Order.order_id :=
          hx0id ▸ List.mem_map_of_mem _ hx0q
        obtain ⟨hsub, hkeeps, hnotmem, hksub, hne', hP'⟩ :=
          cancelSide_facts (P := fun o2 k => o2.price = k ∧ o2.side = Side.Buy)
            hndkb hl hidq (bids_ids_nodup hInv) hInv.neBids hInv.placedB
        have hbook : (bk.cancel_order id).2 =
            { bk with orders := Orders.delete bk.orders id,
                      bids := if (Orders.delete q id).isEmpty
                        then removeLevel o.price bk.bids
                        else updateLevel bk.bids o.price
                          (fun _ => Orders.delete q id) } := by
          simp only [Orderbook.cancel_order, hg, hs, hl]
        rw [hbook]
        constructor
        · intro o' ho' hne
          show o' ∈ Orders.delete bk.orders id
          exact Orders.mem_delete_of_ne ho' hne
        · intro o' ho' hne
          show o' ∈ sideOrders (if (Orders.delete q id).isEmpty
              then removeLevel o.price bk.bids
              else updateLevel bk.bids o.price (fun _ => Orders.delete q id)) ++
            sideOrders bk.asks
          rcases List.mem_append.1 ho' with h1 | h1
          · exact List.mem_append.2 (Or.inl (hkeeps o' h1 hne))
          · exact List.mem_append.2 (Or.inr h1)
    · -- Sell side
      have hx0side : x0.side = Side.Sell := by rw [← hagree.1, hs]
      have hx0asks : x0 ∈ sideOrders bk.asks := by
        rcases List.mem_append.1 hx0Mem with h1 | h1
        · exfalso
          rcases mem_sideOrders.1 h1 with ⟨e, he, hoe⟩
          have h2 := (hInv.placedB e he x0 hoe).2
          rw [hx0side] at h2
          exact Side.noConfusion h2
        · exact h1
      rcases mem_sideOrders.1 hx0asks with ⟨e, he, hoe⟩
      have hkey : e.1 = o.price := by
        have h1 := (hInv.placedA e he x0 hoe).1
        rw [← h1]
        exact hagree.2.1.symm
      have hkeys : o.price ∈ bk.asks.map Prod.fst :=
        hkey ▸ List.mem_map_of_mem Prod.fst he
      have hndka := keys_nodup_of_pairwise_ask hInv.sortedAsks
      cases hl : lookupLevel bk.asks o.price with
      | none => exact absurd (lookup_isSome_of_mem_keys hkeys) (by rw [hl]; simp)
      | some q =>
        have he_eq : e = (o.price, q) := eq_entry_of_lookup hndka hl he hkey
        have hx0q : x0 ∈ q := by
          rw [he_eq] at hoe
          exact hoe
        have hidq : id ∈ q.map Order.order_id :=
          hx0id ▸ List.mem_map_of_mem _ hx0q
        obtain ⟨hsub, hkeeps, hnotmem, hksub, hne', hP'⟩ :=
          cancelSide_facts (P := fun o2 k => o2.price = k ∧ o2.side = Side.Sell)
            hndka hl hidq (asks_ids_nodup hInv) hInv.neAsks hInv.placedA
        have hbook : (bk.cancel_order id).2 =
            { bk with orders := Orders.delete bk.orders id,
                      asks := if (Orders.delete q id).isEmpty
                        then removeLevel o.price bk.asks
                        else updateLevel bk.asks o.price
                          (fun _ => Orders.delete q id) } := by
          simp only [Orderbook.cancel_order, hg, hs, hl]
        rw [hbook]
        constructor
        · intro o' ho' hne
          show o' ∈ Orders.delete bk.orders id
          exact Orders.mem_delete_of_ne ho' hne
        · intro o' ho' hne
          show o' ∈ sideOrders bk.bids ++
            sideOrders (if (Orders.delete q id).isEmpty
              then removeLevel o.price bk.asks
              else updateLevel bk.asks o.price (fun _ => Orders.delete q id))
          rcases List.mem_append.1 ho' with h1 | h1
          · exact List.mem_append.2 (Or.inl h1)
          · exact List.mem_append.2 (Or.inr (hkeeps o' h1 hne))

/-- Cancelling a list of ids keeps every order whose id is not listed. -/
theorem foldl_cancel_keeps {L : List Nat} {bk : Orderbook} (hInv : Inv bk) :
    (∀ o' ∈ bk.orders, o'.order_id ∉ L →
      o' ∈ (L.foldl (fun b j => (Orderbook.cancel_order b j).2) bk).orders) ∧
    (∀ o' ∈ allLevelOrders bk, o'.order_id ∉ L →
      o' ∈ allLevelOrders
        (L.foldl (fun b j => (Orderbook.cancel_order b j).2) bk)) := by
  induction L generalizing bk with
  | nil => exact ⟨fun o' h _ => h, fun o' h _ => h⟩
  | cons a rest ih =>
    constructor
    · intro o' ho' hnin
      have hne : o'.order_id ≠ a := fun hc => hnin (hc ▸ List.mem_cons_self _ _)
      have h1 : o' ∈ (bk.cancel_order a).2.orders :=
        (cancel_order_keeps hInv).1 o' ho' hne
      exact (ih (Inv_cancel hInv)).1 o' h1
        (fun hc => hnin (List.mem_cons_of_mem _ hc))
    · intro o' ho' hnin
      have hne : o'.order_id ≠ a := fun hc => hnin (hc ▸ List.mem_cons_self _ _)
      have h1 : o' ∈ allLevelOrders (bk.cancel_order a).2 :=
        (cancel_order_keeps hInv).2 o' ho' hne
      exact (ih (Inv_cancel hInv)).2 o' h1
        (fun hc => hnin (List.mem_cons_of_mem _ hc))

/-- The swept ids are exactly the ids of the FillAndKill and Market orders
of the two best levels. -/
theorem mem_sweep_ids {bk : Orderbook} {i : Nat} :
    i ∈ bk.sweep_ids ↔
      ∃ o, ((∃ e, bk.bids.head? = some e ∧ o ∈ e.2) ∨
            (∃ e, bk.asks.head? = some e ∧ o ∈ e.2)) ∧
        o.order_id = i ∧
        (o.order_type = OrderType.FillAndKill ∨
          o.order_type = OrderType.Market) := by
  have hlist : ∀ L : List Order,
      i ∈ (L.filter (fun o => (o.order_type == OrderType.FillAndKill) ||
          (o.order_type == OrderType.Market))).map (fun o => o.order_id) ↔
        ∃ o ∈ L, o.order_id = i ∧
          (o.order_type = OrderType.FillAndKill ∨
            o.order_type = OrderType.Market) := by
    intro L
    constructor
    · intro h
      rcases List.mem_map.1 h with ⟨o, ho, hoid⟩
      have h2 := List.mem_filter.1 ho
      refine ⟨o, h2.1, hoid, ?_⟩
      have h3 := h2.2
      simp only [Bool.or_eq_true, beq_iff_eq] at h3
      exact h3
    · rintro ⟨o, ho, hoid, ht⟩
      refine List.mem_map.2 ⟨o, List.mem_filter.2 ⟨ho, ?_⟩, hoid⟩
      simp only [Bool.or_eq_true, beq_iff_eq]
      exact ht
  unfold Orderbook.sweep_ids
  cases hbh : bk.bids.head? with
  | none =>
    cases hah : bk.asks.head? with
    | none =>
      constructor
      · intro h
        exact absurd h (by simp)
      · rintro ⟨o, (⟨e, he, _⟩ | ⟨e, he, _⟩), _, _⟩ <;> exact Option.noConfusion he
    | some a =>
      constructor
      · intro h
        have h2 : i ∈ (a.2.filter (fun o =>
            (o.order_type == OrderType.FillAndKill) ||
            (o.order_type == OrderType.Market))).map (fun o => o.order_id) := by
          simpa using h
        rcases (hlist a.2).1 h2 with ⟨o, ho, hoid, ht⟩
        exact ⟨o, Or.inr ⟨a, rfl, ho⟩, hoid, ht⟩
      · rintro ⟨o, hmem, hoid, ht⟩
        rcases hmem with ⟨e, he, hoe⟩ | ⟨e, he, hoe⟩
        · exact Option.noConfusion he
        · obtain rfl := Option.some.inj he
          show i ∈ [] ++ _
          exact List.mem_append.2 (Or.inr ((hlist a.2).2 ⟨o, hoe, hoid, ht⟩))
  | some b =>
    cases hah : bk.asks.head? with
    | none =>
      constructor
      · intro h
        have h2 : i ∈ (b.2.filter (fun o =>
            (o.order_type == OrderType.FillAndKill) ||
            (o.order_type == OrderType.Market))).map (fun o => o.order_id) := by
          simpa using h
        rcases (hlist b.2).1 h2 with ⟨o, ho, hoid, ht⟩
        exact ⟨o, Or.inl ⟨b, rfl, ho⟩, hoid, ht⟩
      · rintro ⟨o, hmem, hoid, ht⟩
        rcases hmem with ⟨e, he, hoe⟩ | ⟨e, he, hoe⟩
        · obtain rfl := Option.some.inj he
          show i ∈ _ ++ []
          exact List.mem_append.2 (Or.inl ((hlist b.2).2 ⟨o, hoe, hoid, ht⟩))
        · exact Option.noConfusion he
    | some a =>
      constructor
      · intro h
        rcases List.mem_append.1 h with h1 | h1
        · rcases (hlist b.2).1 h1 with ⟨o, ho, hoid, ht⟩
          exact ⟨o, Or.inl ⟨b, rfl, ho⟩, hoid, ht⟩
        · rcases (hlist a.2).1 h1 with ⟨o, ho, hoid, ht⟩
          exact ⟨o, Or.inr ⟨a, rfl, ho⟩, hoid, ht⟩
      · rintro ⟨o, hmem, hoid, ht⟩
        rcases hmem with ⟨e, he, hoe⟩ | ⟨e, he, hoe⟩
        · obtain rfl := Option.some.inj he
          exact List.mem_append.2 (Or.inl ((hlist b.2).2 ⟨o, hoe, hoid, ht⟩))
        · obtain rfl := Option.some.inj he
          exact List.mem_append.2 (Or.inr ((hlist a.2).2 ⟨o, hoe, hoid, ht⟩))

/-- A reachable book whose matching leaves a partially filled FillAndKill
order at the head of the bid side, exercising the sweep. -/
def c5Book : Orderbook :=
  ((Orderbook.new.add_order
    (Order.new 1 OrderType.GoodTillCancelled Side.Sell 100 50)).2.add_order
    (Order.new 2 OrderType.FillAndKill Side.Buy 100 80)).2

/-- A reachable book on which the matching loop does nothing and a
FillAndKill order rests behind the head of the best bid level: a
GoodTillCancelled bid, a resting ask at the same price (making the
FillAndKill bid admissible), the FillAndKill bid queued behind the head,
and the ask then cancelled. -/
def c5XBook : Orderbook :=
  ((((Orderbook.new.add_order
    (Order.new 1 OrderType.GoodTillCancelled Side.Buy 100 50)).2.add_order
    (Order.new 2 OrderType.GoodTillCancelled Side.Sell 100 40)).2.add_order
    (Order.new 3 OrderType.FillAndKill Side.Buy 100 30)).2.cancel_order 2).2

/-- Claim C5 counterexample: the claim says the sweep examines only the
order(s) at the head of the best levels and leaves every other order in
place.  On this reachable book the matching loop runs zero iterations (the
ask side is empty), the head of the best — and only — bid level is the
GoodTillCancelled order 1, and the FillAndKill order 3 rests behind it;
yet match_orders cancels order 3 from both the level and the index while
the head order 1 survives: the source sweeps the whole best-level queue,
not only its head. -/
theorem c5_counterexample :
    Reachable c5XBook ∧
    Orderbook.match_loop (levelOrdersCount c5XBook + 1) c5XBook = c5XBook ∧
    c5XBook.bids.map (fun e => (e.1, e.2.map Order.order_id)) =
      [(100, [1, 3])] ∧
    (allLevelOrders c5XBook).map (fun o => (o.order_id, o.order_type)) =
      [(1, OrderType.GoodTillCancelled), (3, OrderType.FillAndKill)] ∧
    c5XBook.asks = [] ∧
    3 ∉ indexIds c5XBook.match_orders ∧
    3 ∉ levelIds c5XBook.match_orders ∧
    1 ∈ indexIds c5XBook.match_orders ∧
    1 ∈ levelIds c5XBook.match_orders := by
  refine ⟨?_, by decide, by decide, by decide, by decide, by decide,
    by decide, by decide, by decide⟩
  exact Reachable.cancel _ 2
    (Reachable.add _ 3 OrderType.FillAndKill Side.Buy 100 30
      (Reachable.add _ 2 OrderType.GoodTillCancelled Side.Sell 100 40
        (Reachable.add _ 1 OrderType.GoodTillCancelled Side.Buy 100 50
          Reachable.empty)))

/-- Claim C5 (amended): after the matching loop of match_orders exits, the
sweep examines every order of the best remaining bid level and the best
remaining ask level — the whole level queues, not only their heads, which
is what the counterexample exploits — cancels exactly those whose
order_type is FillAndKill or Market (removing them from the book and the
index), cancels no other order, and adds none. -/
theorem c5_sweep_spec (bk : Orderbook) (h : Reachable bk) :
    bk.match_orders =
      Orderbook.sweep (Orderbook.match_loop (levelOrdersCount bk + 1) bk) ∧
    (∀ i, i ∈ (Orderbook.match_loop (levelOrdersCount bk + 1) bk).sweep_ids ↔
      ∃ o, ((∃ e, (Orderbook.match_loop (levelOrdersCount bk + 1) bk).bids.head?
              = some e ∧ o ∈ e.2) ∨
            (∃ e, (Orderbook.match_loop (levelOrdersCount bk + 1) bk).asks.head?
              = some e ∧ o ∈ e.2)) ∧
        o.order_id = i ∧
        (o.order_type = OrderType.FillAndKill ∨
          o.order_type = OrderType.Market)) ∧
    (∀ i ∈ (Orderbook.match_loop (levelOrdersCount bk + 1) bk).sweep_ids,
      i ∉ indexIds bk.match_orders ∧ i ∉ levelIds bk.match_orders) ∧
    (∀ o' ∈ (Orderbook.match_loop (levelOrdersCount bk + 1) bk).orders,
      o'.order_id ∉ (Orderbook.match_loop (levelOrdersCount bk + 1) bk).sweep_ids
      → o' ∈ bk.match_orders.orders) ∧
    (∀ o' ∈ allLevelOrders (Orderbook.match_loop (levelOrdersCount bk + 1) bk),
      o'.order_id ∉ (Orderbook.match_loop (levelOrdersCount bk + 1) bk).sweep_ids
      → o' ∈ allLevelOrders bk.match_orders) ∧
    (∀ o' ∈ allLevelOrders bk.match_orders,
      o' ∈ allLevelOrders (Orderbook.match_loop (levelOrdersCount bk + 1) bk)) ∧
    (∀ o' ∈ bk.match_orders.orders,
      o' ∈ (Orderbook.match_loop (levelOrdersCount bk + 1) bk).orders) := by
  have hInv := Reachable_Inv h
  have hImid : Inv (Orderbook.match_loop (levelOrdersCount bk + 1) bk) :=
    Inv_match_loop hInv
  refine ⟨rfl, fun i => mem_sweep_ids, ?_, ?_, ?_, ?_, ?_⟩
  · intro i hi
    have hidx : i ∉ indexIds bk.match_orders :=
      foldl_cancel_removes hImid i hi
    exact ⟨hidx, fun hl => hidx ((Inv_match_orders hInv).levelSubIndex _ hl)⟩
  · intro o' ho' hni
    exact (foldl_cancel_keeps hImid).1 o' ho' hni
  · intro o' ho' hni
    exact (foldl_cancel_keeps hImid).2 o' ho' hni
  · intro o' ho'
    exact mem_foldl_cancel ho'
  · intro o' ho'
    exact orders_foldl_cancel ho'

theorem c5_witness :
    Reachable c5Book ∧
    c5Book.match_orders =
      Orderbook.sweep (Orderbook.match_loop (levelOrdersCount c5Book + 1)
        c5Book) := by
  have hr : Reachable c5Book :=
    Reachable.add _ 2 OrderType.FillAndKill Side.Buy 100 80
      (Reachable.add _ 1 OrderType.GoodTillCancelled Side.Sell 100 50
        Reachable.empty)
  exact ⟨hr, (c5_sweep_spec c5Book hr).1⟩

end Matchbook
